import Mathlib

/-!
Verification of `src/_Blender/SM_Developer_Plane.py`, a batch plane generator
and FBX exporter script for Blender.

The script is embedded shallowly:
* Python floats are modelled as exact rationals (`ℚ`); Python `round`
  (round half to even) is `pyRound`.
* Blender's document state (`bpy.data.collections`, `bpy.data.objects`,
  the scene collection's children and objects) is modelled by `Doc`.
  Blender keys collections and objects by name (names are unique in
  `bpy.data`), so links are modelled as lists of names.
* Fallible Python code (`ZeroDivisionError`, `KeyError` on dict lookup)
  is modelled in the `Option` monad.
* Python string operations are modelled on the character list (`String.data`)
  of the string, which matches Python semantics code point for code point.
-/

/-- Python `round`: round a rational to the nearest integer, ties to the even
integer (banker's rounding, the semantics of Python 3 `round`). -/
def pyRound (q : ℚ) : ℤ :=
  if q - ⌊q⌋ < 1/2 then ⌊q⌋
  else if 1/2 < q - ⌊q⌋ then ⌊q⌋ + 1
  else if ⌊q⌋ % 2 = 0 then ⌊q⌋ else ⌊q⌋ + 1

/-- Python `range(n)` for a possibly negative bound `n : ℤ`:
the list `[0, 1, …, n-1]`, empty when `n ≤ 0`. -/
def intRange (n : ℤ) : List ℤ :=
  (List.range n.toNat).map (fun i => Int.ofNat i)

/-- Python `str.isdigit`: nonempty and every character a (decimal) digit. -/
def pyIsDigit (s : String) : Bool :=
  !s.data.isEmpty && s.data.all Char.isDigit

/-- Python `c in s` for a single-character needle: the character occurs in `s`. -/
def pyStrContains (s : String) (c : Char) : Bool :=
  s.data.contains c

/-- Python `s.startswith(p)`. -/
def pyStartsWith (s p : String) : Bool :=
  p.data.isPrefixOf s.data

/-- Numeric value of a list of decimal digit characters
(the computation Python `int(s)` performs on an all-digit string). -/
def intOfDigitChars (l : List Char) : ℤ :=
  (l.foldl (fun n c => 10 * n + (c.toNat - 48)) 0 : ℕ)

/-- Python `int(s)` restricted to the all-digit strings the script applies it to. -/
def strToInt (s : String) : ℤ :=
  intOfDigitChars s.data

/-- Python `s.split(sep)` for a single-character separator, on character lists:
`splitOnChar 'x' "20x40".data = ["20".data, "40".data]`. -/
def splitOnChar (c : Char) : List Char → List (List Char)
  | [] => [[]]
  | a :: as =>
    match splitOnChar c as with
    | [] => [[]]
    | g :: gs => if a = c then [] :: g :: gs else (a :: g) :: gs

/-- The module-level user settings of the script
(`PLANE_SUBDIVISION_SIZE`, `EXPORT_BASE_DIR`, `PLANE_SIZES_CM`, `EXPORT_TO_FBX`). -/
structure Config where
  subdivisionSize : ℚ
  exportBaseDir : String
  sizesCm : List ℤ
  exportToFbx : Bool
deriving DecidableEq

/-- The settings as written in the script. -/
def defaultConfig : Config :=
  { subdivisionSize := 1/5
  , exportBaseDir := "D:\\Projects\\Personal\\Unreal Projects\\PSXSandboxProject\\_Blender\\Exported"
  , sizesCm := [20, 40, 60, 80, 100, 120, 140, 160, 180, 200]
  , exportToFbx := true }

/-- `PLANE_SIZES_M = [s / 100 for s in PLANE_SIZES_CM]`. -/
def planeSizesM (cfg : Config) : List ℚ :=
  cfg.sizesCm.map (fun s => (Int.cast s : ℚ) / 100)

/-- `PLANE_SIZE_PAIRS = list(itertools.product(PLANE_SIZES_M, PLANE_SIZES_M))`. -/
def planeSizePairs (cfg : Config) : List (ℚ × ℚ) :=
  (planeSizesM cfg).flatMap (fun w => (planeSizesM cfg).map (fun h => (w, h)))

/-- A bmesh vertex: its coordinate triple. -/
structure Vert where
  x : ℚ
  y : ℚ
  z : ℚ
deriving DecidableEq

/-- A face loop: the loop's vertex together with its UV coordinate in the
mesh's UV layer (`none` when the mesh has no UV layer, as for the UCX proxy). -/
structure Loop where
  vert : Vert
  uv : Option (ℚ × ℚ)
deriving DecidableEq

/-- A mesh face, as its list of loops. -/
structure Face where
  loops : List Loop
deriving DecidableEq

/-- Mesh data: vertex list and face list. -/
structure MeshData where
  verts : List Vert
  faces : List Face
deriving DecidableEq

/-- A `bpy.data.objects` entry: name, object type and mesh data. -/
structure PObject where
  name : String
  objType : String
  mesh : MeshData
deriving DecidableEq

/-- The vertex triple of a face, used by `bmesh`'s duplicate-face detection. -/
def faceVerts (f : Face) : List Vert :=
  f.loops.map (fun l => l.vert)

/-- Python division, raising (`none`) on a zero divisor. -/
def pyDiv (a b : ℚ) : Option ℚ :=
  if b = 0 then none else some (a / b)

/-- Build one face from a vertex triple and assign each loop's UV by the
script's normalization `u = (vx - min_x) / (max_x - min_x)`,
`v = (vy - min_y) / (max_y - min_y)`. -/
def mkFace (mnx mxx mny mxy : ℚ) (tri : Vert × Vert × Vert) : Option Face := do
  let mk := fun (v : Vert) => do
    let u ← pyDiv (v.x - mnx) (mxx - mnx)
    let vv ← pyDiv (v.y - mny) (mxy - mny)
    pure (Loop.mk v (some (u, vv)))
  let l0 ← mk tri.1
  let l1 ← mk tri.2.1
  let l2 ← mk tri.2.2
  pure ⟨[l0, l1, l2]⟩

/-- One step of the inner face loop: `bm.faces.new(tri)` with its
`except ValueError: face = bm.faces.get(tri)` fallback, followed by writing
the UVs of the face's loops.  Over the model this is get-or-create keyed on
the vertex triple, then (re)setting that face's loop UVs. -/
def addTri (mnx mxx mny mxy : ℚ) (fs : List Face) (tri : Vert × Vert × Vert) :
    Option (List Face) := do
  let f ← mkFace mnx mxx mny mxy tri
  if fs.any (fun g => decide (faceVerts g = [tri.1, tri.2.1, tri.2.2])) then
    pure (fs.map (fun g => if faceVerts g = [tri.1, tri.2.1, tri.2.2] then f else g))
  else
    pure (fs ++ [f])

/-- The four grid corners of cell `(y, x)` and the two triangles
`[(v0, v1, v2), (v1, v3, v2)]` the script builds from them
("always split from top-left to bottom-right"). -/
def cellTris (grid : List (List Vert)) (y x : Nat) :
    Option (List (Vert × Vert × Vert)) := do
  let row0 ← grid[y]?
  let row1 ← grid[y+1]?
  let v0 ← row0[x]?
  let v1 ← row0[x+1]?
  let v2 ← row1[x]?
  let v3 ← row1[x+1]?
  pure [(v0, v1, v2), (v1, v3, v2)]

/-- The vertex `bm.verts.new(((x * PLANE_SUBDIVISION_SIZE) - width / 2,
(y * PLANE_SUBDIVISION_SIZE) - height / 2, 0))` of the grid. -/
def gridVert (step w h : ℚ) (x y : ℤ) : Vert :=
  ⟨x * step - w / 2, y * step - h / 2, 0⟩

/-- The `verts_grid` list of rows of `create_subdivided_plane_bmesh`
(script lines 82–94): `n_y + 1` rows of `n_x + 1` vertices each. -/
def planeGrid (step w h : ℚ) (nx ny : ℤ) : List (List Vert) :=
  (intRange (ny + 1)).map (fun y =>
    (intRange (nx + 1)).map (fun x => gridVert step w h x y))

/-- The face-construction double loop of `create_subdivided_plane_bmesh`
(script lines 99–117): for each cell, two triangles through `addTri`, with
`min_x, max_x = -width / 2, width / 2` and `min_y, max_y = -height / 2,
height / 2`. -/
def planeFacesFold (step w h : ℚ) (nx ny : ℤ) : Option (List Face) :=
  (List.range ny.toNat).foldlM (fun fs y =>
    (List.range nx.toNat).foldlM (fun fs2 x => do
        let tris ← cellTris (planeGrid step w h nx ny) y x
        tris.foldlM (addTri (-w / 2) (w / 2) (-h / 2) (h / 2)) fs2)
      fs)
    []

/-- `create_subdivided_plane_bmesh(width, height, name)`: the subdivided plane
with per-loop UVs.  Returns `none` exactly when the Python function would
raise (division by zero in the UV normalization). -/
def create_subdivided_plane_bmesh (cfg : Config) (width height : ℚ)
    (name : String) : Option PObject := do
  let n_x := pyRound (width / cfg.subdivisionSize)
  let n_y := pyRound (height / cfg.subdivisionSize)
  let faces ← planeFacesFold cfg.subdivisionSize width height n_x n_y
  pure ⟨name, "MESH", ⟨(planeGrid cfg.subdivisionSize width height n_x n_y).flatten, faces⟩⟩

/-- `create_simple_plane(width, height, name)`: the single-quad UCX collision
proxy, built by `from_pydata` with faces `[[0, 1, 2, 3]]` and no UV layer. -/
def create_simple_plane (width height : ℚ) (name : String) : PObject :=
  let hw := width / 2
  let hh := height / 2
  let verts : List Vert := [⟨-hw, -hh, 0⟩, ⟨hw, -hh, 0⟩, ⟨hw, hh, 0⟩, ⟨-hw, hh, 0⟩]
  ⟨name, "MESH", ⟨verts, [⟨verts.map (fun v => ⟨v, none⟩)⟩]⟩⟩

/-- A `bpy.data.collections` entry: name, child-collection links and object
links (links modelled by name, which is unique in Blender data). -/
structure Collection where
  name : String
  children : List String
  objects : List String
deriving DecidableEq

/-- The Blender document state the script mutates: all collections, all
objects, and the scene collection's child-collection and object links. -/
structure Doc where
  collections : List Collection
  objects : List PObject
  sceneChildren : List String
  sceneObjects : List String
deriving DecidableEq

/-- Name convention of generated content, as tested by the cleanup step:
`col.name.isdigit() or "x" in col.name or col.name.startswith("UCX_")`. -/
def isGeneratedName (s : String) : Bool :=
  pyIsDigit s || pyStrContains s 'x' || pyStartsWith s "UCX_"

/-- Cleanup, first half: `bpy.data.objects.remove(obj, do_unlink=True)` for
every object of type `"MESH"` (the unlink also drops the object's links from
every collection and from the scene collection). -/
def removeMeshObjects (d : Doc) : Doc :=
  let meshNames := (d.objects.filter (fun o => o.objType == "MESH")).map (fun o => o.name)
  { collections := d.collections.map
      (fun c => { c with objects := c.objects.filter (fun n => !meshNames.contains n) })
  , objects := d.objects.filter (fun o => o.objType != "MESH")
  , sceneChildren := d.sceneChildren
  , sceneObjects := d.sceneObjects.filter (fun n => !meshNames.contains n) }

/-- Cleanup, second half: `bpy.data.collections.remove(col)` for every
collection whose name matches the generated-content convention (the removal
also drops the collection's links from every parent).  The script computes
`remove_collections` before removing the mesh objects, but object removal
does not change any collection's name, so computing it here is equivalent. -/
def removeGeneratedCollections (d : Doc) : Doc :=
  let removeNames := (d.collections.filter (fun c => isGeneratedName c.name)).map (fun c => c.name)
  { collections := (d.collections.filter (fun c => !removeNames.contains c.name)).map
      (fun c => { c with children := c.children.filter (fun n => !removeNames.contains n) })
  , objects := d.objects
  , sceneChildren := d.sceneChildren.filter (fun n => !removeNames.contains n)
  , sceneObjects := d.sceneObjects }

/-- The cleanup step (script lines 42–50). -/
def cleanup (d : Doc) : Doc :=
  removeGeneratedCollections (removeMeshObjects d)

/-- `bpy.data.collections.get(name)`. -/
def getCollection (d : Doc) (n : String) : Option Collection :=
  d.collections.find? (fun c => c.name == n)

/-- `bpy.data.collections.new(name)`. -/
def newCollection (d : Doc) (n : String) : Doc :=
  { d with collections := d.collections ++ [⟨n, [], []⟩] }

/-- `scene_collection.children.link(col)`. -/
def linkSceneChild (d : Doc) (n : String) : Doc :=
  { d with sceneChildren := d.sceneChildren ++ [n] }

/-- `parent.children.link(child)`. -/
def linkChildTo (d : Doc) (parent child : String) : Doc :=
  { d with collections := d.collections.map
                (fun c => if c.name == parent then { c with children := c.children ++ [child] } else c) }

/-- `col.objects.link(obj)`. -/
def linkObjTo (d : Doc) (colName objName : String) : Doc :=
  { d with collections := d.collections.map
                (fun c => if c.name == colName then { c with objects := c.objects ++ [objName] } else c) }

/-- Appending a freshly created object to `bpy.data.objects`. -/
def addObject (d : Doc) (o : PObject) : Doc :=
  { d with objects := d.objects ++ [o] }

/-- The `try: scene.collection.objects.unlink(o) except Exception: pass`
of the main loop: remove the link if present, otherwise do nothing. -/
def unlinkSceneObj (d : Doc) (n : String) : Doc :=
  { d with sceneObjects := d.sceneObjects.erase n }

/-- The subcollection name `f"{width_cm}x{height_cm}"`. -/
def subcolName (w h : ℤ) : String :=
  toString w ++ "x" ++ toString h

/-- The hierarchy-building loop (script lines 57–71): for each width a
get-or-create width collection linked under the scene, for each height a
get-or-create `"{w}x{h}"` subcollection linked under the width collection.
The second component models `height_collections_map` (a dict of dicts in
Python, flattened here to an association list on the `(width, height)` key);
the loop stores the subcollection (by name) under its key in both the
get and the create branch. -/
def buildHierarchy (cfg : Config) (d0 : Doc) : Doc × List ((ℤ × ℤ) × String) :=
  cfg.sizesCm.foldl (fun acc w =>
    let colName := toString w
    let d1 := if (getCollection acc.1 colName).isSome then acc.1
              else linkSceneChild (newCollection acc.1 colName) colName
    cfg.sizesCm.foldl (fun acc2 h =>
      let sub := subcolName w h
      let d2 := if (getCollection acc2.1 sub).isSome then acc2.1
                else linkChildTo (newCollection acc2.1 sub) colName sub
      (d2, acc2.2 ++ [((w, h), sub)])) (d1, acc.2)) (d0, [])

/-- Python dict lookup `height_collections_map[w][h]`, raising `KeyError`
(`none`) on a missing key. -/
def pyLookup (m : List ((ℤ × ℤ) × String)) (k : ℤ × ℤ) : Option String :=
  (m.find? (fun e => e.1 == k)).map (fun e => e.2)

/-- The main creation loop (script lines 144–163): for every size pair,
create the subdivided plane and the UCX proxy, link both into the
`"{w}x{h}"` subcollection found in `height_collections_map`, and unlink
them from the scene root if present. -/
def mainLoop (cfg : Config) (hmap : List ((ℤ × ℤ) × String)) (d0 : Doc) :
    Option Doc :=
  (planeSizePairs cfg).foldlM (fun d wh => do
    let width_cm := pyRound (wh.1 * 100)
    let height_cm := pyRound (wh.2 * 100)
    let obj_name := toString width_cm ++ "x" ++ toString height_cm
    let ucx_name := "UCX_" ++ obj_name
    let obj ← create_subdivided_plane_bmesh cfg wh.1 wh.2 obj_name
    let obj_ucx := create_simple_plane wh.1 wh.2 ucx_name
    let sub ← pyLookup hmap (width_cm, height_cm)
    let d1 := addObject (addObject d obj) obj_ucx
    let d2 := linkObjTo (linkObjTo d1 sub obj.name) sub obj_ucx.name
    pure (unlinkSceneObj (unlinkSceneObj d2 obj.name) obj_ucx.name))
    d0

/-- `alnum_key(s)`: split on the literal `"x"`, turn all-digit parts into
integers and keep other parts as strings. -/
def alnum_key (s : String) : List (ℤ ⊕ List Char) :=
  (splitOnChar 'x' s.data).map (fun part =>
    if !part.isEmpty && part.all Char.isDigit then Sum.inl (intOfDigitChars part)
    else Sum.inr part)

/-- Python `<` on sequences: lexicographic elementwise comparison with a
proper prefix ordered first, parameterized by the element comparison. -/
def pyListLt {α : Type} [DecidableEq α] (lt : α → α → Bool) :
    List α → List α → Bool
  | [], [] => false
  | [], _ :: _ => true
  | _ :: _, [] => false
  | a :: as, b :: bs => lt a b || (decide (a = b) && pyListLt lt as bs)

/-- Python `<` on strings (code point lexicographic), on character lists. -/
def charsLt : List Char → List Char → Bool :=
  pyListLt (fun a b => decide (a < b))

/-- Python `<` on the elements of an `alnum_key` result.  Python raises
`TypeError` when comparing an `int` with a `str`; the script only ever
compares keys of all-digit `"{w}x{h}"` names, where the mixed case cannot
arise, and the model arbitrarily orders integers before strings there. -/
def tokenLt : (ℤ ⊕ List Char) → (ℤ ⊕ List Char) → Bool
  | Sum.inl i, Sum.inl j => decide (i < j)
  | Sum.inl _, Sum.inr _ => true
  | Sum.inr _, Sum.inl _ => false
  | Sum.inr s, Sum.inr t => charsLt s t

/-- Python `<` on lists of key elements (lexicographic, shorter prefix first). -/
def tokensLt : List (ℤ ⊕ List Char) → List (ℤ ⊕ List Char) → Bool :=
  pyListLt tokenLt

/-- The ordering Python `sorted(names, key=lambda n: int(n))` arranges its
output in: numeric value of the digit-only name, non-strictly. -/
def nameIntLe (a b : String) : Prop :=
  strToInt a ≤ strToInt b

instance : DecidableRel nameIntLe := fun a b =>
  inferInstanceAs (Decidable (strToInt a ≤ strToInt b))

/-- The ordering `sorted(names, key=alnum_key)` arranges its output in. -/
def alnumLe (a b : String) : Prop :=
  ¬ tokensLt (alnum_key b) (alnum_key a) = true

instance : DecidableRel alnumLe := fun a b =>
  inferInstanceAs (Decidable (¬ tokensLt (alnum_key b) (alnum_key a) = true))

/-- The ordering `sorted(objs, key=lambda o: o.name)` arranges its output in. -/
def nameLe (a b : String) : Prop :=
  ¬ charsLt b.data a.data = true

instance : DecidableRel nameLe := fun a b =>
  inferInstanceAs (Decidable (¬ charsLt b.data a.data = true))

/-- The sorting stage (script lines 171–193).  Width collections (the
digit-named scene children) are unlinked and relinked in ascending `int(name)`
order; each width collection's children are all unlinked and relinked in
`alnum_key` order; each subcollection's objects are all unlinked and relinked
in name order.  Python `sorted` is a stable sort, which `insertionSort` with
each non-strict "not reverse-less-than" relation reproduces exactly.  The
`none` branches of the collection lookups correspond to a Python `KeyError`
and are unreachable: every name fed to a lookup was read off an existing
collection. -/
def sortStage (d : Doc) : Doc :=
  let width_coll_names :=
    ((d.sceneChildren.filterMap (getCollection d)).filter
      (fun c => pyIsDigit c.name)).map (fun c => c.name)
  let sortedWidths := width_coll_names.insertionSort nameIntLe
  let da := { d with sceneChildren :=
                d.sceneChildren.filter (fun n => !sortedWidths.contains n) ++ sortedWidths }
  sortedWidths.foldl (fun db col_name =>
    match getCollection db col_name with
    | none => db
    | some width_col =>
      let height_coll_names :=
        (width_col.children.filterMap (getCollection db)).map (fun c => c.name)
      let sortedHeights := height_coll_names.insertionSort alnumLe
      let dc := { db with collections := db.collections.map
                              (fun c => if c.name == col_name then { c with children := sortedHeights } else c) }
      sortedHeights.foldl (fun dd sub_name =>
        match getCollection dd sub_name with
        | none => dd
        | some subcol =>
          let objs_sorted := subcol.objects.insertionSort nameLe
          { dd with collections := dd.collections.map
                        (fun c => if c.name == sub_name then { c with objects := objs_sorted } else c) }) dc) da

/-- The whole document-mutating pipeline of the script: cleanup, hierarchy
building, the main creation loop, then the sorting stage.  Returns `none`
when the script would raise an uncaught exception. -/
def runO (cfg : Config) (d : Doc) : Option Doc :=
  let base := cleanup d
  let bh := buildHierarchy cfg base
  (mainLoop cfg bh.2 bh.1).map sortStage

/-- Host interactions performed by the export stage, in order. -/
inductive Event where
  | removedFile (path : String)
  | logRemoveFailed (path : String)
  | setActive (objName : String)
  | exportFbx (path : String)
  | logSkip (colName : String)
deriving DecidableEq

/-- The deletion-then-export tail of the export loop body (script lines
240–263): if a file exists at the export path, try to delete it, logging
a failure instead of raising; then set the active object and invoke the
FBX exporter unconditionally. -/
def exportOne (isfile removeFails : Bool) (path active : String) : List Event :=
  (if isfile then
    (if removeFails then [Event.logRemoveFailed path] else [Event.removedFile path])
   else []) ++ [Event.setActive active, Event.exportFbx path]

/-- `os.path.join` of two segments (separator abstracted to `"/"`). -/
def pathJoin (a b : String) : String :=
  a ++ "/" ++ b

/-- Ordering of collections by `int(c.name)`, used by the export stage. -/
def colIntLe (a b : Collection) : Prop :=
  strToInt a.name ≤ strToInt b.name

instance : DecidableRel colIntLe := fun a b =>
  inferInstanceAs (Decidable (strToInt a.name ≤ strToInt b.name))

/-- Ordering of collections by `alnum_key(c.name)`, used by the export stage. -/
def colAlnumLe (a b : Collection) : Prop :=
  ¬ tokensLt (alnum_key b.name) (alnum_key a.name) = true

instance : DecidableRel colAlnumLe := fun a b =>
  inferInstanceAs (Decidable (¬ tokensLt (alnum_key b.name) (alnum_key a.name) = true))

/-- The body of the export loop (script lines 218–263) for one subcollection
of the width collection named `width_cm`.  Subcollections without `"x"` in
their name or without mesh objects are skipped silently; an unresolved layer
collection is skipped with a log; otherwise the export path is built from the
base directory and the two centimeter segments, the primary plane (exact name
match, else the first mesh) is made active, and `exportOne` runs. -/
def exportSubcol (cfg : Config) (d : Doc)
    (isfile removeFails layerFound : String → Bool)
    (width_cm : String) (subcol : Collection) : List Event :=
  if !pyStrContains subcol.name 'x' then []
  else
    let height_cm := ((splitOnChar 'x' subcol.name.data).getD 1 []).asString
    let objNames := ((subcol.objects.filterMap
        (fun n => d.objects.find? (fun o => o.name == n))).filter
      (fun o => o.objType == "MESH")).map (fun o => o.name)
    if objNames.isEmpty then []
    else if !layerFound subcol.name then [Event.logSkip subcol.name]
    else
      let export_dir := pathJoin (pathJoin cfg.exportBaseDir width_cm) height_cm
      let path := pathJoin export_dir ("SM_Developer_Plane_" ++ subcol.name ++ ".fbx")
      let active := ((objNames.find? (fun n => n == subcol.name)).getD
        (objNames.headD ""))
      exportOne (isfile path) (removeFails path) path active

/-- The export stage (script lines 209–267), as the list of host interactions
it performs.  The host state the script reads but never stores — which files
exist (`os.path.isfile`), whether `os.remove` raises, and whether the view
layer resolves a collection (`find_layer_collection`) — enters as oracles. -/
def exportStage (cfg : Config) (d : Doc)
    (isfile removeFails layerFound : String → Bool) : List Event :=
  if cfg.exportToFbx then
    let widthCols := ((d.sceneChildren.filterMap (getCollection d)).filter
      (fun c => pyIsDigit c.name)).insertionSort colIntLe
    widthCols.flatMap (fun width_col =>
      let subs := (width_col.children.filterMap (getCollection d)).insertionSort colAlnumLe
      subs.flatMap (exportSubcol cfg d isfile removeFails layerFound width_col.name))
  else []

/-- The file paths the export stage actually exported to. -/
def exportedPaths (t : List Event) : List String :=
  t.filterMap (fun e => match e with | Event.exportFbx p => some p | _ => none)

/-- The empty Blender document, used to instantiate the run theorems. -/
def emptyDoc : Doc := ⟨[], [], [], []⟩

/-- A one-size configuration, used to instantiate the run theorems. -/
def tinyConfig : Config := ⟨1/5, "", [20], true⟩

/-! ### Generic lemmas about `pyRound` and `Option`-valued folds -/

theorem pyRound_intCast (n : ℤ) : pyRound (n : ℚ) = n := by
  unfold pyRound
  rw [Int.floor_intCast]
  norm_num

theorem pyRound_nonneg {q : ℚ} (h : 0 ≤ q) : 0 ≤ pyRound q := by
  have hf : 0 ≤ ⌊q⌋ := Int.floor_nonneg.mpr h
  unfold pyRound
  split_ifs <;> omega

theorem pyRound_nonpos {q : ℚ} (h : q ≤ 0) : pyRound q ≤ 0 := by
  have hf : ⌊q⌋ ≤ 0 := Int.floor_nonpos h
  have hfl : (⌊q⌋ : ℚ) ≤ q := Int.floor_le q
  unfold pyRound
  split_ifs with h1 h2 h3
  · exact hf
  · have : (⌊q⌋ : ℚ) < 0 := by linarith
    have : ⌊q⌋ < 0 := by exact_mod_cast this
    omega
  · exact hf
  · have h2' : (1 : ℚ)/2 ≤ q - ⌊q⌋ := le_of_not_lt h1
    have : (⌊q⌋ : ℚ) < 0 := by linarith
    have : ⌊q⌋ < 0 := by exact_mod_cast this
    omega

theorem foldlM_isSome {α β : Type} (step : β → α → Option β) (l : List α)
    (h : ∀ b a, a ∈ l → (step b a).isSome) :
    ∀ b : β, (l.foldlM step b).isSome := by
  induction l with
  | nil => intro b; simp
  | cons a t ih =>
    intro b
    simp only [List.foldlM_cons]
    obtain ⟨b', hb'⟩ := Option.isSome_iff_exists.mp (h b a (by simp))
    rw [hb']
    exact ih (fun b2 a2 ha2 => h b2 a2 (by simp [ha2])) b'

theorem foldlM_inv {α β : Type} (P : β → Prop) (step : β → α → Option β) (l : List α)
    (hstep : ∀ b a b2, a ∈ l → P b → step b a = some b2 → P b2) :
    ∀ b r : β, P b → l.foldlM step b = some r → P r := by
  induction l with
  | nil => intro b r hb hr; simp at hr; exact hr ▸ hb
  | cons a t ih =>
    intro b r hb hr
    simp only [List.foldlM_cons] at hr
    obtain ⟨m, hm, hrest⟩ := Option.bind_eq_some.mp hr
    exact ih (fun b2 a2 b3 ha2 => hstep b2 a2 b3 (by simp [ha2]))
      m r (hstep b a m (by simp) hb hm) hrest

theorem foldlM_append_option {α β : Type} (step : β → α → Option β)
    (l1 l2 : List α) (b : β) :
    (l1 ++ l2).foldlM step b = (l1.foldlM step b).bind (fun m => l2.foldlM step m) := by
  induction l1 generalizing b with
  | nil => simp
  | cons a t ih =>
    simp only [List.cons_append, List.foldlM_cons]
    cases step b a with
    | none => simp
    | some m => simp [ih]

/-! ### C6: the size-pair enumeration -/

/-- C6: the set of size pairs the generator iterates over is exactly the
cross product of the configured size list scaled into meters with itself:
a pair is enumerated iff both its components are configured sizes in meters
(so all ordered pairs appear, including equal-component ones, and nothing
else). -/
theorem C6_size_pairs_are_cross_product (cfg : Config) (p : ℚ × ℚ) :
    p ∈ planeSizePairs cfg ↔ p.1 ∈ planeSizesM cfg ∧ p.2 ∈ planeSizesM cfg := by
  unfold planeSizePairs
  constructor
  · intro hp
    obtain ⟨w, hw, hp2⟩ := List.mem_flatMap.mp hp
    obtain ⟨h, hh, rfl⟩ := List.mem_map.mp hp2
    exact ⟨hw, hh⟩
  · rintro ⟨h1, h2⟩
    exact List.mem_flatMap.mpr ⟨p.1, h1, List.mem_map.mpr ⟨p.2, h2, rfl⟩⟩

/-! ### C10: determinism of the pipeline -/

/-- C10: the generator is deterministic: two runs started from identical
document states with identical configuration constants produce identical
final documents and identical exported-path lists (the whole pipeline is a
function of the document, the configuration and the host-state oracles). -/
theorem C10_deterministic (cfg1 cfg2 : Config) (d1 d2 : Doc)
    (isf rmf lf : String → Bool) (hc : cfg1 = cfg2) (hd : d1 = d2) :
    runO cfg1 d1 = runO cfg2 d2 ∧
    (runO cfg1 d1).map (fun r => exportedPaths (exportStage cfg1 r isf rmf lf)) =
      (runO cfg2 d2).map (fun r => exportedPaths (exportStage cfg2 r isf rmf lf)) := by
  subst hc; subst hd; exact ⟨rfl, rfl⟩

/-- Witness for C10 at the script's configuration and an empty document. -/
theorem C10_deterministic_witness :
    runO defaultConfig emptyDoc = runO defaultConfig emptyDoc ∧
    (runO defaultConfig emptyDoc).map
        (fun r => exportedPaths (exportStage defaultConfig r (fun _ => false) (fun _ => false) (fun _ => true))) =
      (runO defaultConfig emptyDoc).map
        (fun r => exportedPaths (exportStage defaultConfig r (fun _ => false) (fun _ => false) (fun _ => true))) :=
  C10_deterministic defaultConfig defaultConfig emptyDoc emptyDoc
    (fun _ => false) (fun _ => false) (fun _ => true) rfl rfl

/-! ### C7: deletion failures never block the export -/

theorem exportedPaths_append (a b : List Event) :
    exportedPaths (a ++ b) = exportedPaths a ++ exportedPaths b := by
  unfold exportedPaths
  exact List.filterMap_append a b _

theorem exportedPaths_exportOne (a b : Bool) (p act : String) :
    exportedPaths (exportOne a b p act) = [p] := by
  cases a <;> cases b <;> rfl

theorem exportedPaths_flatMap {α : Type} (l : List α) (f : α → List Event) :
    exportedPaths (l.flatMap f) = l.flatMap (fun a => exportedPaths (f a)) := by
  induction l with
  | nil => rfl
  | cons a t ih => simp only [List.flatMap_cons, exportedPaths_append, ih]

theorem flatMap_congr_mem {α β : Type} {l : List α} {f g : α → List β}
    (h : ∀ a ∈ l, f a = g a) : l.flatMap f = l.flatMap g := by
  induction l with
  | nil => rfl
  | cons a t ih =>
    simp only [List.flatMap_cons]
    rw [h a (by simp), ih (fun x hx => h x (by simp [hx]))]

theorem exportedPaths_exportSubcol_oracle (cfg : Config) (d : Doc)
    (isf rf rf2 lf : String → Bool) (wn : String) (subcol : Collection) :
    exportedPaths (exportSubcol cfg d isf rf lf wn subcol) =
      exportedPaths (exportSubcol cfg d isf rf2 lf wn subcol) := by
  dsimp only [exportSubcol]
  split_ifs <;>
    first
      | rfl
      | rw [exportedPaths_exportOne, exportedPaths_exportOne]

/-- C7: in the export stage, (a) when a file exists at the export path the
deletion attempt happens before the export call, (b) when deletion raises,
the failure is logged and the export call is still made, and (c) the list of
paths actually exported is entirely independent of whether any deletion
fails — a deletion failure never halts the run. -/
theorem C7_deletion_failure_never_halts (cfg : Config) (d : Doc)
    (isf rf rf2 lf : String → Bool) (removeFails : Bool) (path active : String) :
    exportOne true true path active
      = [Event.logRemoveFailed path, Event.setActive active, Event.exportFbx path] ∧
    exportOne true false path active
      = [Event.removedFile path, Event.setActive active, Event.exportFbx path] ∧
    exportOne false removeFails path active
      = [Event.setActive active, Event.exportFbx path] ∧
    exportedPaths (exportStage cfg d isf rf lf)
      = exportedPaths (exportStage cfg d isf rf2 lf) := by
  refine ⟨rfl, rfl, rfl, ?_⟩
  unfold exportStage
  cases hc : cfg.exportToFbx with
  | false => simp
  | true =>
    simp only [eq_self_iff_true, if_true]
    rw [exportedPaths_flatMap, exportedPaths_flatMap]
    refine flatMap_congr_mem (fun wc _ => ?_)
    rw [exportedPaths_flatMap, exportedPaths_flatMap]
    exact flatMap_congr_mem (fun sc _ =>
      exportedPaths_exportSubcol_oracle cfg d isf rf rf2 lf wc.name sc)

/-! ### Lemmas about the tessellator -/

theorem intRange_map_getElem {α : Type} (f : ℤ → α) (m : ℤ) (i : ℕ) (hi : i < m.toNat) :
    ((intRange m).map f)[i]? = some (f i) := by
  unfold intRange
  rw [List.getElem?_map, List.getElem?_map, List.getElem?_range hi]
  rfl

theorem cellTris_planeGrid (step w h : ℚ) (nx ny : ℤ) (y x : ℕ)
    (hy : y < ny.toNat) (hx : x < nx.toNat) :
    cellTris (planeGrid step w h nx ny) y x =
      some [(gridVert step w h x y, gridVert step w h (x + 1) y, gridVert step w h x (y + 1)),
            (gridVert step w h (x + 1) y, gridVert step w h (x + 1) (y + 1), gridVert step w h x (y + 1))] := by
  have hy1 : y < (ny + 1).toNat := by omega
  have hy2 : y + 1 < (ny + 1).toNat := by omega
  have hx1 : x < (nx + 1).toNat := by omega
  have hx2 : x + 1 < (nx + 1).toNat := by omega
  unfold cellTris planeGrid
  simp only [intRange_map_getElem _ _ _ hy1, intRange_map_getElem _ _ _ hy2,
    intRange_map_getElem _ _ _ hx1, intRange_map_getElem _ _ _ hx2,
    Option.bind_eq_bind, Option.some_bind]
  push_cast
  rfl

/-- The loop the script builds at vertex `v`: UVs by normalization against
`[min, max]` in each axis. -/
def normLoop (mnx mxx mny mxy : ℚ) (v : Vert) : Loop :=
  ⟨v, some ((v.x - mnx) / (mxx - mnx), (v.y - mny) / (mxy - mny))⟩

/-- The face `mkFace` produces when neither divisor vanishes. -/
def normFace (mnx mxx mny mxy : ℚ) (tri : Vert × Vert × Vert) : Face :=
  ⟨[normLoop mnx mxx mny mxy tri.1, normLoop mnx mxx mny mxy tri.2.1,
    normLoop mnx mxx mny mxy tri.2.2]⟩

theorem mkFace_eq_some (mnx mxx mny mxy : ℚ) (h1 : mxx - mnx ≠ 0)
    (h2 : mxy - mny ≠ 0) (tri : Vert × Vert × Vert) :
    mkFace mnx mxx mny mxy tri = some (normFace mnx mxx mny mxy tri) := by
  unfold mkFace pyDiv
  simp [h1, h2, normFace, normLoop]

theorem faceVerts_normFace (mnx mxx mny mxy : ℚ) (tri : Vert × Vert × Vert) :
    faceVerts (normFace mnx mxx mny mxy tri) = [tri.1, tri.2.1, tri.2.2] := rfl

theorem foldlM_congr_mem {α β : Type} {step1 step2 : β → α → Option β} (l : List α)
    (h : ∀ b a, a ∈ l → step1 b a = step2 b a) :
    ∀ b : β, l.foldlM step1 b = l.foldlM step2 b := by
  induction l with
  | nil => intro b; rfl
  | cons a t ih =>
    intro b
    simp only [List.foldlM_cons, h b a (by simp)]
    cases step2 b a with
    | none => rfl
    | some m =>
      simp only [Option.bind_eq_bind, Option.some_bind]
      exact ih (fun b2 a2 ha2 => h b2 a2 (by simp [ha2])) m

theorem foldlM_flatMap_option {α β γ : Type} (g : α → List γ)
    (step : β → γ → Option β) (l : List α) :
    ∀ b : β, (l.flatMap g).foldlM step b
      = l.foldlM (fun acc a => (g a).foldlM step acc) b := by
  induction l with
  | nil => intro b; rfl
  | cons a t ih =>
    intro b
    rw [List.flatMap_cons, foldlM_append_option, List.foldlM_cons]
    cases (g a).foldlM step b with
    | none => rfl
    | some m =>
      simp only [Option.bind_eq_bind, Option.some_bind]
      exact ih m

/-- The triangle list of the whole face-construction double loop, flattened
into cell order. -/
def allCellTris (step w h : ℚ) (nx ny : ℤ) : List (Vert × Vert × Vert) :=
  (List.range ny.toNat).flatMap (fun y =>
    (List.range nx.toNat).flatMap (fun x =>
      [(gridVert step w h x y, gridVert step w h (x + 1) y, gridVert step w h x (y + 1)),
       (gridVert step w h (x + 1) y, gridVert step w h (x + 1) (y + 1), gridVert step w h x (y + 1))]))

theorem planeFacesFold_eq_flat (step w h : ℚ) (nx ny : ℤ) :
    planeFacesFold step w h nx ny
      = (allCellTris step w h nx ny).foldlM (addTri (-w / 2) (w / 2) (-h / 2) (h / 2)) [] := by
  unfold planeFacesFold allCellTris
  rw [foldlM_flatMap_option]
  refine foldlM_congr_mem _ (fun b y hy => ?_) []
  rw [foldlM_flatMap_option]
  refine foldlM_congr_mem _ (fun b2 x hx => ?_) b
  rw [cellTris_planeGrid step w h nx ny y x (List.mem_range.mp hy) (List.mem_range.mp hx)]
  rfl

theorem addTri_isSome (mnx mxx mny mxy : ℚ) (h1 : mxx - mnx ≠ 0) (h2 : mxy - mny ≠ 0)
    (fs : List Face) (tri : Vert × Vert × Vert) :
    (addTri mnx mxx mny mxy fs tri).isSome := by
  unfold addTri
  rw [mkFace_eq_some _ _ _ _ h1 h2]
  simp only [Option.bind_eq_bind, Option.some_bind]
  split_ifs <;> rfl

theorem planeFacesFold_isSome (step w h : ℚ) (nx ny : ℤ)
    (h1 : w ≠ 0) (h2 : h ≠ 0) : (planeFacesFold step w h nx ny).isSome := by
  rw [planeFacesFold_eq_flat]
  refine foldlM_isSome _ _ (fun b a _ => ?_) []
  refine addTri_isSome _ _ _ _ (fun hc => h1 (by linarith)) (fun hc => h2 (by linarith)) b a

theorem create_eq_some (cfg : Config) (w h : ℚ) (nm : String) (fs : List Face)
    (hf : planeFacesFold cfg.subdivisionSize w h (pyRound (w / cfg.subdivisionSize))
            (pyRound (h / cfg.subdivisionSize)) = some fs) :
    create_subdivided_plane_bmesh cfg w h nm
      = some ⟨nm, "MESH",
          ⟨(planeGrid cfg.subdivisionSize w h (pyRound (w / cfg.subdivisionSize))
              (pyRound (h / cfg.subdivisionSize))).flatten, fs⟩⟩ := by
  simp only [create_subdivided_plane_bmesh, hf, Option.bind_eq_bind, Option.some_bind]
  rfl

theorem planeGrid_flatten_length (step w h : ℚ) (nx ny : ℤ) :
    (planeGrid step w h nx ny).flatten.length = (ny + 1).toNat * (nx + 1).toNat := by
  simp [planeGrid, intRange, List.length_flatten, List.map_map, Function.comp_def,
    List.map_const', List.sum_replicate, smul_eq_mul]

/-! ### C5 and C9: vertex counts and degenerate sizes -/

/-- C5: for positive width and height (in meters), the primary mesh has
exactly `(round(w/step)+1) × (round(h/step)+1)` vertices, `step` being the
configured subdivision size; fractional remainders of `w/step`, `h/step` are
absorbed by the rounding and produce no error. -/
theorem C5_vertex_count (w h : ℚ) (hw : 0 < w) (hh : 0 < h) (nm : String) :
    ∃ obj, create_subdivided_plane_bmesh defaultConfig w h nm = some obj ∧
      (obj.mesh.verts.length : ℤ)
        = (pyRound (w / defaultConfig.subdivisionSize) + 1)
            * (pyRound (h / defaultConfig.subdivisionSize) + 1) := by
  obtain ⟨fs, hfs⟩ := Option.isSome_iff_exists.mp
    (planeFacesFold_isSome defaultConfig.subdivisionSize w h _ _ hw.ne' hh.ne')
  refine ⟨_, create_eq_some defaultConfig w h nm fs hfs, ?_⟩
  have hstep : (0 : ℚ) < defaultConfig.subdivisionSize := by norm_num [defaultConfig]
  have hx : 0 ≤ pyRound (w / defaultConfig.subdivisionSize) :=
    pyRound_nonneg (le_of_lt (div_pos hw hstep))
  have hy : 0 ≤ pyRound (h / defaultConfig.subdivisionSize) :=
    pyRound_nonneg (le_of_lt (div_pos hh hstep))
  show ((planeGrid _ _ _ _ _).flatten.length : ℤ) = _
  rw [planeGrid_flatten_length]
  push_cast
  rw [Int.toNat_of_nonneg (by omega), Int.toNat_of_nonneg (by omega)]
  ring

/-- Witness for C5 at `w = h = 0.3` (a fractional remainder of the step). -/
theorem C5_vertex_count_witness :
    (0 : ℚ) < 3/10 ∧
    (∃ obj, create_subdivided_plane_bmesh defaultConfig (3/10) (3/10) "Plane" = some obj ∧
      (obj.mesh.verts.length : ℤ)
        = (pyRound ((3/10) / defaultConfig.subdivisionSize) + 1)
            * (pyRound ((3/10) / defaultConfig.subdivisionSize) + 1)) :=
  ⟨by norm_num, C5_vertex_count (3/10) (3/10) (by norm_num) (by norm_num) "Plane"⟩

theorem foldlM_id_of_mem {α β : Type} (step : β → α → Option β) (l : List α)
    (h : ∀ b a, a ∈ l → step b a = some b) : ∀ b : β, l.foldlM step b = some b := by
  induction l with
  | nil => intro b; rfl
  | cons a t ih =>
    intro b
    simp only [List.foldlM_cons, h b a (by simp), Option.bind_eq_bind, Option.some_bind]
    exact ih (fun b2 a2 ha2 => h b2 a2 (by simp [ha2])) b

/-- C9: for non-positive width or height, `create_subdivided_plane_bmesh`
terminates normally (no division by zero is reached) and the resulting mesh
has zero faces, because the face-construction loops are empty when the
rounded grid resolution is zero or negative. -/
theorem C9_degenerate_size_no_faces (w h : ℚ) (hw : w ≤ 0 ∨ h ≤ 0) (nm : String) :
    ∃ obj, create_subdivided_plane_bmesh defaultConfig w h nm = some obj ∧
      obj.mesh.faces = [] := by
  have hfold : planeFacesFold defaultConfig.subdivisionSize w h
      (pyRound (w / defaultConfig.subdivisionSize))
      (pyRound (h / defaultConfig.subdivisionSize)) = some [] := by
    cases hw with
    | inl hw =>
      have hq : w / defaultConfig.subdivisionSize = 5 * w := by
        show w / (1/5 : ℚ) = 5 * w
        ring
      have hnx : (pyRound (w / defaultConfig.subdivisionSize)).toNat = 0 := by
        have := pyRound_nonpos (q := w / defaultConfig.subdivisionSize)
          (by rw [hq]; linarith)
        omega
      unfold planeFacesFold
      simp only [hnx]
      exact foldlM_id_of_mem _ _ (fun b a _ => rfl) []
    | inr hh =>
      have hq : h / defaultConfig.subdivisionSize = 5 * h := by
        show h / (1/5 : ℚ) = 5 * h
        ring
      have hny : (pyRound (h / defaultConfig.subdivisionSize)).toNat = 0 := by
        have := pyRound_nonpos (q := h / defaultConfig.subdivisionSize)
          (by rw [hq]; linarith)
        omega
      unfold planeFacesFold
      simp only [hny]
      rfl
  exact ⟨_, create_eq_some defaultConfig w h nm [] hfold, rfl⟩

/-- Witness for C9 at width `0`, height `0.2`. -/
theorem C9_degenerate_size_no_faces_witness :
    ((0 : ℚ) ≤ 0 ∨ (1 : ℚ)/5 ≤ 0) ∧
    (∃ obj, create_subdivided_plane_bmesh defaultConfig 0 (1/5) "Plane" = some obj ∧
      obj.mesh.faces = []) :=
  ⟨Or.inl le_rfl, C9_degenerate_size_no_faces 0 (1/5) (Or.inl le_rfl) "Plane"⟩

/-! ### C1: UV coordinates -/

theorem allCellTris_vert_bound (step w h : ℚ) (nx ny : ℤ)
    (tri : Vert × Vert × Vert) (htri : tri ∈ allCellTris step w h nx ny) :
    ∀ vtx ∈ [tri.1, tri.2.1, tri.2.2], ∃ xi yi : ℤ,
      0 ≤ xi ∧ xi ≤ nx ∧ 0 ≤ yi ∧ yi ≤ ny ∧ vtx = gridVert step w h xi yi := by
  obtain ⟨y, hy, htri2⟩ := List.mem_flatMap.mp htri
  obtain ⟨x, hx, htri3⟩ := List.mem_flatMap.mp htri2
  have hxn : x < nx.toNat := List.mem_range.mp hx
  have hyn : y < ny.toNat := List.mem_range.mp hy
  have hx0 : (0 : ℤ) ≤ (x : ℤ) := Int.natCast_nonneg x
  have hy0 : (0 : ℤ) ≤ (y : ℤ) := Int.natCast_nonneg y
  have hx1 : (x : ℤ) + 1 ≤ nx := by omega
  have hy1 : (y : ℤ) + 1 ≤ ny := by omega
  simp only [List.mem_cons, List.not_mem_nil, or_false] at htri3
  rcases htri3 with h1 | h1 <;> subst h1 <;>
    (intro vtx hvtx
     simp only [List.mem_cons, List.not_mem_nil, or_false] at hvtx) <;>
    rcases hvtx with rfl | rfl | rfl
  · exact ⟨x, y, hx0, by omega, hy0, by omega, rfl⟩
  · exact ⟨(x : ℤ) + 1, y, by omega, by omega, hy0, by omega, rfl⟩
  · exact ⟨x, (y : ℤ) + 1, hx0, by omega, by omega, by omega, rfl⟩
  · exact ⟨(x : ℤ) + 1, y, by omega, by omega, hy0, by omega, rfl⟩
  · exact ⟨(x : ℤ) + 1, (y : ℤ) + 1, by omega, by omega, by omega, by omega,
      rfl⟩
  · exact ⟨x, (y : ℤ) + 1, hx0, by omega, by omega, by omega, rfl⟩

theorem addTri_all_loops {P : Loop → Prop} (mnx mxx mny mxy : ℚ)
    (h1 : mxx - mnx ≠ 0) (h2 : mxy - mny ≠ 0) (tri : Vert × Vert × Vert)
    (htri : ∀ lp ∈ (normFace mnx mxx mny mxy tri).loops, P lp)
    (fs fs2 : List Face) (hall : ∀ f ∈ fs, ∀ lp ∈ f.loops, P lp)
    (hstep : addTri mnx mxx mny mxy fs tri = some fs2) :
    ∀ f ∈ fs2, ∀ lp ∈ f.loops, P lp := by
  unfold addTri at hstep
  rw [mkFace_eq_some _ _ _ _ h1 h2] at hstep
  simp only [Option.bind_eq_bind, Option.some_bind] at hstep
  split_ifs at hstep
  · obtain rfl : fs.map (fun g => if faceVerts g = [tri.1, tri.2.1, tri.2.2]
        then normFace mnx mxx mny mxy tri else g) = fs2 := by
      simpa using hstep
    intro f hf
    obtain ⟨g, hg, hfg⟩ := List.mem_map.mp hf
    by_cases hc : faceVerts g = [tri.1, tri.2.1, tri.2.2]
    · rw [if_pos hc] at hfg
      exact hfg ▸ htri
    · rw [if_neg hc] at hfg
      exact hfg ▸ hall g hg
  · obtain rfl : fs ++ [normFace mnx mxx mny mxy tri] = fs2 := by simpa using hstep
    intro f hf
    rcases List.mem_append.mp hf with hf2 | hf2
    · exact hall f hf2
    · obtain rfl : f = normFace mnx mxx mny mxy tri := by simpa using hf2
      exact htri

theorem addTri_mem_insert (mnx mxx mny mxy : ℚ)
    (h1 : mxx - mnx ≠ 0) (h2 : mxy - mny ≠ 0) (tri : Vert × Vert × Vert)
    (fs fs2 : List Face) (hstep : addTri mnx mxx mny mxy fs tri = some fs2) :
    normFace mnx mxx mny mxy tri ∈ fs2 := by
  unfold addTri at hstep
  rw [mkFace_eq_some _ _ _ _ h1 h2] at hstep
  simp only [Option.bind_eq_bind, Option.some_bind] at hstep
  split_ifs at hstep with hc
  · obtain rfl : fs.map (fun g => if faceVerts g = [tri.1, tri.2.1, tri.2.2]
        then normFace mnx mxx mny mxy tri else g) = fs2 := by
      simpa using hstep
    obtain ⟨g, hg, hgeq⟩ := List.any_eq_true.mp hc
    refine List.mem_map.mpr ⟨g, hg, ?_⟩
    rw [if_pos (of_decide_eq_true hgeq)]
  · obtain rfl : fs ++ [normFace mnx mxx mny mxy tri] = fs2 := by simpa using hstep
    exact List.mem_append.mpr (Or.inr (by simp))

theorem addTri_mem_preserve (mnx mxx mny mxy : ℚ)
    (h1 : mxx - mnx ≠ 0) (h2 : mxy - mny ≠ 0) (T tri : Vert × Vert × Vert)
    (fs fs2 : List Face) (hT : normFace mnx mxx mny mxy T ∈ fs)
    (hstep : addTri mnx mxx mny mxy fs tri = some fs2) :
    normFace mnx mxx mny mxy T ∈ fs2 := by
  unfold addTri at hstep
  rw [mkFace_eq_some _ _ _ _ h1 h2] at hstep
  simp only [Option.bind_eq_bind, Option.some_bind] at hstep
  split_ifs at hstep
  · obtain rfl : fs.map (fun g => if faceVerts g = [tri.1, tri.2.1, tri.2.2]
        then normFace mnx mxx mny mxy tri else g) = fs2 := by
      simpa using hstep
    by_cases hc : faceVerts (normFace mnx mxx mny mxy T) = [tri.1, tri.2.1, tri.2.2]
    · have hTt : T = tri := by
        rw [faceVerts_normFace] at hc
        obtain ⟨T1, T2, T3⟩ := T
        obtain ⟨t1, t2, t3⟩ := tri
        simp only [List.cons.injEq, and_true] at hc
        simp [hc.1, hc.2.1, hc.2.2]
      subst hTt
      refine List.mem_map.mpr ⟨normFace mnx mxx mny mxy T, hT, ?_⟩
      rw [if_pos hc]
    · refine List.mem_map.mpr ⟨normFace mnx mxx mny mxy T, hT, ?_⟩
      rw [if_neg hc]
  · obtain rfl : fs ++ [normFace mnx mxx mny mxy tri] = fs2 := by simpa using hstep
    exact List.mem_append.mpr (Or.inl hT)

theorem fold_addTri_mem (mnx mxx mny mxy : ℚ)
    (h1 : mxx - mnx ≠ 0) (h2 : mxy - mny ≠ 0) (T : Vert × Vert × Vert)
    (l : List (Vert × Vert × Vert)) (hT : T ∈ l) :
    ∀ fs fs2 : List Face, l.foldlM (addTri mnx mxx mny mxy) fs = some fs2 →
      normFace mnx mxx mny mxy T ∈ fs2 := by
  induction l with
  | nil => cases hT
  | cons a t ih =>
    intro fs fs2 hfold
    rw [List.foldlM_cons] at hfold
    obtain ⟨m, hm, hrest⟩ := Option.bind_eq_some.mp hfold
    rcases List.mem_cons.mp hT with rfl | hT2
    · exact foldlM_inv (fun fs3 => normFace mnx mxx mny mxy T ∈ fs3) _ t
        (fun b a2 b2 _ hb hstep2 =>
          addTri_mem_preserve mnx mxx mny mxy h1 h2 T a2 b b2 hb hstep2)
        m fs2 (addTri_mem_insert mnx mxx mny mxy h1 h2 T fs m hm) hrest
    · exact ih hT2 m fs2 hrest

theorem fold_addTri_all_loops {P : Loop → Prop} (mnx mxx mny mxy : ℚ)
    (h1 : mxx - mnx ≠ 0) (h2 : mxy - mny ≠ 0)
    (l : List (Vert × Vert × Vert))
    (hl : ∀ tri ∈ l, ∀ lp ∈ (normFace mnx mxx mny mxy tri).loops, P lp)
    (fs fs2 : List Face) (hall : ∀ f ∈ fs, ∀ lp ∈ f.loops, P lp)
    (hfold : l.foldlM (addTri mnx mxx mny mxy) fs = some fs2) :
    ∀ f ∈ fs2, ∀ lp ∈ f.loops, P lp :=
  foldlM_inv (fun fs3 => ∀ f ∈ fs3, ∀ lp ∈ f.loops, P lp) _ l
    (fun b a b2 ha hb hstep =>
      addTri_all_loops mnx mxx mny mxy h1 h2 a (hl a ha) b b2 hb hstep)
    fs fs2 hall hfold

theorem pyRound_nat_mul_step (a : ℕ) (step : ℚ) (hs : step ≠ 0) :
    pyRound (((a : ℚ) * step) / step) = (a : ℤ) := by
  rw [mul_div_cancel_right₀ _ hs]
  have hcast : ((a : ℚ)) = ((a : ℤ) : ℚ) := by push_cast; rfl
  rw [hcast, pyRound_intCast]

theorem normLoop_unit (a b : ℕ) (ha : 1 ≤ a) (hb : 1 ≤ b) (w h : ℚ)
    (hwa : w = (a : ℚ) * (1/5)) (hhb : h = (b : ℚ) * (1/5)) (xi yi : ℤ)
    (hx0 : 0 ≤ xi) (hx1 : xi ≤ (a : ℤ)) (hy0 : 0 ≤ yi) (hy1 : yi ≤ (b : ℤ)) :
    ∃ u v, (normLoop (-w / 2) (w / 2) (-h / 2) (h / 2)
        (gridVert (1/5) w h xi yi)).uv = some (u, v) ∧
      0 ≤ u ∧ u ≤ 1 ∧ 0 ≤ v ∧ v ≤ 1 := by
  have haq : (1 : ℚ) ≤ (a : ℚ) := by exact_mod_cast ha
  have hbq : (1 : ℚ) ≤ (b : ℚ) := by exact_mod_cast hb
  have hnum : (gridVert (1/5 : ℚ) w h xi yi).x - -w / 2 = (xi : ℚ) * (1/5) := by
    simp only [gridVert]
    ring
  have hnum2 : (gridVert (1/5 : ℚ) w h xi yi).y - -h / 2 = (yi : ℚ) * (1/5) := by
    simp only [gridVert]
    ring
  have hden : w / 2 - -w / 2 = (a : ℚ) * (1/5) := by rw [hwa]; ring
  have hden2 : h / 2 - -h / 2 = (b : ℚ) * (1/5) := by rw [hhb]; ring
  have hdenpos : (0 : ℚ) < (a : ℚ) * (1/5) := by nlinarith
  have hdenpos2 : (0 : ℚ) < (b : ℚ) * (1/5) := by nlinarith
  have hxiq : (0 : ℚ) ≤ (xi : ℚ) := by exact_mod_cast hx0
  have hxiq2 : (xi : ℚ) ≤ (a : ℚ) := by exact_mod_cast hx1
  have hyiq : (0 : ℚ) ≤ (yi : ℚ) := by exact_mod_cast hy0
  have hyiq2 : (yi : ℚ) ≤ (b : ℚ) := by exact_mod_cast hy1
  refine ⟨_, _, rfl, ?_, ?_, ?_, ?_⟩
  · rw [hnum, hden]
    positivity
  · rw [hnum, hden, div_le_one hdenpos]
    nlinarith
  · rw [hnum2, hden2]
    positivity
  · rw [hnum2, hden2, div_le_one hdenpos2]
    nlinarith

/-- Counterexample to C1 as stated: at width = height = 0.11 m (positive),
the generated mesh has a face loop whose UV coordinate exceeds 1 (the last
grid vertex lies outside `[-width/2, width/2]`, and the script normalizes
against that interval, not against the mesh's own bounding box). -/
theorem C1_counterexample :
    (0 : ℚ) < 11/100 ∧
    (∃ obj, create_subdivided_plane_bmesh defaultConfig (11/100) (11/100) "Plane"
        = some obj ∧
      ∃ f ∈ obj.mesh.faces, ∃ lp ∈ f.loops, lp.uv = some (20/11, 20/11)) ∧
    ¬ ((20 : ℚ)/11 ≤ 1) := by
  refine ⟨by norm_num, ?_, by norm_num⟩
  have hstep : defaultConfig.subdivisionSize = 1/5 := rfl
  have hq : (11/100 : ℚ) / defaultConfig.subdivisionSize = 11/20 := by
    rw [hstep]; norm_num
  have hfloor : ⌊(11 : ℚ)/20⌋ = 0 := by
    rw [Int.floor_eq_zero_iff]
    constructor <;> norm_num
  have hnx : pyRound ((11/100 : ℚ) / defaultConfig.subdivisionSize) = 1 := by
    rw [hq]
    unfold pyRound
    rw [hfloor]
    norm_num
  have hd1 : (11/100 : ℚ) / 2 - -(11/100 : ℚ) / 2 ≠ 0 := by norm_num
  obtain ⟨fs, hfs⟩ := Option.isSome_iff_exists.mp
    (planeFacesFold_isSome defaultConfig.subdivisionSize (11/100) (11/100)
      (pyRound ((11/100 : ℚ) / defaultConfig.subdivisionSize))
      (pyRound ((11/100 : ℚ) / defaultConfig.subdivisionSize))
      (by norm_num) (by norm_num))
  refine ⟨_, create_eq_some defaultConfig (11/100) (11/100) "Plane" fs hfs, ?_⟩
  rw [hnx, planeFacesFold_eq_flat, hstep] at hfs
  have hT2 : ((gridVert (1/5 : ℚ) (11/100) (11/100) 1 0,
      gridVert (1/5 : ℚ) (11/100) (11/100) 1 1,
      gridVert (1/5 : ℚ) (11/100) (11/100) 0 1))
      ∈ allCellTris (1/5) (11/100) (11/100) 1 1 := by
    unfold allCellTris
    refine List.mem_flatMap.mpr ⟨0, List.mem_range.mpr (by norm_num), ?_⟩
    refine List.mem_flatMap.mpr ⟨0, List.mem_range.mpr (by norm_num), ?_⟩
    simp
  have hmem := fold_addTri_mem (-(11/100 : ℚ) / 2) ((11/100 : ℚ) / 2)
    (-(11/100 : ℚ) / 2) ((11/100 : ℚ) / 2) hd1 hd1 _ _ hT2 [] fs hfs
  refine ⟨_, hmem, normLoop (-(11/100 : ℚ) / 2) ((11/100 : ℚ) / 2)
    (-(11/100 : ℚ) / 2) ((11/100 : ℚ) / 2)
    (gridVert (1/5) (11/100) (11/100) 1 1), by simp [normFace], ?_⟩
  show some (((gridVert (1/5 : ℚ) (11/100) (11/100) 1 1).x - -(11/100 : ℚ) / 2)
        / ((11/100 : ℚ) / 2 - -(11/100 : ℚ) / 2),
      ((gridVert (1/5 : ℚ) (11/100) (11/100) 1 1).y - -(11/100 : ℚ) / 2)
        / ((11/100 : ℚ) / 2 - -(11/100 : ℚ) / 2)) = some (20/11, 20/11)
  have ex : (gridVert (1/5 : ℚ) (11/100) (11/100) 1 1).x = 29/200 := by
    show ((1 : ℤ) : ℚ) * (1/5) - (11/100 : ℚ) / 2 = 29/200
    norm_num
  have ey : (gridVert (1/5 : ℚ) (11/100) (11/100) 1 1).y = 29/200 := by
    show ((1 : ℤ) : ℚ) * (1/5) - (11/100 : ℚ) / 2 = 29/200
    norm_num
  rw [ex, ey]
  norm_num

/-- C1 (amended): for widths and heights that are positive integer multiples
of the configured subdivision step, every UV coordinate of the primary mesh
lies in `[0,1] × [0,1]`, the vertices at the mesh's bounding-box corners
receive the UV corner values `(0,0)` and `(1,1)`, and each UV is the linear
normalization of the vertex position against
`[-width/2, width/2] × [-height/2, height/2]`. -/
theorem C1_uv_square (a b : ℕ) (ha : 1 ≤ a) (hb : 1 ≤ b) (w h : ℚ) (nm : String)
    (hwa : w = (a : ℚ) * defaultConfig.subdivisionSize)
    (hhb : h = (b : ℚ) * defaultConfig.subdivisionSize) :
    ∃ obj, create_subdivided_plane_bmesh defaultConfig w h nm = some obj ∧
      (∀ f ∈ obj.mesh.faces, ∀ lp ∈ f.loops,
        lp.uv = some ((lp.vert.x - -w / 2) / (w / 2 - -w / 2),
                      (lp.vert.y - -h / 2) / (h / 2 - -h / 2)) ∧
        ∃ u v, lp.uv = some (u, v) ∧ 0 ≤ u ∧ u ≤ 1 ∧ 0 ≤ v ∧ v ≤ 1) ∧
      (∃ f ∈ obj.mesh.faces, ∃ lp ∈ f.loops,
        lp.vert = ⟨-w / 2, -h / 2, 0⟩ ∧ lp.uv = some (0, 0)) ∧
      (∃ f ∈ obj.mesh.faces, ∃ lp ∈ f.loops,
        lp.vert = ⟨w / 2, h / 2, 0⟩ ∧ lp.uv = some (1, 1)) := by
  have hstep : defaultConfig.subdivisionSize = 1/5 := rfl
  rw [hstep] at hwa hhb
  have haq : (1 : ℚ) ≤ (a : ℚ) := by exact_mod_cast ha
  have hbq : (1 : ℚ) ≤ (b : ℚ) := by exact_mod_cast hb
  have hw0 : 0 < w := by rw [hwa]; nlinarith
  have hh0 : 0 < h := by rw [hhb]; nlinarith
  have hnx : pyRound (w / defaultConfig.subdivisionSize) = (a : ℤ) := by
    rw [hstep, hwa]
    exact pyRound_nat_mul_step a (1/5) (by norm_num)
  have hny : pyRound (h / defaultConfig.subdivisionSize) = (b : ℤ) := by
    rw [hstep, hhb]
    exact pyRound_nat_mul_step b (1/5) (by norm_num)
  have hd1 : w / 2 - -w / 2 ≠ 0 := by intro hc; exact hw0.ne' (by linarith)
  have hd2 : h / 2 - -h / 2 ≠ 0 := by intro hc; exact hh0.ne' (by linarith)
  obtain ⟨fs, hfs⟩ := Option.isSome_iff_exists.mp
    (planeFacesFold_isSome defaultConfig.subdivisionSize w h
      (pyRound (w / defaultConfig.subdivisionSize))
      (pyRound (h / defaultConfig.subdivisionSize)) hw0.ne' hh0.ne')
  refine ⟨_, create_eq_some defaultConfig w h nm fs hfs, ?_⟩
  rw [hnx, hny, planeFacesFold_eq_flat, hstep] at hfs
  have hbound := fun tri htri =>
    allCellTris_vert_bound (1/5) w h (a : ℤ) (b : ℤ) tri htri
  refine ⟨?_, ?_, ?_⟩
  · -- every loop of every face is normalized and lands in the unit square
    refine fold_addTri_all_loops (P := fun lp =>
        lp.uv = some ((lp.vert.x - -w / 2) / (w / 2 - -w / 2),
                      (lp.vert.y - -h / 2) / (h / 2 - -h / 2)) ∧
        ∃ u v, lp.uv = some (u, v) ∧ 0 ≤ u ∧ u ≤ 1 ∧ 0 ≤ v ∧ v ≤ 1)
      (-w / 2) (w / 2) (-h / 2) (h / 2) hd1 hd2 _ ?_ [] fs (by simp) hfs
    intro tri htri lp hlp
    simp only [normFace, List.mem_cons, List.not_mem_nil, or_false] at hlp
    have hb3 := hbound tri htri
    rcases hlp with rfl | rfl | rfl
    · obtain ⟨xi, yi, h1, h2, h3, h4, hveq⟩ := hb3 tri.1 (by simp)
      rw [hveq]
      exact ⟨rfl, normLoop_unit a b ha hb w h hwa hhb xi yi h1 h2 h3 h4⟩
    · obtain ⟨xi, yi, h1, h2, h3, h4, hveq⟩ := hb3 tri.2.1 (by simp)
      rw [hveq]
      exact ⟨rfl, normLoop_unit a b ha hb w h hwa hhb xi yi h1 h2 h3 h4⟩
    · obtain ⟨xi, yi, h1, h2, h3, h4, hveq⟩ := hb3 tri.2.2 (by simp)
      rw [hveq]
      exact ⟨rfl, normLoop_unit a b ha hb w h hwa hhb xi yi h1 h2 h3 h4⟩
  · -- the (0,0) corner
    have hT1 : ((gridVert (1/5 : ℚ) w h 0 0, gridVert (1/5 : ℚ) w h 1 0,
        gridVert (1/5 : ℚ) w h 0 1)) ∈ allCellTris (1/5) w h (a : ℤ) (b : ℤ) := by
      unfold allCellTris
      refine List.mem_flatMap.mpr ⟨0, List.mem_range.mpr (by omega), ?_⟩
      refine List.mem_flatMap.mpr ⟨0, List.mem_range.mpr (by omega), ?_⟩
      simp
    have hmem := fold_addTri_mem (-w / 2) (w / 2) (-h / 2) (h / 2) hd1 hd2 _ _ hT1 [] fs hfs
    refine ⟨_, hmem, normLoop (-w / 2) (w / 2) (-h / 2) (h / 2) (gridVert (1/5) w h 0 0),
      by simp [normFace], ?_, ?_⟩
    · show gridVert (1/5 : ℚ) w h 0 0 = ⟨-w / 2, -h / 2, 0⟩
      simp only [gridVert, Vert.mk.injEq]
      refine ⟨by ring, by ring, trivial⟩
    · have e1 : (gridVert (1/5 : ℚ) w h 0 0).x - -w / 2 = 0 := by
        simp only [gridVert]; ring
      have e2 : (gridVert (1/5 : ℚ) w h 0 0).y - -h / 2 = 0 := by
        simp only [gridVert]; ring
      show some (((gridVert (1/5 : ℚ) w h 0 0).x - -w / 2) / (w / 2 - -w / 2),
          ((gridVert (1/5 : ℚ) w h 0 0).y - -h / 2) / (h / 2 - -h / 2)) = some (0, 0)
      rw [e1, e2, zero_div, zero_div]
  · -- the (1,1) corner
    have hT2 : ((gridVert (1/5 : ℚ) w h (a : ℤ) ((b : ℤ) - 1),
        gridVert (1/5 : ℚ) w h (a : ℤ) (b : ℤ),
        gridVert (1/5 : ℚ) w h ((a : ℤ) - 1) (b : ℤ)))
        ∈ allCellTris (1/5) w h (a : ℤ) (b : ℤ) := by
      unfold allCellTris
      refine List.mem_flatMap.mpr ⟨b - 1, List.mem_range.mpr (by omega), ?_⟩
      refine List.mem_flatMap.mpr ⟨a - 1, List.mem_range.mpr (by omega), ?_⟩
      refine List.mem_cons.mpr (Or.inr (List.mem_cons.mpr (Or.inl ?_)))
      have e1 : ((a - 1 : ℕ) : ℤ) + 1 = (a : ℤ) := by omega
      have e2 : ((b - 1 : ℕ) : ℤ) + 1 = (b : ℤ) := by omega
      have e3 : ((a - 1 : ℕ) : ℤ) = (a : ℤ) - 1 := by omega
      have e4 : ((b - 1 : ℕ) : ℤ) = (b : ℤ) - 1 := by omega
      rw [e1, e2, e3, e4]
    have hmem := fold_addTri_mem (-w / 2) (w / 2) (-h / 2) (h / 2) hd1 hd2 _ _ hT2 [] fs hfs
    refine ⟨_, hmem, normLoop (-w / 2) (w / 2) (-h / 2) (h / 2)
      (gridVert (1/5) w h (a : ℤ) (b : ℤ)), by simp [normFace], ?_, ?_⟩
    · show gridVert (1/5 : ℚ) w h (a : ℤ) (b : ℤ) = ⟨w / 2, h / 2, 0⟩
      simp only [gridVert, Vert.mk.injEq]
      refine ⟨?_, ?_, trivial⟩
      · rw [hwa]; push_cast; ring
      · rw [hhb]; push_cast; ring
    · have e1 : (gridVert (1/5 : ℚ) w h (a : ℤ) (b : ℤ)).x - -w / 2 = w / 2 - -w / 2 := by
        simp only [gridVert]
        rw [hwa]; push_cast; ring
      have e2 : (gridVert (1/5 : ℚ) w h (a : ℤ) (b : ℤ)).y - -h / 2 = h / 2 - -h / 2 := by
        simp only [gridVert]
        rw [hhb]; push_cast; ring
      show some (((gridVert (1/5 : ℚ) w h (a : ℤ) (b : ℤ)).x - -w / 2) / (w / 2 - -w / 2),
          ((gridVert (1/5 : ℚ) w h (a : ℤ) (b : ℤ)).y - -h / 2) / (h / 2 - -h / 2))
        = some (1, 1)
      rw [e1, e2, div_self hd1, div_self hd2]

/-- Witness for the amended C1 at `a = b = 1` (a 0.2 m × 0.2 m plane). -/
theorem C1_uv_square_witness :
    ((1 : ℚ)/5 = (1 : ℚ) * defaultConfig.subdivisionSize) ∧
    (∃ obj, create_subdivided_plane_bmesh defaultConfig (1/5) (1/5) "Plane"
        = some obj ∧
      (∀ f ∈ obj.mesh.faces, ∀ lp ∈ f.loops,
        lp.uv = some ((lp.vert.x - -(1/5 : ℚ) / 2) / ((1/5 : ℚ) / 2 - -(1/5 : ℚ) / 2),
                      (lp.vert.y - -(1/5 : ℚ) / 2) / ((1/5 : ℚ) / 2 - -(1/5 : ℚ) / 2)) ∧
        ∃ u v, lp.uv = some (u, v) ∧ 0 ≤ u ∧ u ≤ 1 ∧ 0 ≤ v ∧ v ≤ 1) ∧
      (∃ f ∈ obj.mesh.faces, ∃ lp ∈ f.loops,
        lp.vert = ⟨-(1/5 : ℚ) / 2, -(1/5 : ℚ) / 2, 0⟩ ∧ lp.uv = some (0, 0)) ∧
      (∃ f ∈ obj.mesh.faces, ∃ lp ∈ f.loops,
        lp.vert = ⟨(1/5 : ℚ) / 2, (1/5 : ℚ) / 2, 0⟩ ∧ lp.uv = some (1, 1))) :=
  ⟨by norm_num [defaultConfig],
   C1_uv_square 1 1 le_rfl le_rfl (1/5) (1/5) "Plane"
     (by norm_num [defaultConfig]) (by norm_num [defaultConfig])⟩

/-! ### Decimal digit strings: characterizing `toString` on integers -/

/-- The decimal digits of `n`, most significant first: the list
`Nat.toDigits 10 n` produces. -/
def natDigits (n : ℕ) : List Char :=
  if n < 10 then [Nat.digitChar n]
  else natDigits (n / 10) ++ [Nat.digitChar (n % 10)]
decreasing_by exact Nat.div_lt_self (by omega) (by omega)

theorem toDigitsCore_eq_natDigits :
    ∀ (fuel n : ℕ) (ds : List Char), n < fuel →
      Nat.toDigitsCore 10 fuel n ds = natDigits n ++ ds := by
  intro fuel
  induction fuel with
  | zero => intro n ds h; omega
  | succ f ih =>
    intro n ds h
    rw [Nat.toDigitsCore]
    by_cases h0 : n / 10 = 0
    · have hn : n < 10 := by omega
      simp only [h0, if_pos rfl]
      rw [natDigits, if_pos hn, Nat.mod_eq_of_lt hn]
      rfl
    · have hn : 10 ≤ n := by
        by_contra hc
        exact h0 (Nat.div_eq_of_lt (by omega))
      have hlt : n / 10 < n := Nat.div_lt_self (by omega) (by omega)
      have hltf : n / 10 < f := lt_of_lt_of_le hlt (by omega)
      simp only [if_neg h0]
      rw [ih (n / 10) _ hltf]
      conv_rhs => rw [natDigits, if_neg (by omega)]
      simp [List.append_assoc]

theorem natRepr_data (n : ℕ) : (Nat.repr n).data = natDigits n := by
  show (Nat.toDigits 10 n).asString.data = natDigits n
  unfold Nat.toDigits
  rw [toDigitsCore_eq_natDigits (n + 1) n [] (by omega)]
  simp [List.asString]

theorem toString_int_data (w : ℤ) (hw : 0 ≤ w) :
    (toString w).data = natDigits w.toNat := by
  cases w with
  | ofNat m => exact natRepr_data m
  | negSucc m => exact absurd hw (Int.negSucc_lt_zero m).not_le

theorem digitChar_isDigit (k : ℕ) (hk : k < 10) : (Nat.digitChar k).isDigit = true := by
  interval_cases k <;> decide

theorem digitChar_toNat (k : ℕ) (hk : k < 10) : (Nat.digitChar k).toNat = 48 + k := by
  interval_cases k <;> decide

theorem natDigits_ne_nil (n : ℕ) : natDigits n ≠ [] := by
  rw [natDigits]
  split_ifs <;> simp

theorem natDigits_all_digit (n : ℕ) : ∀ c ∈ natDigits n, c.isDigit = true := by
  induction n using Nat.strong_induction_on with
  | _ n ih =>
    rw [natDigits]
    split_ifs with h
    · intro c hc
      obtain rfl : c = Nat.digitChar n := by simpa using hc
      exact digitChar_isDigit n h
    · intro c hc
      rcases List.mem_append.mp hc with h1 | h1
      · exact ih (n / 10) (Nat.div_lt_self (by omega) (by omega)) c h1
      · obtain rfl : c = Nat.digitChar (n % 10) := by simpa using h1
        exact digitChar_isDigit _ (Nat.mod_lt _ (by omega))

theorem natDigits_foldl (n : ℕ) :
    ∀ acc : ℕ, (natDigits n).foldl (fun a c => 10 * a + (c.toNat - 48)) acc
      = acc * 10 ^ (natDigits n).length + n := by
  induction n using Nat.strong_induction_on with
  | _ n ih =>
    intro acc
    rw [natDigits]
    split_ifs with h
    · simp only [List.foldl_cons, List.foldl_nil, List.length_cons, List.length_nil,
        pow_one, zero_add]
      rw [digitChar_toNat n h]
      omega
    · have hlt : n / 10 < n := Nat.div_lt_self (by omega) (by omega)
      rw [List.foldl_append, List.length_append, ih (n / 10) hlt acc]
      simp only [List.foldl_cons, List.foldl_nil, List.length_cons, List.length_nil,
        zero_add, pow_add, pow_one]
      rw [digitChar_toNat _ (Nat.mod_lt _ (by omega))]
      have hmod : 48 + n % 10 - 48 = n % 10 := by omega
      rw [hmod]
      have hdm : 10 * (n / 10) + n % 10 = n := by omega
      calc 10 * (acc * 10 ^ (natDigits (n / 10)).length + n / 10) + n % 10
          = acc * (10 ^ (natDigits (n / 10)).length * 10)
            + (10 * (n / 10) + n % 10) := by ring
        _ = acc * (10 ^ (natDigits (n / 10)).length * 10) + n := by rw [hdm]

theorem intOfDigitChars_natDigits (n : ℕ) : intOfDigitChars (natDigits n) = n := by
  unfold intOfDigitChars
  rw [natDigits_foldl n 0]
  simp

theorem strToInt_toString_int (w : ℤ) (hw : 0 ≤ w) : strToInt (toString w) = w := by
  unfold strToInt
  rw [toString_int_data w hw, intOfDigitChars_natDigits]
  omega

theorem toString_int_inj {w w' : ℤ} (hw : 0 ≤ w) (hw' : 0 ≤ w')
    (heq : toString w = toString w') : w = w' := by
  have := congrArg strToInt heq
  rwa [strToInt_toString_int w hw, strToInt_toString_int w' hw'] at this

theorem pyIsDigit_toString_int (w : ℤ) (hw : 0 ≤ w) :
    pyIsDigit (toString w) = true := by
  unfold pyIsDigit
  rw [toString_int_data w hw]
  have h1 : (natDigits w.toNat).isEmpty = false :=
    List.isEmpty_eq_false.mpr (natDigits_ne_nil w.toNat)
  have h2 : (natDigits w.toNat).all Char.isDigit = true :=
    List.all_eq_true.mpr (natDigits_all_digit w.toNat)
  rw [h1, h2]
  rfl

/-! ### Distinguishing the generated names -/

theorem isDigit_ne_x {c : Char} (hc : c.isDigit = true) : c ≠ 'x' := by
  intro h
  subst h
  exact absurd hc (by decide)

theorem isDigit_lt_U {c : Char} (hc : c.isDigit = true) : c < 'U' := by
  have h9 : c ≤ '9' := by
    have := hc
    unfold Char.isDigit at this
    simp only [Bool.and_eq_true, decide_eq_true_eq] at this
    exact this.2
  exact lt_of_le_of_lt h9 (by decide)

theorem toString_int_not_contains_x (w : ℤ) (hw : 0 ≤ w) :
    pyStrContains (toString w) 'x' = false := by
  unfold pyStrContains
  rw [toString_int_data w hw]
  show (natDigits w.toNat).elem 'x' = false
  by_cases hx : (natDigits w.toNat).elem 'x' = true
  · exact absurd rfl (isDigit_ne_x (natDigits_all_digit _ 'x' (List.elem_iff.mp hx)))
  · simpa using hx

theorem pyStartsWith_append (p s : String) :
    pyStartsWith (p ++ s) p = true := by
  unfold pyStartsWith
  rw [String.data_append]
  exact List.isPrefixOf_iff_prefix.mpr (List.prefix_append p.data s.data)

theorem digit_head_data (w : ℤ) (hw : 0 ≤ w) :
    ∃ c cs, (toString w).data = c :: cs ∧ c.isDigit = true := by
  rw [toString_int_data w hw]
  cases hd : natDigits w.toNat with
  | nil => exact absurd hd (natDigits_ne_nil w.toNat)
  | cons c cs =>
    exact ⟨c, cs, rfl, natDigits_all_digit w.toNat c (hd ▸ List.mem_cons_self c cs)⟩

theorem subcolName_data (w h : ℤ) (hw : 0 ≤ w) (hh : 0 ≤ h) :
    (subcolName w h).data = natDigits w.toNat ++ 'x' :: natDigits h.toNat := by
  unfold subcolName
  rw [String.data_append, String.data_append, toString_int_data w hw,
    toString_int_data h hh, List.append_assoc]
  rfl

theorem subcolName_head_digit (w h : ℤ) (hw : 0 ≤ w) (hh : 0 ≤ h) :
    ∃ c cs, (subcolName w h).data = c :: cs ∧ c.isDigit = true := by
  rw [subcolName_data w h hw hh]
  cases hd : natDigits w.toNat with
  | nil => exact absurd hd (natDigits_ne_nil w.toNat)
  | cons c cs =>
    exact ⟨c, cs ++ 'x' :: natDigits h.toNat, by simp,
      natDigits_all_digit w.toNat c (hd ▸ List.mem_cons_self c cs)⟩

theorem subcolName_contains_x (w h : ℤ) (hw : 0 ≤ w) (hh : 0 ≤ h) :
    pyStrContains (subcolName w h) 'x' = true := by
  unfold pyStrContains
  rw [subcolName_data w h hw hh]
  show List.elem 'x' _ = true
  exact List.elem_iff.mpr (List.mem_append.mpr (Or.inr (List.mem_cons_self _ _)))

theorem ucx_ne_of_digit_head {s t : String}
    (ht : ∃ c cs, t.data = c :: cs ∧ c.isDigit = true) : "UCX_" ++ s ≠ t := by
  intro heq
  obtain ⟨c, cs, hdata, hdig⟩ := ht
  have := congrArg String.data heq
  rw [String.data_append, hdata] at this
  have hU : 'U' = c := by
    have : 'U' :: ("CX_".data ++ s.data) = c :: cs := by simpa using this
    exact (List.cons.injEq _ _ _ _ ▸ this).1
  subst hU
  exact absurd hdig (by decide)

theorem pyIsDigit_false_of_contains_x {s : String}
    (hx : pyStrContains s 'x' = true) : pyIsDigit s = false := by
  unfold pyStrContains at hx
  unfold pyIsDigit
  have hmem : 'x' ∈ s.data := List.elem_iff.mp hx
  by_cases hall : s.data.all Char.isDigit = true
  · exact absurd rfl (isDigit_ne_x (List.all_eq_true.mp hall 'x' hmem))
  · simp only [Bool.and_eq_false_iff]
    right
    simpa using hall

theorem toString_ne_subcolName (w w' h' : ℤ) (hw : 0 ≤ w) (hw' : 0 ≤ w') (hh' : 0 ≤ h') :
    toString w ≠ subcolName w' h' := by
  intro heq
  have h1 := toString_int_not_contains_x w hw
  rw [heq, subcolName_contains_x w' h' hw' hh'] at h1
  exact absurd h1 (by simp)

/-! ### `splitOnChar` and `alnum_key` on generated names -/

theorem splitOnChar_ne_nil (c : Char) (l : List Char) : splitOnChar c l ≠ [] := by
  cases l with
  | nil => simp [splitOnChar]
  | cons a as =>
    rw [splitOnChar]
    cases splitOnChar c as with
    | nil => simp
    | cons g gs => split_ifs <;> simp

theorem splitOnChar_not_mem (c : Char) (l : List Char) (hc : c ∉ l) :
    splitOnChar c l = [l] := by
  induction l with
  | nil => rfl
  | cons a as ih =>
    have hne : ¬ a = c := fun hac => hc (by rw [hac]; exact List.mem_cons_self c as)
    rw [splitOnChar, ih (fun hmem => hc (List.mem_cons.mpr (Or.inr hmem)))]
    simp only [if_neg hne]

theorem splitOnChar_append (c : Char) (l1 l2 : List Char) (h1 : c ∉ l1) :
    splitOnChar c (l1 ++ c :: l2) = l1 :: splitOnChar c l2 := by
  induction l1 with
  | nil =>
    show splitOnChar c (c :: l2) = [] :: splitOnChar c l2
    rw [splitOnChar]
    cases hsp : splitOnChar c l2 with
    | nil => exact absurd hsp (splitOnChar_ne_nil c l2)
    | cons g gs => simp
  | cons a as ih =>
    have hne : ¬ a = c := fun hac =>
      h1 (by rw [hac]; exact List.mem_cons_self c as)
    show splitOnChar c (a :: (as ++ c :: l2)) = (a :: as) :: splitOnChar c l2
    rw [splitOnChar, ih (fun hmem => h1 (List.mem_cons.mpr (Or.inr hmem)))]
    simp only [if_neg hne]

theorem natDigits_token (n : ℕ) :
    (!(natDigits n).isEmpty && (natDigits n).all Char.isDigit) = true := by
  rw [List.isEmpty_eq_false.mpr (natDigits_ne_nil n),
    List.all_eq_true.mpr (natDigits_all_digit n)]
  rfl

theorem x_not_mem_natDigits (n : ℕ) : 'x' ∉ natDigits n := fun hmem =>
  isDigit_ne_x (natDigits_all_digit n 'x' hmem) rfl

theorem alnum_key_subcolName (w h : ℤ) (hw : 0 ≤ w) (hh : 0 ≤ h) :
    alnum_key (subcolName w h) = [Sum.inl w, Sum.inl h] := by
  unfold alnum_key
  rw [subcolName_data w h hw hh,
    splitOnChar_append 'x' _ _ (x_not_mem_natDigits w.toNat),
    splitOnChar_not_mem 'x' _ (x_not_mem_natDigits h.toNat)]
  simp only [List.map_cons, List.map_nil]
  rw [if_pos (natDigits_token w.toNat), if_pos (natDigits_token h.toNat),
    intOfDigitChars_natDigits, intOfDigitChars_natDigits,
    Int.toNat_of_nonneg hw, Int.toNat_of_nonneg hh]

theorem subcolName_inj {w h w' h' : ℤ} (hw : 0 ≤ w) (hh : 0 ≤ h)
    (hw' : 0 ≤ w') (hh' : 0 ≤ h')
    (heq : subcolName w h = subcolName w' h') : w = w' ∧ h = h' := by
  have := congrArg alnum_key heq
  rw [alnum_key_subcolName w h hw hh, alnum_key_subcolName w' h' hw' hh'] at this
  simpa using this

/-! ### Order facts for the sort relations -/

theorem pyListLt_irrefl {α : Type} [DecidableEq α] (lt : α → α → Bool)
    (h : ∀ a, lt a a = false) : ∀ l, pyListLt lt l l = false := by
  intro l
  induction l with
  | nil => rfl
  | cons a as ih => simp [pyListLt, h a, ih]

theorem pyListLt_trans {α : Type} [DecidableEq α] (lt : α → α → Bool)
    (htr : ∀ a b c, lt a b = true → lt b c = true → lt a c = true) :
    ∀ l1 l2 l3, pyListLt lt l1 l2 = true → pyListLt lt l2 l3 = true →
      pyListLt lt l1 l3 = true := by
  intro l1
  induction l1 with
  | nil =>
    intro l2 l3 h12 h23
    cases l2 with
    | nil => exact absurd h12 (by simp [pyListLt])
    | cons b bs =>
      cases l3 with
      | nil => exact absurd h23 (by simp [pyListLt])
      | cons c cs => rfl
  | cons a as ih =>
    intro l2 l3 h12 h23
    cases l2 with
    | nil => exact absurd h12 (by simp [pyListLt])
    | cons b bs =>
      cases l3 with
      | nil => exact absurd h23 (by simp [pyListLt])
      | cons c cs =>
        simp only [pyListLt, Bool.or_eq_true, Bool.and_eq_true,
          decide_eq_true_eq] at h12 h23 ⊢
        rcases h12 with h12 | ⟨rfl, h12r⟩
        · rcases h23 with h23 | ⟨rfl, h23r⟩
          · exact Or.inl (htr _ _ _ h12 h23)
          · exact Or.inl h12
        · rcases h23 with h23 | ⟨rfl, h23r⟩
          · exact Or.inl h23
          · exact Or.inr ⟨rfl, ih bs cs h12r h23r⟩

theorem pyListLt_total3 {α : Type} [DecidableEq α] (lt : α → α → Bool)
    (h3 : ∀ a b, lt a b = true ∨ a = b ∨ lt b a = true) :
    ∀ l1 l2, pyListLt lt l1 l2 = true ∨ l1 = l2 ∨ pyListLt lt l2 l1 = true := by
  intro l1
  induction l1 with
  | nil =>
    intro l2
    cases l2 with
    | nil => exact Or.inr (Or.inl rfl)
    | cons b bs => exact Or.inl rfl
  | cons a as ih =>
    intro l2
    cases l2 with
    | nil => exact Or.inr (Or.inr rfl)
    | cons b bs =>
      rcases h3 a b with hab | rfl | hba
      · exact Or.inl (by simp [pyListLt, hab])
      · rcases ih bs with h1 | rfl | h2
        · exact Or.inl (by simp [pyListLt, h1])
        · exact Or.inr (Or.inl rfl)
        · exact Or.inr (Or.inr (by simp [pyListLt, h2]))
      · exact Or.inr (Or.inr (by simp [pyListLt, hba]))

theorem charLtB_trans : ∀ a b c : Char, decide (a < b) = true →
    decide (b < c) = true → decide (a < c) = true := by
  intro a b c hab hbc
  simp only [decide_eq_true_eq] at hab hbc ⊢
  exact lt_trans hab hbc

theorem charLtB_total3 : ∀ a b : Char,
    decide (a < b) = true ∨ a = b ∨ decide (b < a) = true := by
  intro a b
  rcases lt_trichotomy a b with h | h | h
  · exact Or.inl (by simpa using h)
  · exact Or.inr (Or.inl h)
  · exact Or.inr (Or.inr (by simpa using h))

theorem charsLt_irrefl (l : List Char) : charsLt l l = false :=
  pyListLt_irrefl _ (fun a => by simp) l

theorem charsLt_trans : ∀ l1 l2 l3, charsLt l1 l2 = true →
    charsLt l2 l3 = true → charsLt l1 l3 = true :=
  pyListLt_trans _ charLtB_trans

theorem charsLt_total3 : ∀ l1 l2,
    charsLt l1 l2 = true ∨ l1 = l2 ∨ charsLt l2 l1 = true :=
  pyListLt_total3 _ charLtB_total3

theorem tokenLt_irrefl (t : ℤ ⊕ List Char) : tokenLt t t = false := by
  cases t with
  | inl i => simp [tokenLt]
  | inr s => exact charsLt_irrefl s

theorem tokenLt_trans : ∀ a b c, tokenLt a b = true → tokenLt b c = true →
    tokenLt a c = true := by
  intro a b c hab hbc
  cases a with
  | inl i =>
    cases c with
    | inr t => cases b <;> simp [tokenLt]
    | inl k =>
      cases b with
      | inr s => exact absurd hbc (by simp [tokenLt])
      | inl j =>
        simp only [tokenLt, decide_eq_true_eq] at hab hbc ⊢
        omega
  | inr s =>
    cases b with
    | inl j => exact absurd hab (by simp [tokenLt])
    | inr t =>
      cases c with
      | inl k => exact absurd hbc (by simp [tokenLt])
      | inr u => exact charsLt_trans s t u hab hbc

theorem tokenLt_total3 : ∀ a b, tokenLt a b = true ∨ a = b ∨ tokenLt b a = true := by
  intro a b
  cases a with
  | inl i =>
    cases b with
    | inl j =>
      rcases lt_trichotomy i j with h | h | h
      · exact Or.inl (by simp [tokenLt, h])
      · exact Or.inr (Or.inl (by rw [h]))
      · exact Or.inr (Or.inr (by simp [tokenLt, h]))
    | inr t => exact Or.inl (by simp [tokenLt])
  | inr s =>
    cases b with
    | inl j => exact Or.inr (Or.inr (by simp [tokenLt]))
    | inr t =>
      rcases charsLt_total3 s t with h | h | h
      · exact Or.inl h
      · exact Or.inr (Or.inl (by rw [h]))
      · exact Or.inr (Or.inr h)

theorem tokensLt_irrefl (l : List (ℤ ⊕ List Char)) : tokensLt l l = false :=
  pyListLt_irrefl _ tokenLt_irrefl l

theorem tokensLt_trans : ∀ l1 l2 l3, tokensLt l1 l2 = true →
    tokensLt l2 l3 = true → tokensLt l1 l3 = true :=
  pyListLt_trans _ tokenLt_trans

theorem tokensLt_total3 : ∀ l1 l2,
    tokensLt l1 l2 = true ∨ l1 = l2 ∨ tokensLt l2 l1 = true :=
  pyListLt_total3 _ tokenLt_total3

theorem tokensLt_of_not_lt_of_ne {k1 k2 : List (ℤ ⊕ List Char)}
    (hle : ¬ tokensLt k2 k1 = true) (hne : k1 ≠ k2) : tokensLt k1 k2 = true := by
  rcases tokensLt_total3 k1 k2 with h | h | h
  · exact h
  · exact absurd h hne
  · exact absurd h hle

instance : IsTrans String alnumLe :=
  ⟨fun a b c hab hbc => by
    unfold alnumLe at *
    intro hca
    rcases tokensLt_total3 (alnum_key b) (alnum_key a) with h | h | h
    · exact hab h
    · rw [← h] at hca
      exact hbc hca
    · exact hbc (tokensLt_trans _ _ _ hca h)⟩

instance : IsTotal String alnumLe :=
  ⟨fun a b => by
    unfold alnumLe
    by_cases hab : tokensLt (alnum_key b) (alnum_key a) = true
    · right
      intro hba
      have := tokensLt_trans _ _ _ hab hba
      rw [tokensLt_irrefl] at this
      exact absurd this (by simp)
    · exact Or.inl hab⟩

instance : IsTrans String nameLe :=
  ⟨fun a b c hab hbc => by
    unfold nameLe at *
    intro hca
    rcases charsLt_total3 b.data a.data with h | h | h
    · exact hab h
    · rw [← h] at hca
      exact hbc hca
    · exact hbc (charsLt_trans _ _ _ hca h)⟩

instance : IsTotal String nameLe :=
  ⟨fun a b => by
    unfold nameLe
    by_cases hab : charsLt b.data a.data = true
    · right
      intro hba
      have := charsLt_trans _ _ _ hab hba
      rw [charsLt_irrefl] at this
      exact absurd this (by simp)
    · exact Or.inl hab⟩

instance : IsTrans String nameIntLe :=
  ⟨fun a b c hab hbc => le_trans hab hbc⟩

instance : IsTotal String nameIntLe :=
  ⟨fun a b => le_total (strToInt a) (strToInt b)⟩

instance : IsTrans Collection colIntLe :=
  ⟨fun a b c hab hbc => le_trans hab hbc⟩

instance : IsTotal Collection colIntLe :=
  ⟨fun a b => le_total (strToInt a.name) (strToInt b.name)⟩

instance : IsTrans Collection colAlnumLe :=
  ⟨fun a b c hab hbc => by
    unfold colAlnumLe at *
    intro hca
    rcases tokensLt_total3 (alnum_key b.name) (alnum_key a.name) with h | h | h
    · exact hab h
    · rw [← h] at hca
      exact hbc hca
    · exact hbc (tokensLt_trans _ _ _ hca h)⟩

instance : IsTotal Collection colAlnumLe :=
  ⟨fun a b => by
    unfold colAlnumLe
    by_cases hab : tokensLt (alnum_key b.name) (alnum_key a.name) = true
    · right
      intro hba
      have := tokensLt_trans _ _ _ hab hba
      rw [tokensLt_irrefl] at this
      exact absurd this (by simp)
    · exact Or.inl hab⟩

/-! ### Hypotheses on the configuration and the host document -/

/-- The configuration invariants the script's own settings satisfy:
positive, pairwise distinct sizes. -/
def goodSizes (cfg : Config) : Prop :=
  (∀ s ∈ cfg.sizesCm, 0 < s) ∧ cfg.sizesCm.Nodup

/-- Blender data invariants: every link stored in the document refers to an
existing collection or object.  (Blender cannot represent dangling links.) -/
def WFDoc (d : Doc) : Prop :=
  (∀ n ∈ d.sceneChildren, ∃ c ∈ d.collections, c.name = n) ∧
  (∀ c ∈ d.collections, ∀ n ∈ c.children, ∃ c2 ∈ d.collections, c2.name = n) ∧
  (∀ c ∈ d.collections, ∀ n ∈ c.objects, ∃ o ∈ d.objects, o.name = n) ∧
  (∀ n ∈ d.sceneObjects, ∃ o ∈ d.objects, o.name = n)

/-- Objects whose names follow the generated-content convention are mesh
objects.  (Blender enforces unique object names by renaming, which the
name-keyed model cannot represent; this hypothesis scopes the theorems to
documents where no non-mesh object squats on a generated name.) -/
def MeshOnlyGen (d : Doc) : Prop :=
  ∀ o ∈ d.objects, isGeneratedName o.name = true → o.objType = "MESH"

/-- What `cleanup` guarantees about the document it returns. -/
structure BaseOK (b : Doc) : Prop where
  cols : ∀ c ∈ b.collections, isGeneratedName c.name = false
  children : ∀ c ∈ b.collections, ∀ n ∈ c.children, isGeneratedName n = false
  colObjs : ∀ c ∈ b.collections, ∀ n ∈ c.objects, isGeneratedName n = false
  objsNonMesh : ∀ o ∈ b.objects, ¬ o.objType = "MESH"
  scChildren : ∀ n ∈ b.sceneChildren, isGeneratedName n = false
  scChildrenBacked : ∀ n ∈ b.sceneChildren, ∃ c ∈ b.collections, c.name = n
  scObjs : ∀ n ∈ b.sceneObjects, isGeneratedName n = false

theorem isGeneratedName_toString (w : ℤ) (hw : 0 ≤ w) :
    isGeneratedName (toString w) = true := by
  unfold isGeneratedName
  rw [pyIsDigit_toString_int w hw]
  rfl

theorem isGeneratedName_subcolName (w h : ℤ) (hw : 0 ≤ w) (hh : 0 ≤ h) :
    isGeneratedName (subcolName w h) = true := by
  unfold isGeneratedName
  rw [subcolName_contains_x w h hw hh]
  simp

theorem isGeneratedName_ucx (s : String) :
    isGeneratedName ("UCX_" ++ s) = true := by
  unfold isGeneratedName
  rw [pyStartsWith_append]
  simp

theorem ne_of_not_generated {n m : String} (hn : isGeneratedName n = false)
    (hm : isGeneratedName m = true) : n ≠ m := by
  intro h
  rw [h, hm] at hn
  exact absurd hn (by simp)

theorem toString_pos_ne_ucx (w : ℤ) (hw : 0 ≤ w) (s : String) :
    toString w ≠ "UCX_" ++ s :=
  fun h => ucx_ne_of_digit_head (digit_head_data w hw) h.symm

theorem subcolName_ne_ucx (w h : ℤ) (hw : 0 ≤ w) (hh : 0 ≤ h) (s : String) :
    subcolName w h ≠ "UCX_" ++ s :=
  fun heq => ucx_ne_of_digit_head (subcolName_head_digit w h hw hh) heq.symm

/-! ### The documents produced by each stage of the run -/

/-- The primary plane object, described as the value
`create_subdivided_plane_bmesh` returns on non-degenerate input. -/
def createdPlane (cfg : Config) (w h : ℚ) (nm : String) : PObject :=
  ⟨nm, "MESH",
    ⟨(planeGrid cfg.subdivisionSize w h (pyRound (w / cfg.subdivisionSize))
        (pyRound (h / cfg.subdivisionSize))).flatten,
      (planeFacesFold cfg.subdivisionSize w h (pyRound (w / cfg.subdivisionSize))
        (pyRound (h / cfg.subdivisionSize))).getD []⟩⟩

theorem create_eq_createdPlane (cfg : Config) (w h : ℚ) (nm : String)
    (hw : w ≠ 0) (hh : h ≠ 0) :
    create_subdivided_plane_bmesh cfg w h nm = some (createdPlane cfg w h nm) := by
  obtain ⟨fs, hfs⟩ := Option.isSome_iff_exists.mp
    (planeFacesFold_isSome cfg.subdivisionSize w h
      (pyRound (w / cfg.subdivisionSize)) (pyRound (h / cfg.subdivisionSize)) hw hh)
  rw [create_eq_some cfg w h nm fs hfs]
  unfold createdPlane
  rw [hfs]
  rfl

/-- The width collection as the hierarchy builder leaves it. -/
def hierWidthCol (cfg : Config) (w : ℤ) : Collection :=
  ⟨toString w, cfg.sizesCm.map (subcolName w), []⟩

/-- The leaf subcollection as it stands once its two objects are linked
(the sorting stage keeps this object order, see `C8`). -/
def genSubcol (w h : ℤ) : Collection :=
  ⟨subcolName w h, [], [subcolName w h, "UCX_" ++ subcolName w h]⟩

/-- The width collection as the sorting stage leaves it. -/
def genWidthCol (cfg : Config) (w : ℤ) : Collection :=
  ⟨toString w, (cfg.sizesCm.map (subcolName w)).insertionSort alnumLe, []⟩

/-- The leaf subcollection during the main loop, before its pair is processed. -/
def subcolAfter (w h : ℤ) (processed : List (ℤ × ℤ)) : Collection :=
  ⟨subcolName w h, [],
    if (w, h) ∈ processed then [subcolName w h, "UCX_" ++ subcolName w h] else []⟩

/-- The `(width_cm, height_cm)` pairs of the run, in iteration order. -/
def cmPairs (cfg : Config) : List (ℤ × ℤ) :=
  cfg.sizesCm.flatMap (fun w => cfg.sizesCm.map (fun h => (w, h)))

/-- `height_collections_map` in its final (fully built) form. -/
def hmapFull (cfg : Config) : List ((ℤ × ℤ) × String) :=
  cfg.sizesCm.flatMap (fun w => cfg.sizesCm.map (fun h => ((w, h), subcolName w h)))

/-- The collections list during the main loop, after `processed` pairs. -/
def colsAfter (cfg : Config) (processed : List (ℤ × ℤ)) : List Collection :=
  cfg.sizesCm.flatMap (fun w =>
    hierWidthCol cfg w :: cfg.sizesCm.map (fun h => subcolAfter w h processed))

/-- The objects created for the given `(width_cm, height_cm)` pairs, in
creation order. -/
def objsFor (cfg : Config) (pairs : List (ℤ × ℤ)) : List PObject :=
  pairs.flatMap (fun p =>
    [createdPlane cfg ((p.1 : ℚ) / 100) ((p.2 : ℚ) / 100) (subcolName p.1 p.2),
     create_simple_plane ((p.1 : ℚ) / 100) ((p.2 : ℚ) / 100)
       ("UCX_" ++ subcolName p.1 p.2)])

/-- The document during the main loop, after `processed` pairs. -/
def midDoc (cfg : Config) (b : Doc) (processed : List (ℤ × ℤ)) : Doc :=
  { collections := b.collections ++ colsAfter cfg processed
  , objects := b.objects ++ objsFor cfg processed
  , sceneChildren := b.sceneChildren ++ cfg.sizesCm.map (fun w => toString w)
  , sceneObjects := b.sceneObjects }

/-- The collections list at the end of the run. -/
def genCols (cfg : Config) : List Collection :=
  cfg.sizesCm.flatMap (fun w => genWidthCol cfg w :: cfg.sizesCm.map (genSubcol w))

/-- The document state at the end of the run, as a function of the cleaned
base document. -/
def finalDoc (cfg : Config) (b : Doc) : Doc :=
  { collections := b.collections ++ genCols cfg
  , objects := b.objects ++ objsFor cfg (cmPairs cfg)
  , sceneChildren := b.sceneChildren
      ++ (cfg.sizesCm.map (fun w => toString w)).insertionSort nameIntLe
  , sceneObjects := b.sceneObjects }

/-! ### What cleanup guarantees -/

theorem contains_iff_mem {l : List String} {n : String} :
    l.contains n = true ↔ n ∈ l :=
  List.elem_iff

/-- The names `cleanup` removes every collection of. -/
def removeNamesOf (d : Doc) : List String :=
  (d.collections.filter (fun c => isGeneratedName c.name)).map (fun c => c.name)

/-- The names `cleanup` removes every object of. -/
def meshNamesOf (d : Doc) : List String :=
  (d.objects.filter (fun o => o.objType == "MESH")).map (fun o => o.name)

theorem mem_removeNamesOf {d : Doc} {n : String} :
    n ∈ removeNamesOf d ↔ ∃ c ∈ d.collections, isGeneratedName c.name = true ∧ c.name = n := by
  unfold removeNamesOf
  simp only [List.mem_map, List.mem_filter]
  constructor
  · rintro ⟨c, ⟨hc, hgen⟩, rfl⟩
    exact ⟨c, hc, hgen, rfl⟩
  · rintro ⟨c, hc, hgen, rfl⟩
    exact ⟨c, ⟨hc, hgen⟩, rfl⟩

theorem mem_meshNamesOf {d : Doc} {n : String} :
    n ∈ meshNamesOf d ↔ ∃ o ∈ d.objects, o.objType = "MESH" ∧ o.name = n := by
  unfold meshNamesOf
  simp only [List.mem_map, List.mem_filter, beq_iff_eq]
  constructor
  · rintro ⟨o, ⟨ho, htype⟩, rfl⟩
    exact ⟨o, ho, htype, rfl⟩
  · rintro ⟨o, ho, htype, rfl⟩
    exact ⟨o, ⟨ho, htype⟩, rfl⟩

theorem cleanup_fields (d : Doc) :
    cleanup d =
      Doc.mk
        (((d.collections.map (fun c => { c with objects := c.objects.filter (fun n => !(meshNamesOf d).contains n) })).filter (fun c => !(removeNamesOf d).contains c.name)).map (fun c => { c with children := c.children.filter (fun n => !(removeNamesOf d).contains n) }))
        (d.objects.filter (fun o => o.objType != "MESH"))
        (d.sceneChildren.filter (fun n => !(removeNamesOf d).contains n))
        (d.sceneObjects.filter (fun n => !(meshNamesOf d).contains n)) := by
  unfold cleanup removeGeneratedCollections removeMeshObjects removeNamesOf meshNamesOf
  rw [List.filter_map, List.map_map]
  rfl

theorem cleanup_BaseOK (d : Doc) (hwf : WFDoc d) (hm : MeshOnlyGen d) :
    BaseOK (cleanup d) := by
  obtain ⟨hwf1, hwf2, hwf3, hwf4⟩ := hwf
  rw [cleanup_fields d]
  have hRM : ∀ n : String, (∃ c ∈ d.collections, c.name = n) →
      isGeneratedName n = true → (removeNamesOf d).contains n = true := by
    rintro n ⟨c, hc, rfl⟩ hgen
    exact contains_iff_mem.mpr (mem_removeNamesOf.mpr ⟨c, hc, hgen, rfl⟩)
  have hMN : ∀ n : String, (∃ o ∈ d.objects, o.name = n) →
      isGeneratedName n = true →
      ((meshNamesOf d).contains n = true ∨ isGeneratedName n = false) := by
    rintro n ⟨o, ho, rfl⟩ hgen
    exact Or.inl (contains_iff_mem.mpr
      (mem_meshNamesOf.mpr ⟨o, ho, hm o ho hgen, rfl⟩))
  constructor
  · -- collection names are not generated
    intro c hc
    simp only [List.mem_map, List.mem_filter, List.mem_map] at hc
    obtain ⟨c1, ⟨⟨c0, hc0, rfl⟩, hkeep⟩, rfl⟩ := hc
    by_contra hgen
    simp only [Bool.not_eq_false] at hgen
    have := hRM c0.name ⟨c0, hc0, rfl⟩ hgen
    rw [this] at hkeep
    exact absurd hkeep (by simp)
  · -- children of kept collections are not generated
    intro c hc n hn
    simp only [List.mem_map, List.mem_filter, List.mem_map] at hc
    obtain ⟨c1, ⟨⟨c0, hc0, rfl⟩, hkeep⟩, rfl⟩ := hc
    simp only [List.mem_filter] at hn
    obtain ⟨hn1, hn2⟩ := hn
    by_contra hgen
    simp only [Bool.not_eq_false] at hgen
    have hback := hwf2 c0 hc0 n hn1
    have := hRM n hback hgen
    rw [this] at hn2
    exact absurd hn2 (by simp)
  · -- objects linked into kept collections are not generated
    intro c hc n hn
    simp only [List.mem_map, List.mem_filter, List.mem_map] at hc
    obtain ⟨c1, ⟨⟨c0, hc0, rfl⟩, hkeep⟩, rfl⟩ := hc
    simp only [List.mem_filter] at hn
    obtain ⟨hn1, hn2⟩ := hn
    by_contra hgen
    simp only [Bool.not_eq_false] at hgen
    rcases hMN n (hwf3 c0 hc0 n hn1) hgen with hmem | hfalse
    · rw [hmem] at hn2
      exact absurd hn2 (by simp)
    · rw [hgen] at hfalse
      exact absurd hfalse (by simp)
  · -- all remaining objects are non-mesh
    intro o ho
    simp only [List.mem_filter, bne_iff_ne, ne_eq] at ho
    exact ho.2
  · -- scene children are not generated
    intro n hn
    simp only [List.mem_filter] at hn
    obtain ⟨hn1, hn2⟩ := hn
    by_contra hgen
    simp only [Bool.not_eq_false] at hgen
    have := hRM n (hwf1 n hn1) hgen
    rw [this] at hn2
    exact absurd hn2 (by simp)
  · -- scene children still have a backing collection
    intro n hn
    simp only [List.mem_filter] at hn
    obtain ⟨hn1, hn2⟩ := hn
    obtain ⟨c0, hc0, rfl⟩ := hwf1 n hn1
    exact ⟨_, List.mem_map.mpr
      ⟨_, List.mem_filter.mpr ⟨List.mem_map.mpr ⟨c0, hc0, rfl⟩, hn2⟩, rfl⟩, rfl⟩
  · -- scene objects are not generated
    intro n hn
    simp only [List.mem_filter] at hn
    obtain ⟨hn1, hn2⟩ := hn
    by_contra hgen
    simp only [Bool.not_eq_false] at hgen
    rcases hMN n (hwf4 n hn1) hgen with hmem | hfalse
    · rw [hmem] at hn2
      exact absurd hn2 (by simp)
    · rw [hgen] at hfalse
      exact absurd hfalse (by simp)

/-! ### The hierarchy builder -/

theorem map_if_name_eq_of_all_ne {cols : List Collection} {nm : String}
    {g : Collection → Collection} (h : ∀ c ∈ cols, ¬ c.name = nm) :
    cols.map (fun c => if c.name == nm then g c else c) = cols := by
  have hcongr : ∀ c ∈ cols, (if c.name == nm then g c else c) = c := by
    intro c hc
    rw [if_neg (by simpa using h c hc)]
  rw [List.map_congr_left hcongr, List.map_id']

theorem find?_name_none {cols : List Collection} {nm : String}
    (h : ∀ c ∈ cols, ¬ c.name = nm) :
    cols.find? (fun c => c.name == nm) = none :=
  List.find?_eq_none.mpr (fun c hc => by simpa using h c hc)

theorem toString_ne_of_ne {w w' : ℤ} (hw : 0 ≤ w) (hw' : 0 ≤ w') (hne : w ≠ w') :
    ¬ toString w = toString w' :=
  fun h => hne (toString_int_inj hw hw' h)

theorem subcolName_ne_of_ne {w h w' h' : ℤ} (hw : 0 ≤ w) (hh : 0 ≤ h)
    (hw' : 0 ≤ w') (hh' : 0 ≤ h') (hne : ¬ (w = w' ∧ h = h')) :
    ¬ subcolName w h = subcolName w' h' :=
  fun heq => hne (subcolName_inj hw hh hw' hh' heq)

/-- The collections the hierarchy builder has created after the width
prefix `ws`. -/
def hierColsFor (cfg : Config) (ws : List ℤ) : List Collection :=
  ws.flatMap (fun w =>
    hierWidthCol cfg w :: cfg.sizesCm.map (fun h => Collection.mk (subcolName w h) [] []))

/-- `height_collections_map` after the width prefix `ws`. -/
def hmapFor (cfg : Config) (ws : List ℤ) : List ((ℤ × ℤ) × String) :=
  ws.flatMap (fun w => cfg.sizesCm.map (fun h => ((w, h), subcolName w h)))

/-- The document after the hierarchy builder has processed the width
prefix `ws`. -/
def hierDocFor (cfg : Config) (b : Doc) (ws : List ℤ) : Doc :=
  { collections := b.collections ++ hierColsFor cfg ws
  , objects := b.objects
  , sceneChildren := b.sceneChildren ++ ws.map (fun w => toString w)
  , sceneObjects := b.sceneObjects }

/-- The document midway through the inner (heights) loop of the hierarchy
builder: widths `ws` fully built, the current width `w` linked, and the
height prefix `hs` of its subcollections built. -/
def hierInnerDoc (cfg : Config) (b : Doc) (ws : List ℤ) (w : ℤ) (hs : List ℤ) : Doc :=
  { collections := b.collections ++ hierColsFor cfg ws
      ++ Collection.mk (toString w) (hs.map (subcolName w)) []
        :: hs.map (fun h => Collection.mk (subcolName w h) [] [])
  , objects := b.objects
  , sceneChildren := b.sceneChildren ++ ws.map (fun x => toString x) ++ [toString w]
  , sceneObjects := b.sceneObjects }

theorem mem_hierColsFor {cfg : Config} {ws : List ℤ} {c : Collection}
    (hc : c ∈ hierColsFor cfg ws) :
    (∃ w ∈ ws, c = hierWidthCol cfg w) ∨
    (∃ w ∈ ws, ∃ h ∈ cfg.sizesCm, c = Collection.mk (subcolName w h) [] []) := by
  unfold hierColsFor at hc
  obtain ⟨w, hw, hc2⟩ := List.mem_flatMap.mp hc
  rcases List.mem_cons.mp hc2 with rfl | hc3
  · exact Or.inl ⟨w, hw, rfl⟩
  · obtain ⟨h, hh, rfl⟩ := List.mem_map.mp hc3
    exact Or.inr ⟨w, hw, h, hh, rfl⟩

theorem hierInner_fresh_sub (cfg : Config) (b : Doc) (hb : BaseOK b)
    (hpos : ∀ s ∈ cfg.sizesCm, 0 < s)
    (ws : List ℤ) (hws : ∀ x ∈ ws, x ∈ cfg.sizesCm)
    (w : ℤ) (hw : 0 < w) (hwnot : w ∉ ws)
    (hs : List ℤ) (hhs : ∀ x ∈ hs, x ∈ cfg.sizesCm)
    (h : ℤ) (hh : 0 < h) (hhnot : h ∉ hs) :
    getCollection (hierInnerDoc cfg b ws w hs) (subcolName w h) = none := by
  unfold getCollection hierInnerDoc
  apply find?_name_none
  intro c hc
  simp only [List.mem_append, List.mem_cons, List.mem_map] at hc
  rcases hc with (hcb | hchier) | rfl | ⟨h', hh', rfl⟩
  · exact ne_of_not_generated (hb.cols c hcb)
      (isGeneratedName_subcolName w h (le_of_lt hw) (le_of_lt hh))
  · rcases mem_hierColsFor hchier with ⟨w', hw', rfl⟩ | ⟨w', hw', h'', hh'', rfl⟩
    · exact toString_ne_subcolName w' w h
        (le_of_lt (hpos w' (hws w' hw'))) (le_of_lt hw) (le_of_lt hh)
    · exact subcolName_ne_of_ne (le_of_lt (hpos w' (hws w' hw')))
        (le_of_lt (hpos h'' hh'')) (le_of_lt hw) (le_of_lt hh)
        (fun hp => hwnot (hp.1 ▸ hw'))
  · exact toString_ne_subcolName w w h (le_of_lt hw) (le_of_lt hw) (le_of_lt hh)
  · exact subcolName_ne_of_ne (le_of_lt hw) (le_of_lt (hpos h' (hhs h' hh')))
      (le_of_lt hw) (le_of_lt hh) (fun hp => hhnot (hp.2 ▸ hh'))

theorem hierDocFor_fresh_width (cfg : Config) (b : Doc) (hb : BaseOK b)
    (hpos : ∀ s ∈ cfg.sizesCm, 0 < s)
    (ws : List ℤ) (hws : ∀ x ∈ ws, x ∈ cfg.sizesCm)
    (w : ℤ) (hw : 0 < w) (hwnot : w ∉ ws) :
    getCollection (hierDocFor cfg b ws) (toString w) = none := by
  unfold getCollection hierDocFor
  apply find?_name_none
  intro c hc
  rcases List.mem_append.mp hc with hcb | hchier
  · exact ne_of_not_generated (hb.cols c hcb) (isGeneratedName_toString w (le_of_lt hw))
  · rcases mem_hierColsFor hchier with ⟨w', hw', rfl⟩ | ⟨w', hw', h'', hh'', rfl⟩
    · exact toString_ne_of_ne (le_of_lt (hpos w' (hws w' hw'))) (le_of_lt hw)
        (fun heq => hwnot (heq ▸ hw'))
    · exact fun heq => toString_ne_subcolName w w' h'' (le_of_lt hw)
        (le_of_lt (hpos w' (hws w' hw'))) (le_of_lt (hpos h'' hh'')) heq.symm

theorem hierInner_step (cfg : Config) (b : Doc) (hb : BaseOK b)
    (hpos : ∀ s ∈ cfg.sizesCm, 0 < s)
    (ws : List ℤ) (hws : ∀ x ∈ ws, x ∈ cfg.sizesCm)
    (w : ℤ) (hw : 0 < w) (hwnot : w ∉ ws)
    (hs : List ℤ) (hhs : ∀ x ∈ hs, x ∈ cfg.sizesCm)
    (h : ℤ) (hh : 0 < h) (hhnot : h ∉ hs) :
    (if (getCollection (hierInnerDoc cfg b ws w hs) (subcolName w h)).isSome
     then hierInnerDoc cfg b ws w hs
     else linkChildTo (newCollection (hierInnerDoc cfg b ws w hs) (subcolName w h))
            (toString w) (subcolName w h))
    = hierInnerDoc cfg b ws w (hs ++ [h]) := by
  rw [hierInner_fresh_sub cfg b hb hpos ws hws w hw hwnot hs hhs h hh hhnot,
    Option.isSome_none, if_neg Bool.false_ne_true]
  have hA : ∀ c ∈ b.collections, ¬ c.name = toString w := fun c hc =>
    ne_of_not_generated (hb.cols c hc) (isGeneratedName_toString w (le_of_lt hw))
  have hB : ∀ c ∈ hierColsFor cfg ws, ¬ c.name = toString w := by
    intro c hc
    rcases mem_hierColsFor hc with ⟨w', hw', rfl⟩ | ⟨w', hw', h'', hh'', rfl⟩
    · exact toString_ne_of_ne (le_of_lt (hpos w' (hws w' hw'))) (le_of_lt hw)
        (fun heq => hwnot (heq ▸ hw'))
    · exact fun heq => toString_ne_subcolName w w' h'' (le_of_lt hw)
        (le_of_lt (hpos w' (hws w' hw'))) (le_of_lt (hpos h'' hh'')) heq.symm
  have hC : ∀ c ∈ hs.map (fun h' => Collection.mk (subcolName w h') [] []),
      ¬ c.name = toString w := by
    intro c hc
    obtain ⟨h', hh', rfl⟩ := List.mem_map.mp hc
    exact fun heq => toString_ne_subcolName w w h' (le_of_lt hw) (le_of_lt hw)
      (le_of_lt (hpos h' (hhs h' hh'))) heq.symm
  have hNbeq : (subcolName w h == toString w) = false := by
    rw [beq_eq_false_iff_ne]
    exact fun heq => toString_ne_subcolName w w h (le_of_lt hw) (le_of_lt hw)
      (le_of_lt hh) heq.symm
  unfold linkChildTo newCollection hierInnerDoc
  simp only [List.map_append, List.map_cons, List.map_nil,
    map_if_name_eq_of_all_ne hA, map_if_name_eq_of_all_ne hB,
    map_if_name_eq_of_all_ne hC, beq_self_eq_true, if_true, hNbeq,
    Bool.false_eq_true, if_false, List.append_assoc, List.cons_append,
    List.nil_append, List.append_nil]

theorem hierInner_fold (cfg : Config) (b : Doc) (hb : BaseOK b)
    (hpos : ∀ s ∈ cfg.sizesCm, 0 < s)
    (ws : List ℤ) (hws : ∀ x ∈ ws, x ∈ cfg.sizesCm)
    (w : ℤ) (hw : 0 < w) (hwnot : w ∉ ws)
    (m0 : List ((ℤ × ℤ) × String)) :
    ∀ htodo hs : List ℤ, cfg.sizesCm = hs ++ htodo → (hs ++ htodo).Nodup →
      htodo.foldl (fun acc2 h =>
          (if (getCollection acc2.1 (subcolName w h)).isSome then acc2.1
           else linkChildTo (newCollection acc2.1 (subcolName w h)) (toString w)
                  (subcolName w h),
           acc2.2 ++ [((w, h), subcolName w h)]))
        (hierInnerDoc cfg b ws w hs, m0 ++ hs.map (fun h => ((w, h), subcolName w h)))
      = (hierInnerDoc cfg b ws w cfg.sizesCm,
         m0 ++ cfg.sizesCm.map (fun h => ((w, h), subcolName w h))) := by
  intro htodo
  induction htodo with
  | nil =>
    intro hs hsplit _
    rw [List.append_nil] at hsplit
    rw [List.foldl_nil, ← hsplit]
  | cons h rest ih =>
    intro hs hsplit hnodup
    have hhmem : h ∈ cfg.sizesCm := by
      rw [hsplit]
      exact List.mem_append.mpr (Or.inr (List.mem_cons_self h rest))
    have hhs : ∀ x ∈ hs, x ∈ cfg.sizesCm := by
      intro x hx
      rw [hsplit]
      exact List.mem_append.mpr (Or.inl hx)
    have hhnot : h ∉ hs := by
      intro hmem
      exact (List.nodup_append.mp hnodup).2.2 hmem (List.mem_cons_self h rest)
    rw [List.foldl_cons,
      ← ih (hs ++ [h]) (by rw [hsplit, List.append_assoc, List.singleton_append])
        (by rw [List.append_assoc, List.singleton_append]; exact hnodup)]
    congr 1
    dsimp only
    rw [hierInner_step cfg b hb hpos ws hws w hw hwnot hs hhs h (hpos h hhmem) hhnot]
    simp only [List.map_append, List.map_cons, List.map_nil, List.append_assoc,
      List.cons_append, List.nil_append]

theorem hierOuter_fold (cfg : Config) (b : Doc) (hb : BaseOK b) (hg : goodSizes cfg) :
    ∀ wtodo ws : List ℤ, cfg.sizesCm = ws ++ wtodo →
      wtodo.foldl (fun acc w =>
          cfg.sizesCm.foldl (fun acc2 h =>
              (if (getCollection acc2.1 (subcolName w h)).isSome then acc2.1
               else linkChildTo (newCollection acc2.1 (subcolName w h)) (toString w)
                      (subcolName w h),
               acc2.2 ++ [((w, h), subcolName w h)]))
            (if (getCollection acc.1 (toString w)).isSome then acc.1
             else linkSceneChild (newCollection acc.1 (toString w)) (toString w), acc.2))
        (hierDocFor cfg b ws, hmapFor cfg ws)
      = (hierDocFor cfg b cfg.sizesCm, hmapFor cfg cfg.sizesCm) := by
  intro wtodo
  induction wtodo with
  | nil =>
    intro ws hsplit
    rw [List.append_nil] at hsplit
    rw [List.foldl_nil, ← hsplit]
  | cons w rest ih =>
    intro ws hsplit
    have hwmem : w ∈ cfg.sizesCm := by
      rw [hsplit]
      exact List.mem_append.mpr (Or.inr (List.mem_cons_self w rest))
    have hws : ∀ x ∈ ws, x ∈ cfg.sizesCm := by
      intro x hx
      rw [hsplit]
      exact List.mem_append.mpr (Or.inl hx)
    have hwnot : w ∉ ws := by
      intro hmem
      have hnd : (ws ++ w :: rest).Nodup := hsplit ▸ hg.2
      exact (List.nodup_append.mp hnd).2.2 hmem (List.mem_cons_self w rest)
    rw [List.foldl_cons, ← ih (ws ++ [w])
      (by rw [hsplit, List.append_assoc, List.singleton_append])]
    congr 1
    dsimp only
    rw [hierDocFor_fresh_width cfg b hb hg.1 ws hws w (hg.1 w hwmem) hwnot,
      Option.isSome_none, if_neg Bool.false_ne_true]
    have hinit : (linkSceneChild (newCollection (hierDocFor cfg b ws) (toString w))
        (toString w), hmapFor cfg ws)
        = (hierInnerDoc cfg b ws w [],
           hmapFor cfg ws ++ ([] : List ℤ).map (fun h => ((w, h), subcolName w h))) := by
      unfold linkSceneChild newCollection hierDocFor hierInnerDoc
      simp only [List.map_nil, List.append_nil, List.append_assoc, List.cons_append,
        List.nil_append]
    rw [hinit, hierInner_fold cfg b hb hg.1 ws hws w (hg.1 w hwmem) hwnot
      (hmapFor cfg ws) cfg.sizesCm [] (List.nil_append _).symm
      (by rw [List.nil_append]; exact hg.2)]
    unfold hierInnerDoc hierDocFor hierColsFor hmapFor hierWidthCol
    simp only [List.flatMap_append, List.flatMap_cons, List.flatMap_nil,
      List.map_append, List.map_cons, List.map_nil, List.append_nil,
      List.append_assoc, List.cons_append, List.nil_append]

/-- The hierarchy builder, characterized: starting from a cleaned-up
document it creates one width collection per size (linked under the scene)
holding one `"{w}x{h}"` subcollection per height, and fills the height
map with every `(w, h)` key. -/
theorem buildHierarchy_eq (cfg : Config) (b : Doc) (hb : BaseOK b) (hg : goodSizes cfg) :
    buildHierarchy cfg b = (hierDocFor cfg b cfg.sizesCm, hmapFor cfg cfg.sizesCm) := by
  have h0 : ((b, ([] : List ((ℤ × ℤ) × String))) : Doc × List ((ℤ × ℤ) × String))
      = (hierDocFor cfg b [], hmapFor cfg []) := by
    unfold hierDocFor hierColsFor hmapFor
    simp only [List.flatMap_nil, List.append_nil, List.map_nil]
  simp only [buildHierarchy]
  rw [h0]
  exact hierOuter_fold cfg b hb hg cfg.sizesCm [] (List.nil_append _).symm

/-! ### The main creation loop -/

theorem pyLookup_of {m : List ((ℤ × ℤ) × String)} {k : ℤ × ℤ} {v : String}
    (hmem : (k, v) ∈ m) (hval : ∀ e ∈ m, e.1 = k → e.2 = v) :
    pyLookup m k = some v := by
  induction m with
  | nil => exact absurd hmem (List.not_mem_nil _)
  | cons e es ih =>
    unfold pyLookup
    cases hbeq : (e.1 == k) with
    | true =>
      simp only [List.find?_cons, hbeq, Option.map_some]
      exact congrArg some (hval e (List.mem_cons_self e es) (beq_iff_eq.mp hbeq))
    | false =>
      simp only [List.find?_cons, hbeq]
      have hek : e ≠ (k, v) := by
        intro heq
        rw [heq] at hbeq
        simp at hbeq
      have hmem' : (k, v) ∈ es := by
        rcases List.mem_cons.mp hmem with heq | h2
        · exact absurd heq.symm hek
        · exact h2
      exact ih hmem' (fun e2 he2 => hval e2 (List.mem_cons_of_mem e he2))

theorem mem_hmapFull {cfg : Config} {e : (ℤ × ℤ) × String} (he : e ∈ hmapFull cfg) :
    ∃ w ∈ cfg.sizesCm, ∃ h ∈ cfg.sizesCm, e = ((w, h), subcolName w h) := by
  unfold hmapFull at he
  obtain ⟨w, hw, he2⟩ := List.mem_flatMap.mp he
  obtain ⟨h, hh, rfl⟩ := List.mem_map.mp he2
  exact ⟨w, hw, h, hh, rfl⟩

theorem pyLookup_hmapFull (cfg : Config) (w h : ℤ)
    (hw : w ∈ cfg.sizesCm) (hh : h ∈ cfg.sizesCm) :
    pyLookup (hmapFull cfg) (w, h) = some (subcolName w h) := by
  apply pyLookup_of
  · unfold hmapFull
    exact List.mem_flatMap.mpr ⟨w, hw, List.mem_map.mpr ⟨h, hh, rfl⟩⟩
  · intro e he hkey
    obtain ⟨w', _, h', _, rfl⟩ := mem_hmapFull he
    obtain ⟨hw', hh'⟩ := Prod.mk.injEq _ _ _ _ ▸ hkey
    rw [show w' = w from hw', show h' = h from hh']

theorem mem_cmPairs {cfg : Config} {w h : ℤ} :
    (w, h) ∈ cmPairs cfg ↔ w ∈ cfg.sizesCm ∧ h ∈ cfg.sizesCm := by
  unfold cmPairs
  simp only [List.mem_flatMap, List.mem_map, Prod.mk.injEq]
  constructor
  · rintro ⟨w', hw', h', hh', hww, hhh⟩
    exact ⟨hww ▸ hw', hhh ▸ hh'⟩
  · rintro ⟨hw, hh⟩
    exact ⟨w, hw, h, hh, rfl, rfl⟩

theorem cmPairs_nodup (cfg : Config) (hnd : cfg.sizesCm.Nodup) :
    (cmPairs cfg).Nodup := by
  unfold cmPairs
  rw [List.nodup_flatMap]
  constructor
  · intro w _
    exact hnd.map (fun a b hab => congrArg Prod.snd hab)
  · refine hnd.imp ?_
    intro a b hab x hx1 hx2
    obtain ⟨h1, _, hx1e⟩ := List.mem_map.mp hx1
    obtain ⟨h2, _, hx2e⟩ := List.mem_map.mp hx2
    exact hab ((congrArg Prod.fst hx1e).trans (congrArg Prod.fst hx2e).symm)

theorem planeSizePairs_eq_map (cfg : Config) :
    planeSizePairs cfg
      = (cmPairs cfg).map (fun p => ((p.1 : ℚ) / 100, (p.2 : ℚ) / 100)) := by
  unfold planeSizePairs planeSizesM cmPairs
  rw [List.flatMap_map, List.map_flatMap]
  apply flatMap_congr_mem
  intro w _
  rw [List.map_map, List.map_map]
  rfl

theorem pyRound_cm (w : ℤ) : pyRound ((w : ℚ) / 100 * 100) = w := by
  rw [div_mul_cancel₀ _ (by norm_num : (100 : ℚ) ≠ 0), pyRound_intCast]

theorem subcolAfter_upd (processed : List (ℤ × ℤ)) (w h w' h' : ℤ)
    (hwp : 0 < w) (hhp : 0 < h) (hwp' : 0 < w') (hhp' : 0 < h')
    (hnot : (w, h) ∉ processed) :
    (fun c => if c.name == subcolName w h
        then { c with objects := c.objects ++ ["UCX_" ++ subcolName w h] } else c)
      ((fun c => if c.name == subcolName w h
          then { c with objects := c.objects ++ [subcolName w h] } else c)
        (subcolAfter w' h' processed))
      = subcolAfter w' h' (processed ++ [(w, h)]) := by
  by_cases hcase : w' = w ∧ h' = h
  · obtain ⟨rfl, rfl⟩ := hcase
    have hmem : (w', h') ∈ processed ++ [(w', h')] :=
      List.mem_append.mpr (Or.inr (List.mem_singleton.mpr rfl))
    simp only [subcolAfter, if_neg hnot, if_pos hmem, beq_self_eq_true, if_true,
      List.nil_append, List.cons_append]
  · have hne : ¬ subcolName w' h' = subcolName w h :=
      subcolName_ne_of_ne (le_of_lt hwp') (le_of_lt hhp') (le_of_lt hwp)
        (le_of_lt hhp) hcase
    have hbeq : (subcolName w' h' == subcolName w h) = false :=
      beq_eq_false_iff_ne.mpr hne
    have hcond : ((w', h') ∈ processed ++ [(w, h)]) ↔ ((w', h') ∈ processed) := by
      rw [List.mem_append, List.mem_singleton, Prod.mk.injEq]
      exact or_iff_left hcase
    simp only [subcolAfter, hbeq, Bool.false_eq_true, if_false]
    rw [if_congr hcond rfl rfl]

theorem mainLoop_step (cfg : Config) (b : Doc) (hb : BaseOK b)
    (hpos : ∀ s ∈ cfg.sizesCm, 0 < s)
    (processed : List (ℤ × ℤ)) (w h : ℤ)
    (hw : w ∈ cfg.sizesCm) (hh : h ∈ cfg.sizesCm) (hnot : (w, h) ∉ processed) :
    unlinkSceneObj (unlinkSceneObj
        (linkObjTo (linkObjTo
            (addObject (addObject (midDoc cfg b processed)
                (createdPlane cfg ((w : ℚ) / 100) ((h : ℚ) / 100) (subcolName w h)))
              (create_simple_plane ((w : ℚ) / 100) ((h : ℚ) / 100)
                ("UCX_" ++ subcolName w h)))
            (subcolName w h) (subcolName w h))
          (subcolName w h) ("UCX_" ++ subcolName w h))
        (subcolName w h)) ("UCX_" ++ subcolName w h)
      = midDoc cfg b (processed ++ [(w, h)]) := by
  have hwp := hpos w hw
  have hhp := hpos h hh
  have hsubgen : isGeneratedName (subcolName w h) = true :=
    isGeneratedName_subcolName w h (le_of_lt hwp) (le_of_lt hhp)
  have hnm1 : subcolName w h ∉ b.sceneObjects := by
    intro hmem
    have := hb.scObjs _ hmem
    rw [hsubgen] at this
    exact absurd this (by simp)
  have hnm2 : "UCX_" ++ subcolName w h ∉ b.sceneObjects := by
    intro hmem
    have := hb.scObjs _ hmem
    rw [isGeneratedName_ucx (subcolName w h)] at this
    exact absurd this (by simp)
  unfold unlinkSceneObj linkObjTo addObject midDoc
  dsimp only
  simp only [Doc.mk.injEq]
  refine ⟨?_, ?_, trivial, ?_⟩
  · -- collections
    rw [List.map_map, List.map_append]
    have hbc : List.map ((fun c => if c.name == subcolName w h
          then { c with objects := c.objects ++ ["UCX_" ++ subcolName w h] } else c)
        ∘ (fun c => if c.name == subcolName w h
          then { c with objects := c.objects ++ [subcolName w h] } else c))
        b.collections = b.collections := by
      have hpt : ∀ c ∈ b.collections, ((fun c => if c.name == subcolName w h
            then { c with objects := c.objects ++ ["UCX_" ++ subcolName w h] } else c)
          ∘ (fun c => if c.name == subcolName w h
            then { c with objects := c.objects ++ [subcolName w h] } else c)) c = c := by
        intro c hc
        have hne : ¬ c.name = subcolName w h :=
          ne_of_not_generated (hb.cols c hc) hsubgen
        have hbeq : (c.name == subcolName w h) = false := beq_eq_false_iff_ne.mpr hne
        simp only [Function.comp_apply, hbeq, Bool.false_eq_true, if_false]
      rw [List.map_congr_left hpt, List.map_id']
    rw [hbc]
    have hca : List.map ((fun c => if c.name == subcolName w h
          then { c with objects := c.objects ++ ["UCX_" ++ subcolName w h] } else c)
        ∘ (fun c => if c.name == subcolName w h
          then { c with objects := c.objects ++ [subcolName w h] } else c))
        (colsAfter cfg processed) = colsAfter cfg (processed ++ [(w, h)]) := by
      unfold colsAfter
      rw [List.map_flatMap]
      apply flatMap_congr_mem
      intro w' hw'
      rw [List.map_cons, List.map_map]
      have hhead : ((fun c => if c.name == subcolName w h
            then { c with objects := c.objects ++ ["UCX_" ++ subcolName w h] } else c)
          ∘ (fun c => if c.name == subcolName w h
            then { c with objects := c.objects ++ [subcolName w h] } else c))
          (hierWidthCol cfg w') = hierWidthCol cfg w' := by
        have hne : ¬ (hierWidthCol cfg w').name = subcolName w h :=
          toString_ne_subcolName w' w h (le_of_lt (hpos w' hw')) (le_of_lt hwp)
            (le_of_lt hhp)
        have hbeq : ((hierWidthCol cfg w').name == subcolName w h) = false :=
          beq_eq_false_iff_ne.mpr hne
        simp only [Function.comp_apply, hbeq, Bool.false_eq_true, if_false]
      rw [hhead]
      have htail : List.map (((fun c => if c.name == subcolName w h
            then { c with objects := c.objects ++ ["UCX_" ++ subcolName w h] } else c)
          ∘ (fun c => if c.name == subcolName w h
            then { c with objects := c.objects ++ [subcolName w h] } else c))
          ∘ (fun h' => subcolAfter w' h' processed)) cfg.sizesCm
          = List.map (fun h' => subcolAfter w' h' (processed ++ [(w, h)])) cfg.sizesCm := by
        apply List.map_congr_left
        intro h' hh'
        simp only [Function.comp_apply]
        exact subcolAfter_upd processed w h w' h' hwp hhp (hpos w' hw') (hpos h' hh') hnot
      rw [htail]
    rw [hca]
  · -- objects
    simp only [objsFor, List.flatMap_append, List.flatMap_cons, List.flatMap_nil,
      List.append_assoc, List.cons_append, List.nil_append, List.append_nil]
  · -- sceneObjects
    rw [List.erase_of_not_mem hnm1, List.erase_of_not_mem hnm2]

theorem hierDocFor_eq_midDoc_nil (cfg : Config) (b : Doc) :
    hierDocFor cfg b cfg.sizesCm = midDoc cfg b [] := by
  unfold hierDocFor midDoc hierColsFor colsAfter objsFor
  simp only [subcolAfter, List.flatMap_nil, List.append_nil, List.not_mem_nil,
    if_false]

theorem mainLoop_fold (cfg : Config) (b : Doc) (hb : BaseOK b) (hg : goodSizes cfg) :
    ∀ todo processed : List (ℤ × ℤ), cmPairs cfg = processed ++ todo →
      todo.foldlM (fun d p => do
          let width_cm := pyRound ((p.1 : ℚ) / 100 * 100)
          let height_cm := pyRound ((p.2 : ℚ) / 100 * 100)
          let obj_name := toString width_cm ++ "x" ++ toString height_cm
          let ucx_name := "UCX_" ++ obj_name
          let obj ← create_subdivided_plane_bmesh cfg ((p.1 : ℚ) / 100)
            ((p.2 : ℚ) / 100) obj_name
          let obj_ucx := create_simple_plane ((p.1 : ℚ) / 100) ((p.2 : ℚ) / 100) ucx_name
          let sub ← pyLookup (hmapFull cfg) (width_cm, height_cm)
          let d1 := addObject (addObject d obj) obj_ucx
          let d2 := linkObjTo (linkObjTo d1 sub obj.name) sub obj_ucx.name
          pure (unlinkSceneObj (unlinkSceneObj d2 obj.name) obj_ucx.name))
        (midDoc cfg b processed)
      = some (midDoc cfg b (cmPairs cfg)) := by
  intro todo
  induction todo with
  | nil =>
    intro processed hsplit
    rw [List.append_nil] at hsplit
    rw [List.foldlM_nil, ← hsplit]
    rfl
  | cons p rest ih =>
    intro processed hsplit
    obtain ⟨w, h⟩ := p
    have hmem : (w, h) ∈ cmPairs cfg := by
      rw [hsplit]
      exact List.mem_append.mpr (Or.inr (List.mem_cons_self _ rest))
    obtain ⟨hw, hh⟩ := mem_cmPairs.mp hmem
    have hnot : (w, h) ∉ processed := by
      intro hmem2
      have hnd : (processed ++ (w, h) :: rest).Nodup := hsplit ▸ cmPairs_nodup cfg hg.2
      exact (List.nodup_append.mp hnd).2.2 hmem2 (List.mem_cons_self _ rest)
    have hwne : ((w : ℚ) / 100) ≠ 0 :=
      div_ne_zero (Int.cast_ne_zero.mpr (by have := hg.1 w hw; omega)) (by norm_num)
    have hhne : ((h : ℚ) / 100) ≠ 0 :=
      div_ne_zero (Int.cast_ne_zero.mpr (by have := hg.1 h hh; omega)) (by norm_num)
    have ih2 := ih (processed ++ [(w, h)])
      (by rw [hsplit, List.append_assoc, List.singleton_append])
    simp only [List.foldlM_cons]
    simp only [pyRound_cm,
      create_eq_createdPlane cfg ((w : ℚ) / 100) ((h : ℚ) / 100)
        (toString w ++ "x" ++ toString h) hwne hhne,
      pyLookup_hmapFull cfg w h hw hh,
      Option.pure_def, Option.bind_eq_bind, Option.some_bind]
    simp only [pyRound_cm, Option.pure_def, Option.bind_eq_bind, Option.some_bind] at ih2
    rw [← ih2]
    congr 1
    exact mainLoop_step cfg b hb hg.1 processed w h hw hh hnot

/-- The main creation loop, characterized: starting from the built
hierarchy it succeeds and adds, for every `(w, h)` pair in order, the
subdivided primary plane and the UCX proxy, links both into the `"{w}x{h}"`
subcollection, and touches nothing else. -/
theorem mainLoop_eq (cfg : Config) (b : Doc) (hb : BaseOK b) (hg : goodSizes cfg) :
    mainLoop cfg (hmapFull cfg) (midDoc cfg b []) = some (midDoc cfg b (cmPairs cfg)) := by
  unfold mainLoop
  rw [planeSizePairs_eq_map, List.foldlM_map]
  exact mainLoop_fold cfg b hb hg (cmPairs cfg) [] (List.nil_append _).symm

/-! ### The sorting stage -/

theorem find?_name_eq {cols : List Collection} {nm : String} {c0 : Collection}
    (hmem : c0 ∈ cols) (hc0 : c0.name = nm)
    (huniq : ∀ c ∈ cols, c.name = nm → c = c0) :
    cols.find? (fun c => c.name == nm) = some c0 := by
  induction cols with
  | nil => exact absurd hmem (List.not_mem_nil _)
  | cons a as ih =>
    cases hbeq : (a.name == nm) with
    | true =>
      simp only [List.find?_cons, hbeq]
      exact congrArg some (huniq a (List.mem_cons_self a as) (beq_iff_eq.mp hbeq))
    | false =>
      simp only [List.find?_cons, hbeq]
      have hane : a ≠ c0 := by
        intro heq
        rw [heq, hc0] at hbeq
        simp at hbeq
      have hmem' : c0 ∈ as := by
        rcases List.mem_cons.mp hmem with heq | h2
        · exact absurd heq.symm hane
        · exact h2
      exact ih hmem' (fun c hc => huniq c (List.mem_cons_of_mem a hc))

theorem getCollection_name_eq {d : Doc} {n : String} {c : Collection}
    (h : getCollection d n = some c) : c.name = n := by
  unfold getCollection at h
  have hp := List.find?_some h
  exact beq_iff_eq.mp hp

theorem filterMap_eq_map_of_mem {α β : Type} {g : α → Option β} {f : α → β}
    {l : List α} (h : ∀ a ∈ l, g a = some (f a)) :
    l.filterMap g = l.map f := by
  induction l with
  | nil => rfl
  | cons a as ih =>
    rw [List.filterMap_cons, h a (List.mem_cons_self a as), List.map_cons,
      ih (fun x hx => h x (List.mem_cons_of_mem a hx))]

theorem foldl_id_of_mem {α β : Type} {f : β → α → β} {l : List α} {init : β}
    (h : ∀ x ∈ l, f init x = init) : l.foldl f init = init := by
  induction l with
  | nil => rfl
  | cons a as ih =>
    rw [List.foldl_cons, h a (List.mem_cons_self a as)]
    exact ih (fun x hx => h x (List.mem_cons_of_mem a hx))

/-- The collections list while the sorting stage's outer loop runs: the
width collections named in `dws` have sorted children. -/
def colsSorted (cfg : Config) (dws : List String) : List Collection :=
  cfg.sizesCm.flatMap (fun w =>
    (if toString w ∈ dws then genWidthCol cfg w else hierWidthCol cfg w)
      :: cfg.sizesCm.map (genSubcol w))

/-- The document while the sorting stage's outer loop runs. -/
def sortDoc (cfg : Config) (b : Doc) (dws : List String) : Doc :=
  { collections := b.collections ++ colsSorted cfg dws
  , objects := b.objects ++ objsFor cfg (cmPairs cfg)
  , sceneChildren := b.sceneChildren
      ++ (cfg.sizesCm.map (fun w => toString w)).insertionSort nameIntLe
  , sceneObjects := b.sceneObjects }

theorem widthEntry_name (cfg : Config) (dws : List String) (w : ℤ) :
    (if toString w ∈ dws then genWidthCol cfg w else hierWidthCol cfg w).name
      = toString w := by
  by_cases hmem : toString w ∈ dws
  · rw [if_pos hmem]; rfl
  · rw [if_neg hmem]; rfl

theorem getCol_sortDoc_width (cfg : Config) (b : Doc) (hb : BaseOK b)
    (hpos : ∀ s ∈ cfg.sizesCm, 0 < s) (dws : List String)
    (w : ℤ) (hw : w ∈ cfg.sizesCm) :
    getCollection (sortDoc cfg b dws) (toString w)
      = some (if toString w ∈ dws then genWidthCol cfg w else hierWidthCol cfg w) := by
  unfold getCollection sortDoc
  apply find?_name_eq
  · exact List.mem_append.mpr (Or.inr (List.mem_flatMap.mpr
      ⟨w, hw, List.mem_cons_self _ _⟩))
  · exact widthEntry_name cfg dws w
  · intro c hc hcn
    rcases List.mem_append.mp hc with hcb | hcg
    · exact absurd hcn (ne_of_not_generated (hb.cols c hcb)
        (isGeneratedName_toString w (le_of_lt (hpos w hw))))
    · obtain ⟨w', hw', hc2⟩ := List.mem_flatMap.mp hcg
      rcases List.mem_cons.mp hc2 with rfl | hc3
      · have hww : w' = w := toString_int_inj (le_of_lt (hpos w' hw'))
          (le_of_lt (hpos w hw)) ((widthEntry_name cfg dws w').symm ▸ hcn)
        rw [hww]
      · obtain ⟨h', hh', rfl⟩ := List.mem_map.mp hc3
        exact absurd hcn (fun heq => toString_ne_subcolName w w' h'
          (le_of_lt (hpos w hw)) (le_of_lt (hpos w' hw'))
          (le_of_lt (hpos h' hh')) heq.symm)

theorem getCol_sortDoc_sub (cfg : Config) (b : Doc) (hb : BaseOK b)
    (hpos : ∀ s ∈ cfg.sizesCm, 0 < s) (dws : List String)
    (w h : ℤ) (hw : w ∈ cfg.sizesCm) (hh : h ∈ cfg.sizesCm) :
    getCollection (sortDoc cfg b dws) (subcolName w h) = some (genSubcol w h) := by
  unfold getCollection sortDoc
  apply find?_name_eq
  · exact List.mem_append.mpr (Or.inr (List.mem_flatMap.mpr
      ⟨w, hw, List.mem_cons_of_mem _ (List.mem_map.mpr ⟨h, hh, rfl⟩)⟩))
  · rfl
  · intro c hc hcn
    rcases List.mem_append.mp hc with hcb | hcg
    · exact absurd hcn (ne_of_not_generated (hb.cols c hcb)
        (isGeneratedName_subcolName w h (le_of_lt (hpos w hw)) (le_of_lt (hpos h hh))))
    · obtain ⟨w', hw', hc2⟩ := List.mem_flatMap.mp hcg
      rcases List.mem_cons.mp hc2 with rfl | hc3
      · exact absurd ((widthEntry_name cfg dws w').symm ▸ hcn)
          (toString_ne_subcolName w' w h (le_of_lt (hpos w' hw'))
            (le_of_lt (hpos w hw)) (le_of_lt (hpos h hh)))
      · obtain ⟨h', hh', rfl⟩ := List.mem_map.mp hc3
        obtain ⟨hw2, hh2⟩ := subcolName_inj (le_of_lt (hpos w' hw'))
          (le_of_lt (hpos h' hh')) (le_of_lt (hpos w hw)) (le_of_lt (hpos h hh)) hcn
        rw [hw2, hh2]

theorem sortDoc_unique_width (cfg : Config) (b : Doc) (hb : BaseOK b)
    (hpos : ∀ s ∈ cfg.sizesCm, 0 < s) (dws : List String) (w : ℤ) (hw : 0 < w) :
    ∀ c ∈ (sortDoc cfg b dws).collections, c.name = toString w →
      c = (if toString w ∈ dws then genWidthCol cfg w else hierWidthCol cfg w) := by
  intro c hc hcn
  rcases List.mem_append.mp hc with hcb | hcg
  · exact absurd hcn (ne_of_not_generated (hb.cols c hcb)
      (isGeneratedName_toString w (le_of_lt hw)))
  · obtain ⟨w', hw', hc2⟩ := List.mem_flatMap.mp hcg
    rcases List.mem_cons.mp hc2 with rfl | hc3
    · have hww : w' = w := toString_int_inj (le_of_lt (hpos w' hw'))
        (le_of_lt hw) ((widthEntry_name cfg dws w').symm ▸ hcn)
      rw [hww]
    · obtain ⟨h', hh', rfl⟩ := List.mem_map.mp hc3
      exact absurd hcn (fun heq => toString_ne_subcolName w w' h'
        (le_of_lt hw) (le_of_lt (hpos w' hw'))
        (le_of_lt (hpos h' hh')) heq.symm)

theorem sortDoc_unique_sub (cfg : Config) (b : Doc) (hb : BaseOK b)
    (hpos : ∀ s ∈ cfg.sizesCm, 0 < s) (dws : List String) (w h : ℤ)
    (hw : 0 < w) (hh : 0 < h) :
    ∀ c ∈ (sortDoc cfg b dws).collections, c.name = subcolName w h →
      c = genSubcol w h := by
  intro c hc hcn
  rcases List.mem_append.mp hc with hcb | hcg
  · exact absurd hcn (ne_of_not_generated (hb.cols c hcb)
      (isGeneratedName_subcolName w h (le_of_lt hw) (le_of_lt hh)))
  · obtain ⟨w', hw', hc2⟩ := List.mem_flatMap.mp hcg
    rcases List.mem_cons.mp hc2 with rfl | hc3
    · exact absurd ((widthEntry_name cfg dws w').symm ▸ hcn)
        (toString_ne_subcolName w' w h (le_of_lt (hpos w' hw'))
          (le_of_lt hw) (le_of_lt hh))
    · obtain ⟨h', hh', rfl⟩ := List.mem_map.mp hc3
      obtain ⟨hw2, hh2⟩ := subcolName_inj (le_of_lt (hpos w' hw'))
        (le_of_lt (hpos h' hh')) (le_of_lt hw) (le_of_lt hh) hcn
      rw [hw2, hh2]

theorem colsAfter_cmPairs (cfg : Config) :
    colsAfter cfg (cmPairs cfg) = colsSorted cfg [] := by
  unfold colsAfter colsSorted
  apply flatMap_congr_mem
  intro w hw
  rw [if_neg (List.not_mem_nil (toString w))]
  congr 1
  apply List.map_congr_left
  intro h hh
  unfold subcolAfter genSubcol
  rw [if_pos (mem_cmPairs.mpr ⟨hw, hh⟩)]

theorem charsLt_ucx_false (w h : ℤ) (hw : 0 ≤ w) (hh : 0 ≤ h) :
    charsLt ("UCX_" ++ subcolName w h).data (subcolName w h).data = false := by
  obtain ⟨c, cs, hdata, hdig⟩ := subcolName_head_digit w h hw hh
  have h1 : ("UCX_" ++ subcolName w h).data
      = 'U' :: 'C' :: 'X' :: '_' :: (subcolName w h).data := by
    rw [String.data_append]
    rfl
  rw [h1, hdata]
  have hnlt : ¬ ('U' < c) := lt_asymm (isDigit_lt_U hdig)
  have hne : 'U' ≠ c := by
    intro he
    exact absurd (he ▸ hdig) (by decide)
  simp [charsLt, pyListLt, hnlt, hne]

theorem ucx_sort (w h : ℤ) (hw : 0 ≤ w) (hh : 0 ≤ h) :
    ([subcolName w h, "UCX_" ++ subcolName w h] : List String).insertionSort nameLe
      = [subcolName w h, "UCX_" ++ subcolName w h] := by
  have hle : nameLe (subcolName w h) ("UCX_" ++ subcolName w h) := by
    unfold nameLe
    rw [charsLt_ucx_false w h hw hh]
    simp
  simp [List.insertionSort, List.orderedInsert, if_pos hle]

/-- The body of the sorting stage's inner (objects) loop, as a named
function (definitionally equal to the inline lambda in `sortStage`). -/
def sortInnerStep (dd : Doc) (sub_name : String) : Doc :=
  match getCollection dd sub_name with
  | none => dd
  | some subcol =>
    { dd with collections := dd.collections.map
                  (fun c => if c.name == sub_name
                    then { c with objects := subcol.objects.insertionSort nameLe }
                    else c) }

/-- The body of the sorting stage's outer (widths) loop, as a named
function (definitionally equal to the inline lambda in `sortStage`). -/
def sortOuterStep (db : Doc) (col_name : String) : Doc :=
  match getCollection db col_name with
  | none => db
  | some width_col =>
    (((width_col.children.filterMap (getCollection db)).map
        (fun c => c.name)).insertionSort alnumLe).foldl
      sortInnerStep
      { db with collections := db.collections.map
                    (fun c => if c.name == col_name
                      then { c with children := ((width_col.children.filterMap
                          (getCollection db)).map (fun c => c.name)).insertionSort alnumLe }
                      else c) }

theorem sortDoc_dc (cfg : Config) (b : Doc) (hb : BaseOK b)
    (hpos : ∀ s ∈ cfg.sizesCm, 0 < s) (dws : List String)
    (w : ℤ) (hw : w ∈ cfg.sizesCm) (hwnot : toString w ∉ dws) :
    ((sortDoc cfg b dws).collections.map
        (fun c => if c.name == toString w
          then { c with children := (cfg.sizesCm.map (subcolName w)).insertionSort alnumLe }
          else c))
      = (sortDoc cfg b (dws ++ [toString w])).collections := by
  show (b.collections ++ colsSorted cfg dws).map _
      = b.collections ++ colsSorted cfg (dws ++ [toString w])
  rw [List.map_append]
  have hbc : List.map (fun c => if c.name == toString w
      then { c with children := (cfg.sizesCm.map (subcolName w)).insertionSort alnumLe }
      else c) b.collections = b.collections := by
    apply map_if_name_eq_of_all_ne
    intro c hc
    exact ne_of_not_generated (hb.cols c hc)
      (isGeneratedName_toString w (le_of_lt (hpos w hw)))
  rw [hbc]
  unfold colsSorted
  rw [List.map_flatMap]
  apply congrArg
  apply flatMap_congr_mem
  intro w' hw'
  rw [List.map_cons]
  have hsub : List.map (fun c => if c.name == toString w
      then { c with children := (cfg.sizesCm.map (subcolName w)).insertionSort alnumLe }
      else c) (cfg.sizesCm.map (genSubcol w')) = cfg.sizesCm.map (genSubcol w') := by
    apply map_if_name_eq_of_all_ne
    intro c hc
    obtain ⟨h', hh', rfl⟩ := List.mem_map.mp hc
    exact fun heq => toString_ne_subcolName w w' h' (le_of_lt (hpos w hw))
      (le_of_lt (hpos w' hw')) (le_of_lt (hpos h' hh')) heq.symm
  rw [hsub]
  by_cases hww : w' = w
  · subst hww
    rw [if_neg hwnot]
    have hbeq : ((hierWidthCol cfg w').name == toString w') = true :=
      beq_iff_eq.mpr rfl
    simp only [hbeq, if_true]
    have hcond2 : toString w' ∈ dws ++ [toString w'] :=
      List.mem_append.mpr (Or.inr (List.mem_singleton.mpr rfl))
    rw [if_pos hcond2]
    rfl
  · have hne : ¬ (if toString w' ∈ dws then genWidthCol cfg w'
        else hierWidthCol cfg w').name = toString w := by
      rw [widthEntry_name]
      exact toString_ne_of_ne (le_of_lt (hpos w' hw')) (le_of_lt (hpos w hw)) hww
    have hbeq : ((if toString w' ∈ dws then genWidthCol cfg w'
        else hierWidthCol cfg w').name == toString w) = false :=
      beq_eq_false_iff_ne.mpr hne
    simp only [hbeq, Bool.false_eq_true, if_false]
    have hcond : (toString w' ∈ dws ++ [toString w]) ↔ (toString w' ∈ dws) := by
      rw [List.mem_append, List.mem_singleton]
      exact or_iff_left (toString_ne_of_ne (le_of_lt (hpos w' hw'))
        (le_of_lt (hpos w hw)) hww)
    rw [if_congr hcond rfl rfl]

theorem sortInnerStep_id (cfg : Config) (b : Doc) (hb : BaseOK b)
    (hpos : ∀ s ∈ cfg.sizesCm, 0 < s) (dws : List String)
    (w h : ℤ) (hw : w ∈ cfg.sizesCm) (hh : h ∈ cfg.sizesCm) :
    sortInnerStep (sortDoc cfg b dws) (subcolName w h) = sortDoc cfg b dws := by
  have hg2 := getCol_sortDoc_sub cfg b hb hpos dws w h hw hh
  unfold sortInnerStep
  split
  · rfl
  · next subcol heq =>
    have hsc : subcol = genSubcol w h := by
      injection hg2.symm.trans heq with h3
      exact h3.symm
    subst hsc
    have hobj : (genSubcol w h).objects.insertionSort nameLe = (genSubcol w h).objects := by
      show ([subcolName w h, "UCX_" ++ subcolName w h] : List String).insertionSort nameLe = _
      exact ucx_sort w h (le_of_lt (hpos w hw)) (le_of_lt (hpos h hh))
    rw [hobj]
    have hpt : ∀ c ∈ (sortDoc cfg b dws).collections,
        (if c.name == subcolName w h
          then { c with objects := (genSubcol w h).objects } else c) = c := by
      intro c hc
      by_cases hcn : c.name = subcolName w h
      · rw [if_pos (beq_iff_eq.mpr hcn),
          sortDoc_unique_sub cfg b hb hpos dws w h (hpos w hw) (hpos h hh) c hc hcn]
      · rw [if_neg (by simpa using hcn)]
    rw [List.map_congr_left hpt, List.map_id']

theorem sortOuterStep_eq (cfg : Config) (b : Doc) (hb : BaseOK b) (hg : goodSizes cfg)
    (dws : List String) (w : ℤ) (hw : w ∈ cfg.sizesCm) (hwnot : toString w ∉ dws) :
    sortOuterStep (sortDoc cfg b dws) (toString w)
      = sortDoc cfg b (dws ++ [toString w]) := by
  have hgw := getCol_sortDoc_width cfg b hb hg.1 dws w hw
  rw [if_neg hwnot] at hgw
  unfold sortOuterStep
  split
  · next heq => rw [hgw] at heq; exact absurd heq (by simp)
  · next width_col heq =>
    have hwc : width_col = hierWidthCol cfg w := by
      injection hgw.symm.trans heq with h3
      exact h3.symm
    subst hwc
    have hch : (hierWidthCol cfg w).children = cfg.sizesCm.map (subcolName w) := rfl
    rw [hch]
    have hfm : (cfg.sizesCm.map (subcolName w)).filterMap
        (getCollection (sortDoc cfg b dws)) = cfg.sizesCm.map (genSubcol w) := by
      rw [List.filterMap_map]
      apply filterMap_eq_map_of_mem
      intro h hh
      exact getCol_sortDoc_sub cfg b hb hg.1 dws w h hw hh
    rw [hfm]
    have hmn : (cfg.sizesCm.map (genSubcol w)).map (fun c => c.name)
        = cfg.sizesCm.map (subcolName w) := by
      rw [List.map_map]
      rfl
    rw [hmn, sortDoc_dc cfg b hb hg.1 dws w hw hwnot]
    have hinit : ({ sortDoc cfg b dws with
        collections := (sortDoc cfg b (dws ++ [toString w])).collections } : Doc)
        = sortDoc cfg b (dws ++ [toString w]) := rfl
    rw [hinit]
    apply foldl_id_of_mem
    intro sub_name hsn
    have hsn2 : sub_name ∈ cfg.sizesCm.map (subcolName w) :=
      (List.perm_insertionSort alnumLe _).mem_iff.mp hsn
    obtain ⟨h, hh, rfl⟩ := List.mem_map.mp hsn2
    exact sortInnerStep_id cfg b hb hg.1 (dws ++ [toString w]) w h hw hh

theorem sortOuter_fold (cfg : Config) (b : Doc) (hb : BaseOK b) (hg : goodSizes cfg) :
    ∀ swTodo dws : List String,
      (cfg.sizesCm.map (fun w => toString w)).insertionSort nameIntLe = dws ++ swTodo →
      swTodo.foldl sortOuterStep (sortDoc cfg b dws)
        = sortDoc cfg b ((cfg.sizesCm.map (fun w => toString w)).insertionSort nameIntLe) := by
  intro swTodo
  induction swTodo with
  | nil =>
    intro dws hsplit
    rw [List.append_nil] at hsplit
    rw [List.foldl_nil, hsplit]
  | cons n rest ih =>
    intro dws hsplit
    have hperm := List.perm_insertionSort nameIntLe (cfg.sizesCm.map (fun w => toString w))
    have hnmem : n ∈ cfg.sizesCm.map (fun w => toString w) := by
      apply hperm.mem_iff.mp
      rw [hsplit]
      exact List.mem_append.mpr (Or.inr (List.mem_cons_self n rest))
    obtain ⟨w, hw, rfl⟩ := List.mem_map.mp hnmem
    have hnd : (dws ++ toString w :: rest).Nodup := by
      rw [← hsplit]
      apply hperm.nodup_iff.mpr
      exact hg.2.map_on (fun x hx y hy hxy =>
        toString_int_inj (le_of_lt (hg.1 x hx)) (le_of_lt (hg.1 y hy)) hxy)
    have hwnot : toString w ∉ dws := fun hm =>
      (List.nodup_append.mp hnd).2.2 hm (List.mem_cons_self _ rest)
    rw [List.foldl_cons, sortOuterStep_eq cfg b hb hg dws w hw hwnot]
    exact ih (dws ++ [toString w])
      (by rw [hsplit, List.append_assoc, List.singleton_append])

theorem getCollection_midDoc_cm (cfg : Config) (b : Doc) (n : String) :
    getCollection (midDoc cfg b (cmPairs cfg)) n = getCollection (sortDoc cfg b []) n := by
  show (b.collections ++ colsAfter cfg (cmPairs cfg)).find? (fun c => c.name == n)
      = (b.collections ++ colsSorted cfg []).find? (fun c => c.name == n)
  rw [colsAfter_cmPairs]

theorem width_coll_names_midDoc (cfg : Config) (b : Doc) (hb : BaseOK b)
    (hg : goodSizes cfg) :
    (((midDoc cfg b (cmPairs cfg)).sceneChildren.filterMap
        (getCollection (midDoc cfg b (cmPairs cfg)))).filter
        (fun c => pyIsDigit c.name)).map (fun c => c.name)
      = cfg.sizesCm.map (fun w => toString w) := by
  have hsc : (midDoc cfg b (cmPairs cfg)).sceneChildren
      = b.sceneChildren ++ cfg.sizesCm.map (fun w => toString w) := rfl
  rw [hsc, List.filterMap_append, List.filter_append, List.map_append]
  have hA : (b.sceneChildren.filterMap
      (getCollection (midDoc cfg b (cmPairs cfg)))).filter
      (fun c => pyIsDigit c.name) = [] := by
    rw [List.filter_eq_nil_iff]
    intro c hc
    obtain ⟨n, hn, hcn⟩ := List.mem_filterMap.mp hc
    have hname := getCollection_name_eq hcn
    have hgen := hb.scChildren n hn
    have hdig : pyIsDigit n = false := by
      unfold isGeneratedName at hgen
      exact (Bool.or_eq_false_iff.mp (Bool.or_eq_false_iff.mp hgen).1).1
    rw [hname]
    simp [hdig]
  rw [hA]
  have hB : (cfg.sizesCm.map (fun w => toString w)).filterMap
      (getCollection (midDoc cfg b (cmPairs cfg)))
      = cfg.sizesCm.map (hierWidthCol cfg) := by
    rw [List.filterMap_map]
    apply filterMap_eq_map_of_mem
    intro w hw
    show getCollection (midDoc cfg b (cmPairs cfg)) (toString w)
        = some (hierWidthCol cfg w)
    rw [getCollection_midDoc_cm cfg b (toString w),
      getCol_sortDoc_width cfg b hb hg.1 [] w hw,
      if_neg (List.not_mem_nil (toString w))]
  rw [hB]
  have hC : (cfg.sizesCm.map (hierWidthCol cfg)).filter (fun c => pyIsDigit c.name)
      = cfg.sizesCm.map (hierWidthCol cfg) := by
    rw [List.filter_eq_self]
    intro c hc
    obtain ⟨w, hw, rfl⟩ := List.mem_map.mp hc
    exact pyIsDigit_toString_int w (le_of_lt (hg.1 w hw))
  rw [hC, List.map_nil, List.nil_append, List.map_map]
  rfl

theorem da_midDoc (cfg : Config) (b : Doc) (hb : BaseOK b) (hg : goodSizes cfg) :
    Doc.mk (midDoc cfg b (cmPairs cfg)).collections
        (midDoc cfg b (cmPairs cfg)).objects
        ((midDoc cfg b (cmPairs cfg)).sceneChildren.filter (fun n =>
            !((cfg.sizesCm.map (fun w => toString w)).insertionSort nameIntLe).contains n)
          ++ (cfg.sizesCm.map (fun w => toString w)).insertionSort nameIntLe)
        (midDoc cfg b (cmPairs cfg)).sceneObjects
      = sortDoc cfg b [] := by
  have hperm := List.perm_insertionSort nameIntLe (cfg.sizesCm.map (fun w => toString w))
  show Doc.mk (b.collections ++ colsAfter cfg (cmPairs cfg))
      (b.objects ++ objsFor cfg (cmPairs cfg))
      ((b.sceneChildren ++ cfg.sizesCm.map (fun w => toString w)).filter (fun n =>
          !((cfg.sizesCm.map (fun w => toString w)).insertionSort nameIntLe).contains n)
        ++ (cfg.sizesCm.map (fun w => toString w)).insertionSort nameIntLe)
      b.sceneObjects
      = sortDoc cfg b []
  rw [colsAfter_cmPairs, List.filter_append]
  have hfa : b.sceneChildren.filter (fun n =>
      !((cfg.sizesCm.map (fun w => toString w)).insertionSort nameIntLe).contains n)
      = b.sceneChildren := by
    rw [List.filter_eq_self]
    intro n hn
    cases hcc : ((cfg.sizesCm.map (fun w => toString w)).insertionSort
        nameIntLe).contains n with
    | false => rfl
    | true =>
      have hmem := hperm.mem_iff.mp (contains_iff_mem.mp hcc)
      obtain ⟨w, hw, rfl⟩ := List.mem_map.mp hmem
      have := hb.scChildren _ hn
      rw [isGeneratedName_toString w (le_of_lt (hg.1 w hw))] at this
      exact absurd this (by simp)
  have hfb : (cfg.sizesCm.map (fun w => toString w)).filter (fun n =>
      !((cfg.sizesCm.map (fun w => toString w)).insertionSort nameIntLe).contains n)
      = [] := by
    rw [List.filter_eq_nil_iff]
    intro n hn
    have hcc : ((cfg.sizesCm.map (fun w => toString w)).insertionSort
        nameIntLe).contains n = true :=
      contains_iff_mem.mpr (hperm.mem_iff.mpr hn)
    simp only [hcc, Bool.not_true]
    exact Bool.false_ne_true
  rw [hfa, hfb, List.append_nil]
  rfl

theorem sortDoc_full (cfg : Config) (b : Doc) :
    sortDoc cfg b ((cfg.sizesCm.map (fun w => toString w)).insertionSort nameIntLe)
      = finalDoc cfg b := by
  have hperm := List.perm_insertionSort nameIntLe (cfg.sizesCm.map (fun w => toString w))
  unfold sortDoc finalDoc
  simp only [Doc.mk.injEq]
  refine ⟨?_, trivial, trivial, trivial⟩
  apply congrArg
  unfold colsSorted genCols
  apply flatMap_congr_mem
  intro w hw
  rw [if_pos (hperm.mem_iff.mpr (List.mem_map.mpr ⟨w, hw, rfl⟩))]

theorem sortStage_shape (d : Doc) :
    sortStage d =
      ((((d.sceneChildren.filterMap (getCollection d)).filter
          (fun c => pyIsDigit c.name)).map (fun c => c.name)).insertionSort
          nameIntLe).foldl
        sortOuterStep
        { d with sceneChildren :=
                   d.sceneChildren.filter (fun n =>
                       !((((d.sceneChildren.filterMap (getCollection d)).filter
                           (fun c => pyIsDigit c.name)).map
                           (fun c => c.name)).insertionSort nameIntLe).contains n)
                     ++ (((d.sceneChildren.filterMap (getCollection d)).filter
                         (fun c => pyIsDigit c.name)).map
                         (fun c => c.name)).insertionSort nameIntLe } :=
  rfl

/-- The sorting stage, characterized: on the document the main loop leaves
behind it relinks the scene's width collections in ascending numeric order,
each width collection's children in `alnum_key` order, and leaves every
subcollection's object list (already name-sorted) unchanged. -/
theorem sortStage_eq (cfg : Config) (b : Doc) (hb : BaseOK b) (hg : goodSizes cfg) :
    sortStage (midDoc cfg b (cmPairs cfg)) = finalDoc cfg b := by
  rw [sortStage_shape, width_coll_names_midDoc cfg b hb hg, da_midDoc cfg b hb hg,
    sortOuter_fold cfg b hb hg
      ((cfg.sizesCm.map (fun w => toString w)).insertionSort nameIntLe) []
      (List.nil_append _).symm,
    sortDoc_full cfg b]

/-- The whole run, characterized: under the Blender data invariants
(`WFDoc`, `MeshOnlyGen`) and a positive duplicate-free size list, the
pipeline succeeds and produces exactly `finalDoc` over the cleaned base. -/
theorem runO_eq_finalDoc' (cfg : Config) (d : Doc) (hg : goodSizes cfg)
    (hb : BaseOK (cleanup d)) :
    runO cfg d = some (finalDoc cfg (cleanup d)) := by
  show (mainLoop cfg (buildHierarchy cfg (cleanup d)).2
      (buildHierarchy cfg (cleanup d)).1).map sortStage = _
  rw [buildHierarchy_eq cfg (cleanup d) hb hg]
  show (mainLoop cfg (hmapFull cfg)
      (hierDocFor cfg (cleanup d) cfg.sizesCm)).map sortStage = _
  rw [hierDocFor_eq_midDoc_nil, mainLoop_eq cfg (cleanup d) hb hg,
    Option.map_some', sortStage_eq cfg (cleanup d) hb hg]

theorem runO_eq_finalDoc (cfg : Config) (d : Doc) (hg : goodSizes cfg)
    (hwf : WFDoc d) (hm : MeshOnlyGen d) :
    runO cfg d = some (finalDoc cfg (cleanup d)) :=
  runO_eq_finalDoc' cfg d hg (cleanup_BaseOK d hwf hm)

/-! ### Exactly-one results about the final document (C4, C8) -/

theorem filterFlatMap {α β : Type} (l : List α) (f : α → List β) (p : β → Bool) :
    (l.flatMap f).filter p = l.flatMap (fun a => (f a).filter p) := by
  induction l with
  | nil => rfl
  | cons a as ih => rw [List.flatMap_cons, List.filter_append, ih, List.flatMap_cons]

theorem flatMap_eq_nil_of_mem {α β : Type} {l : List α} {g : α → List β}
    (h : ∀ a ∈ l, g a = []) : l.flatMap g = [] := by
  induction l with
  | nil => rfl
  | cons a as ih =>
    rw [List.flatMap_cons, h a (List.mem_cons_self a as), List.nil_append]
    exact ih (fun x hx => h x (List.mem_cons_of_mem a hx))

theorem flatMap_eq_single {α β : Type} [DecidableEq α] {l : List α} {g : α → List β}
    {a0 : α} {ys : List β} (hmem : a0 ∈ l) (hnd : l.Nodup) (ha0 : g a0 = ys)
    (hrest : ∀ a ∈ l, a ≠ a0 → g a = []) : l.flatMap g = ys := by
  induction l with
  | nil => exact absurd hmem (List.not_mem_nil _)
  | cons a as ih =>
    rw [List.flatMap_cons]
    rcases List.mem_cons.mp hmem with rfl | hmem2
    · rw [ha0, flatMap_eq_nil_of_mem (fun x hx =>
        hrest x (List.mem_cons_of_mem a0 hx)
          (fun hxa => (List.nodup_cons.mp hnd).1 (hxa ▸ hx))), List.append_nil]
    · have hane : a ≠ a0 := fun heq => (List.nodup_cons.mp hnd).1 (heq ▸ hmem2)
      rw [hrest a (List.mem_cons_self a as) hane, List.nil_append]
      exact ih hmem2 (List.nodup_cons.mp hnd).2
        (fun x hx => hrest x (List.mem_cons_of_mem a hx))

theorem ucx_append_inj {s t : String} (h : "UCX_" ++ s = "UCX_" ++ t) : s = t := by
  have hd := congrArg String.data h
  rw [String.data_append, String.data_append] at hd
  exact String.ext (List.append_cancel_left hd)

theorem createdPlane_name (cfg : Config) (w h : ℚ) (nm : String) :
    (createdPlane cfg w h nm).name = nm := rfl

theorem create_simple_plane_name (w h : ℚ) (nm : String) :
    (create_simple_plane w h nm).name = nm := rfl

theorem objsFor_pair_filter_primary (cfg : Config)
    (hpos : ∀ s ∈ cfg.sizesCm, 0 < s) (w h : ℤ)
    (hw : w ∈ cfg.sizesCm) (hh : h ∈ cfg.sizesCm) (p : ℤ × ℤ)
    (hp : p ∈ cmPairs cfg) :
    ([createdPlane cfg ((p.1 : ℚ) / 100) ((p.2 : ℚ) / 100) (subcolName p.1 p.2),
      create_simple_plane ((p.1 : ℚ) / 100) ((p.2 : ℚ) / 100)
        ("UCX_" ++ subcolName p.1 p.2)].filter
      (fun o => o.name == subcolName w h))
      = if p = (w, h)
        then [createdPlane cfg ((w : ℚ) / 100) ((h : ℚ) / 100) (subcolName w h)]
        else [] := by
  obtain ⟨hp1, hp2⟩ := mem_cmPairs.mp (by simpa using hp)
  have hucx : ((create_simple_plane ((p.1 : ℚ) / 100) ((p.2 : ℚ) / 100)
      ("UCX_" ++ subcolName p.1 p.2)).name == subcolName w h) = false := by
    rw [create_simple_plane_name]
    exact beq_eq_false_iff_ne.mpr
      (Ne.symm (subcolName_ne_ucx w h (le_of_lt (hpos w hw)) (le_of_lt (hpos h hh)) _))
  by_cases hcase : p = (w, h)
  · subst hcase
    rw [if_pos rfl]
    rw [List.filter_cons_of_pos (by rw [createdPlane_name]; exact beq_self_eq_true _),
      List.filter_cons_of_neg (by rw [hucx]; exact Bool.false_ne_true), List.filter_nil]
  · rw [if_neg hcase]
    have hname : ((createdPlane cfg ((p.1 : ℚ) / 100) ((p.2 : ℚ) / 100)
        (subcolName p.1 p.2)).name == subcolName w h) = false := by
      rw [createdPlane_name]
      exact beq_eq_false_iff_ne.mpr (subcolName_ne_of_ne (le_of_lt (hpos p.1 hp1))
        (le_of_lt (hpos p.2 hp2)) (le_of_lt (hpos w hw)) (le_of_lt (hpos h hh))
        (fun hpair => hcase (Prod.ext hpair.1 hpair.2)))
    rw [List.filter_cons_of_neg (by rw [hname]; exact Bool.false_ne_true),
      List.filter_cons_of_neg (by rw [hucx]; exact Bool.false_ne_true), List.filter_nil]

theorem objsFor_pair_filter_ucx (cfg : Config)
    (hpos : ∀ s ∈ cfg.sizesCm, 0 < s) (w h : ℤ)
    (hw : w ∈ cfg.sizesCm) (hh : h ∈ cfg.sizesCm) (p : ℤ × ℤ)
    (hp : p ∈ cmPairs cfg) :
    ([createdPlane cfg ((p.1 : ℚ) / 100) ((p.2 : ℚ) / 100) (subcolName p.1 p.2),
      create_simple_plane ((p.1 : ℚ) / 100) ((p.2 : ℚ) / 100)
        ("UCX_" ++ subcolName p.1 p.2)].filter
      (fun o => o.name == "UCX_" ++ subcolName w h))
      = if p = (w, h)
        then [create_simple_plane ((w : ℚ) / 100) ((h : ℚ) / 100)
          ("UCX_" ++ subcolName w h)]
        else [] := by
  obtain ⟨hp1, hp2⟩ := mem_cmPairs.mp (by simpa using hp)
  have hprim : ((createdPlane cfg ((p.1 : ℚ) / 100) ((p.2 : ℚ) / 100)
      (subcolName p.1 p.2)).name == "UCX_" ++ subcolName w h) = false := by
    rw [createdPlane_name]
    exact beq_eq_false_iff_ne.mpr
      (subcolName_ne_ucx p.1 p.2 (le_of_lt (hpos p.1 hp1)) (le_of_lt (hpos p.2 hp2)) _)
  by_cases hcase : p = (w, h)
  · subst hcase
    rw [if_pos rfl]
    rw [List.filter_cons_of_neg (by rw [hprim]; exact Bool.false_ne_true),
      List.filter_cons_of_pos (by rw [create_simple_plane_name]; exact beq_self_eq_true _),
      List.filter_nil]
  · rw [if_neg hcase]
    have hname : ((create_simple_plane ((p.1 : ℚ) / 100) ((p.2 : ℚ) / 100)
        ("UCX_" ++ subcolName p.1 p.2)).name == "UCX_" ++ subcolName w h) = false := by
      rw [create_simple_plane_name]
      refine beq_eq_false_iff_ne.mpr (fun heq => ?_)
      obtain ⟨h1, h2⟩ := subcolName_inj (le_of_lt (hpos p.1 hp1))
        (le_of_lt (hpos p.2 hp2)) (le_of_lt (hpos w hw)) (le_of_lt (hpos h hh))
        (ucx_append_inj heq)
      exact hcase (Prod.ext h1 h2)
    rw [List.filter_cons_of_neg (by rw [hprim]; exact Bool.false_ne_true),
      List.filter_cons_of_neg (by rw [hname]; exact Bool.false_ne_true), List.filter_nil]

theorem finalDoc_filter_primary (cfg : Config) (b : Doc) (hb : BaseOK b)
    (hob : ∀ o ∈ b.objects, isGeneratedName o.name = false)
    (hg : goodSizes cfg) (w h : ℤ) (hw : w ∈ cfg.sizesCm) (hh : h ∈ cfg.sizesCm) :
    (finalDoc cfg b).objects.filter (fun o => o.name == subcolName w h)
      = [createdPlane cfg ((w : ℚ) / 100) ((h : ℚ) / 100) (subcolName w h)] := by
  show (b.objects ++ objsFor cfg (cmPairs cfg)).filter _ = _
  rw [List.filter_append]
  have h1 : b.objects.filter (fun o => o.name == subcolName w h) = [] := by
    rw [List.filter_eq_nil_iff]
    intro o ho hbeq
    exact ne_of_not_generated (hob o ho)
      (isGeneratedName_subcolName w h (le_of_lt (hg.1 w hw)) (le_of_lt (hg.1 h hh)))
      (beq_iff_eq.mp hbeq)
  rw [h1, List.nil_append]
  unfold objsFor
  rw [filterFlatMap]
  have ha0 := objsFor_pair_filter_primary cfg hg.1 w h hw hh (w, h)
    (mem_cmPairs.mpr ⟨hw, hh⟩)
  rw [if_pos rfl] at ha0
  refine flatMap_eq_single (mem_cmPairs.mpr ⟨hw, hh⟩) (cmPairs_nodup cfg hg.2) ha0 ?_
  intro a ha hne
  have hr := objsFor_pair_filter_primary cfg hg.1 w h hw hh a ha
  rw [if_neg hne] at hr
  exact hr

theorem finalDoc_filter_ucx (cfg : Config) (b : Doc) (hb : BaseOK b)
    (hob : ∀ o ∈ b.objects, isGeneratedName o.name = false)
    (hg : goodSizes cfg) (w h : ℤ) (hw : w ∈ cfg.sizesCm) (hh : h ∈ cfg.sizesCm) :
    (finalDoc cfg b).objects.filter (fun o => o.name == "UCX_" ++ subcolName w h)
      = [create_simple_plane ((w : ℚ) / 100) ((h : ℚ) / 100)
          ("UCX_" ++ subcolName w h)] := by
  show (b.objects ++ objsFor cfg (cmPairs cfg)).filter _ = _
  rw [List.filter_append]
  have h1 : b.objects.filter (fun o => o.name == "UCX_" ++ subcolName w h) = [] := by
    rw [List.filter_eq_nil_iff]
    intro o ho hbeq
    exact ne_of_not_generated (hob o ho) (isGeneratedName_ucx (subcolName w h))
      (beq_iff_eq.mp hbeq)
  rw [h1, List.nil_append]
  unfold objsFor
  rw [filterFlatMap]
  have ha0 := objsFor_pair_filter_ucx cfg hg.1 w h hw hh (w, h)
    (mem_cmPairs.mpr ⟨hw, hh⟩)
  rw [if_pos rfl] at ha0
  refine flatMap_eq_single (mem_cmPairs.mpr ⟨hw, hh⟩) (cmPairs_nodup cfg hg.2) ha0 ?_
  intro a ha hne
  have hr := objsFor_pair_filter_ucx cfg hg.1 w h hw hh a ha
  rw [if_neg hne] at hr
  exact hr

theorem filter_eq_single {α : Type} [DecidableEq α] {l : List α} {p : α → Bool}
    {a0 : α} (hmem : a0 ∈ l) (hnd : l.Nodup) (hp : p a0 = true)
    (hrest : ∀ a ∈ l, a ≠ a0 → p a = false) : l.filter p = [a0] := by
  induction l with
  | nil => exact absurd hmem (List.not_mem_nil _)
  | cons a as ih =>
    rcases List.mem_cons.mp hmem with rfl | hmem2
    · rw [List.filter_cons_of_pos (by rw [hp])]
      have htail : List.filter p as = [] := by
        rw [List.filter_eq_nil_iff]
        intro x hx hpx
        have hxf := hrest x (List.mem_cons_of_mem a0 hx)
          (fun hxa => (List.nodup_cons.mp hnd).1 (hxa ▸ hx))
        rw [hxf] at hpx
        exact Bool.false_ne_true hpx
      rw [htail]
    · have hane : a ≠ a0 := fun heq => (List.nodup_cons.mp hnd).1 (heq ▸ hmem2)
      rw [List.filter_cons_of_neg (by rw [hrest a (List.mem_cons_self a as) hane]; exact
        Bool.false_ne_true)]
      exact ih hmem2 (List.nodup_cons.mp hnd).2
        (fun x hx => hrest x (List.mem_cons_of_mem a hx))

theorem genCols_width_filter (cfg : Config) (hpos : ∀ s ∈ cfg.sizesCm, 0 < s)
    (hnd : cfg.sizesCm.Nodup) (w : ℤ) (hw : w ∈ cfg.sizesCm)
    (w' : ℤ) (hw' : w' ∈ cfg.sizesCm) :
    ((genWidthCol cfg w' :: cfg.sizesCm.map (genSubcol w')).filter
      (fun c => c.name == toString w))
      = if w' = w then [genWidthCol cfg w] else [] := by
  have htail : (cfg.sizesCm.map (genSubcol w')).filter (fun c => c.name == toString w)
      = [] := by
    rw [List.filter_eq_nil_iff]
    intro c hc hbeq
    obtain ⟨h', hh', rfl⟩ := List.mem_map.mp hc
    exact toString_ne_subcolName w w' h' (le_of_lt (hpos w hw))
      (le_of_lt (hpos w' hw')) (le_of_lt (hpos h' hh')) (beq_iff_eq.mp hbeq).symm
  by_cases hcase : w' = w
  · subst hcase
    have hstep : List.filter (fun c => c.name == toString w')
        (genWidthCol cfg w' :: List.map (genSubcol w') cfg.sizesCm)
        = genWidthCol cfg w' :: List.filter (fun c => c.name == toString w')
            (List.map (genSubcol w') cfg.sizesCm) :=
      List.filter_cons_of_pos (beq_iff_eq.mpr rfl)
    rw [if_pos rfl, hstep, htail]
  · rw [if_neg hcase,
      List.filter_cons_of_neg (by
        have hb2 : ((genWidthCol cfg w').name == toString w) = false :=
          beq_eq_false_iff_ne.mpr (toString_ne_of_ne (le_of_lt (hpos w' hw'))
            (le_of_lt (hpos w hw)) hcase)
        rw [hb2]
        exact Bool.false_ne_true), htail]

theorem genCols_sub_filter (cfg : Config) (hpos : ∀ s ∈ cfg.sizesCm, 0 < s)
    (hnd : cfg.sizesCm.Nodup) (w h : ℤ) (hw : w ∈ cfg.sizesCm) (hh : h ∈ cfg.sizesCm)
    (w' : ℤ) (hw' : w' ∈ cfg.sizesCm) :
    ((genWidthCol cfg w' :: cfg.sizesCm.map (genSubcol w')).filter
      (fun c => c.name == subcolName w h))
      = if w' = w then [genSubcol w h] else [] := by
  have hhead : ((genWidthCol cfg w').name == subcolName w h) = false :=
    beq_eq_false_iff_ne.mpr (toString_ne_subcolName w' w h (le_of_lt (hpos w' hw'))
      (le_of_lt (hpos w hw)) (le_of_lt (hpos h hh)))
  rw [List.filter_cons_of_neg (by rw [hhead]; exact Bool.false_ne_true), List.filter_map]
  by_cases hcase : w' = w
  · subst hcase
    rw [if_pos rfl]
    have hfs : cfg.sizesCm.filter
        ((fun c => c.name == subcolName w' h) ∘ genSubcol w') = [h] := by
      apply filter_eq_single hh hnd
      · exact beq_self_eq_true _
      · intro a ha hane
        exact beq_eq_false_iff_ne.mpr (subcolName_ne_of_ne (le_of_lt (hpos w' hw'))
          (le_of_lt (hpos a ha)) (le_of_lt (hpos w' hw')) (le_of_lt (hpos h hh))
          (fun hpair => hane hpair.2))
    rw [hfs, List.map_cons, List.map_nil]
  · rw [if_neg hcase]
    have hfs : cfg.sizesCm.filter
        ((fun c => c.name == subcolName w h) ∘ genSubcol w') = [] := by
      rw [List.filter_eq_nil_iff]
      intro h' hh' hbeq
      exact hcase (subcolName_inj (le_of_lt (hpos w' hw')) (le_of_lt (hpos h' hh'))
        (le_of_lt (hpos w hw)) (le_of_lt (hpos h hh))
        (beq_iff_eq.mp (by simpa using hbeq))).1
    rw [hfs, List.map_nil]

theorem finalDoc_filter_width (cfg : Config) (b : Doc) (hb : BaseOK b)
    (hg : goodSizes cfg) (w : ℤ) (hw : w ∈ cfg.sizesCm) :
    (finalDoc cfg b).collections.filter (fun c => c.name == toString w)
      = [genWidthCol cfg w] := by
  show (b.collections ++ genCols cfg).filter _ = _
  rw [List.filter_append]
  have h1 : b.collections.filter (fun c => c.name == toString w) = [] := by
    rw [List.filter_eq_nil_iff]
    intro c hc hbeq
    exact ne_of_not_generated (hb.cols c hc)
      (isGeneratedName_toString w (le_of_lt (hg.1 w hw))) (beq_iff_eq.mp hbeq)
  rw [h1, List.nil_append]
  unfold genCols
  rw [filterFlatMap]
  have ha0 := genCols_width_filter cfg hg.1 hg.2 w hw w hw
  rw [if_pos rfl] at ha0
  refine flatMap_eq_single hw hg.2 ha0 ?_
  intro a ha hne
  have hr := genCols_width_filter cfg hg.1 hg.2 w hw a ha
  rw [if_neg hne] at hr
  exact hr

theorem finalDoc_filter_sub (cfg : Config) (b : Doc) (hb : BaseOK b)
    (hg : goodSizes cfg) (w h : ℤ) (hw : w ∈ cfg.sizesCm) (hh : h ∈ cfg.sizesCm) :
    (finalDoc cfg b).collections.filter (fun c => c.name == subcolName w h)
      = [genSubcol w h] := by
  show (b.collections ++ genCols cfg).filter _ = _
  rw [List.filter_append]
  have h1 : b.collections.filter (fun c => c.name == subcolName w h) = [] := by
    rw [List.filter_eq_nil_iff]
    intro c hc hbeq
    exact ne_of_not_generated (hb.cols c hc)
      (isGeneratedName_subcolName w h (le_of_lt (hg.1 w hw)) (le_of_lt (hg.1 h hh)))
      (beq_iff_eq.mp hbeq)
  rw [h1, List.nil_append]
  unfold genCols
  rw [filterFlatMap]
  have ha0 := genCols_sub_filter cfg hg.1 hg.2 w h hw hh w hw
  rw [if_pos rfl] at ha0
  refine flatMap_eq_single hw hg.2 ha0 ?_
  intro a ha hne
  have hr := genCols_sub_filter cfg hg.1 hg.2 w h hw hh a ha
  rw [if_neg hne] at hr
  exact hr

theorem cleanup_objs_not_gen (d : Doc) (hm : MeshOnlyGen d) :
    ∀ o ∈ (cleanup d).objects, isGeneratedName o.name = false := by
  intro o ho
  rw [cleanup_fields] at ho
  obtain ⟨hod, hot⟩ := List.mem_filter.mp ho
  cases hgen : isGeneratedName o.name with
  | false => rfl
  | true =>
    have := hm o hod hgen
    rw [this] at hot
    exact absurd hot (by simp)

theorem runO_some_eq {cfg : Config} {d r : Doc} (hg : goodSizes cfg)
    (hb : BaseOK (cleanup d)) (hr : runO cfg d = some r) :
    r = finalDoc cfg (cleanup d) := by
  have h2 := runO_eq_finalDoc' cfg d hg hb
  rw [hr] at h2
  injection h2

/-- C4: after a run, for every configured width `w` and height `h` (in
centimeters) there is exactly one mesh object named `"{w}x{h}"`, exactly one
mesh object named `"UCX_{w}x{h}"`, exactly one collection named `"{w}x{h}"`
holding exactly those two objects, and exactly one collection named `"{w}"`
having the `"{w}x{h}"` collection as a child. -/
theorem C4_exactly_one_per_pair (cfg : Config) (d r : Doc) (hg : goodSizes cfg)
    (hwf : WFDoc d) (hm : MeshOnlyGen d) (hr : runO cfg d = some r) :
    ∀ w ∈ cfg.sizesCm, ∀ h ∈ cfg.sizesCm,
      (∃ o, r.objects.filter (fun o2 => o2.name == subcolName w h) = [o]
          ∧ o.objType = "MESH")
      ∧ (∃ o, r.objects.filter (fun o2 => o2.name == "UCX_" ++ subcolName w h) = [o]
          ∧ o.objType = "MESH")
      ∧ (∃ sub, r.collections.filter (fun c => c.name == subcolName w h) = [sub]
          ∧ sub.objects = [subcolName w h, "UCX_" ++ subcolName w h])
      ∧ (∃ wc, r.collections.filter (fun c => c.name == toString w) = [wc]
          ∧ subcolName w h ∈ wc.children) := by
  have hb := cleanup_BaseOK d hwf hm
  have hob := cleanup_objs_not_gen d hm
  rw [runO_some_eq hg hb hr]
  intro w hw h hh
  exact ⟨⟨_, finalDoc_filter_primary cfg (cleanup d) hb hob hg w h hw hh, rfl⟩,
    ⟨_, finalDoc_filter_ucx cfg (cleanup d) hb hob hg w h hw hh, rfl⟩,
    ⟨_, finalDoc_filter_sub cfg (cleanup d) hb hg w h hw hh, rfl⟩,
    ⟨_, finalDoc_filter_width cfg (cleanup d) hb hg w hw,
      (List.perm_insertionSort alnumLe _).mem_iff.mpr
        (List.mem_map.mpr ⟨h, hh, rfl⟩)⟩⟩

theorem charsLt_sub_ucx (w h : ℤ) (hw : 0 ≤ w) (hh : 0 ≤ h) :
    charsLt (subcolName w h).data ("UCX_" ++ subcolName w h).data = true := by
  obtain ⟨c, cs, hdata, hdig⟩ := subcolName_head_digit w h hw hh
  have h1 : ("UCX_" ++ subcolName w h).data
      = 'U' :: 'C' :: 'X' :: '_' :: (subcolName w h).data := by
    rw [String.data_append]
    rfl
  rw [h1, hdata]
  have hdec : decide (c < 'U') = true := decide_eq_true (isDigit_lt_U hdig)
  simp [charsLt, pyListLt, hdec]

/-- C8: after the sorting stage, in every `"{w}x{h}"` leaf collection the
primary mesh is listed before the `"UCX_"` proxy (digit-leading names sort
before `"U"`-leading ones under plain string ordering), so the exporter's
take-the-first-mesh fallback would still pick the primary mesh. -/
theorem C8_primary_before_ucx (cfg : Config) (d r : Doc) (hg : goodSizes cfg)
    (hwf : WFDoc d) (hm : MeshOnlyGen d) (hr : runO cfg d = some r) :
    ∀ w ∈ cfg.sizesCm, ∀ h ∈ cfg.sizesCm,
      ∀ sub ∈ r.collections, sub.name = subcolName w h →
        sub.objects = [subcolName w h, "UCX_" ++ subcolName w h]
        ∧ sub.objects.head? = some (subcolName w h)
        ∧ charsLt (subcolName w h).data ("UCX_" ++ subcolName w h).data = true := by
  have hb := cleanup_BaseOK d hwf hm
  rw [runO_some_eq hg hb hr]
  intro w hw h hh sub hsub hname
  have hmem : sub ∈ (finalDoc cfg (cleanup d)).collections.filter
      (fun c => c.name == subcolName w h) :=
    List.mem_filter.mpr ⟨hsub, beq_iff_eq.mpr hname⟩
  rw [finalDoc_filter_sub cfg (cleanup d) hb hg w h hw hh] at hmem
  have hsg : sub = genSubcol w h := List.mem_singleton.mp hmem
  subst hsg
  exact ⟨rfl, rfl,
    charsLt_sub_ucx w h (le_of_lt (hg.1 w hw)) (le_of_lt (hg.1 h hh))⟩

/-- C2: after the sorting stage, the digit-named scene children (the width
collections) appear in strictly ascending numeric order, and every
digit-named collection's children are strictly ascending in the
`alnum_key` composite order. -/
theorem C2_sorted_iteration (cfg : Config) (d r : Doc) (hg : goodSizes cfg)
    (hwf : WFDoc d) (hm : MeshOnlyGen d) (hr : runO cfg d = some r) :
    (r.sceneChildren.filter (fun n => pyIsDigit n)).Pairwise
      (fun a b => strToInt a < strToInt b)
    ∧ ∀ c ∈ r.collections, pyIsDigit c.name = true →
        c.children.Pairwise (fun a b => tokensLt (alnum_key a) (alnum_key b) = true) := by
  have hb := cleanup_BaseOK d hwf hm
  rw [runO_some_eq hg hb hr]
  constructor
  · show ((cleanup d).sceneChildren
        ++ (cfg.sizesCm.map (fun w => toString w)).insertionSort nameIntLe).filter
        (fun n => pyIsDigit n) |>.Pairwise _
    rw [List.filter_append]
    have hA : (cleanup d).sceneChildren.filter (fun n => pyIsDigit n) = [] := by
      rw [List.filter_eq_nil_iff]
      intro n hn hdig
      have hgen := hb.scChildren n hn
      unfold isGeneratedName at hgen
      rw [(Bool.or_eq_false_iff.mp (Bool.or_eq_false_iff.mp hgen).1).1] at hdig
      exact absurd hdig (by simp)
    have hB : ((cfg.sizesCm.map (fun w => toString w)).insertionSort
        nameIntLe).filter (fun n => pyIsDigit n)
        = (cfg.sizesCm.map (fun w => toString w)).insertionSort nameIntLe := by
      rw [List.filter_eq_self]
      intro n hn
      obtain ⟨w, hw, rfl⟩ := List.mem_map.mp
        ((List.perm_insertionSort nameIntLe _).mem_iff.mp hn)
      exact pyIsDigit_toString_int w (le_of_lt (hg.1 w hw))
    rw [hA, hB, List.nil_append]
    have hsorted : ((cfg.sizesCm.map (fun w => toString w)).insertionSort
        nameIntLe).Pairwise nameIntLe :=
      List.sorted_insertionSort nameIntLe _
    have hnd : ((cfg.sizesCm.map (fun w => toString w)).insertionSort
        nameIntLe).Pairwise (fun a b => a ≠ b) :=
      ((List.perm_insertionSort nameIntLe _).nodup_iff.mpr
        (hg.2.map_on (fun x hx y hy hxy =>
          toString_int_inj (le_of_lt (hg.1 x hx)) (le_of_lt (hg.1 y hy)) hxy)))
    refine (hsorted.and hnd).imp_of_mem ?_
    intro a b ha hbm hab
    obtain ⟨w1, hw1, rfl⟩ := List.mem_map.mp
      ((List.perm_insertionSort nameIntLe _).mem_iff.mp ha)
    obtain ⟨w2, hw2, rfl⟩ := List.mem_map.mp
      ((List.perm_insertionSort nameIntLe _).mem_iff.mp hbm)
    have hle : strToInt (toString w1) ≤ strToInt (toString w2) := hab.1
    rw [strToInt_toString_int w1 (le_of_lt (hg.1 w1 hw1)),
      strToInt_toString_int w2 (le_of_lt (hg.1 w2 hw2))] at hle ⊢
    exact lt_of_le_of_ne hle (fun heq => hab.2 (heq ▸ rfl))
  · intro c hc hdig
    rcases List.mem_append.mp hc with hcb | hcg
    · have hgen := hb.cols c hcb
      unfold isGeneratedName at hgen
      rw [(Bool.or_eq_false_iff.mp (Bool.or_eq_false_iff.mp hgen).1).1] at hdig
      exact absurd hdig (by simp)
    · obtain ⟨w, hw, hc2⟩ := List.mem_flatMap.mp hcg
      rcases List.mem_cons.mp hc2 with rfl | hc3
      · show ((cfg.sizesCm.map (subcolName w)).insertionSort alnumLe).Pairwise _
        have hsorted : ((cfg.sizesCm.map (subcolName w)).insertionSort
            alnumLe).Pairwise alnumLe :=
          List.sorted_insertionSort alnumLe _
        have hnd : ((cfg.sizesCm.map (subcolName w)).insertionSort
            alnumLe).Pairwise (fun a b => a ≠ b) :=
          ((List.perm_insertionSort alnumLe _).nodup_iff.mpr
            (hg.2.map_on (fun x hx y hy hxy =>
              (subcolName_inj (le_of_lt (hg.1 w hw)) (le_of_lt (hg.1 x hx))
                (le_of_lt (hg.1 w hw)) (le_of_lt (hg.1 y hy)) hxy).2)))
        refine (hsorted.and hnd).imp_of_mem ?_
        intro a b ha hbm hab
        obtain ⟨h1, hh1, rfl⟩ := List.mem_map.mp
          ((List.perm_insertionSort alnumLe _).mem_iff.mp ha)
        obtain ⟨h2, hh2, rfl⟩ := List.mem_map.mp
          ((List.perm_insertionSort alnumLe _).mem_iff.mp hbm)
        refine tokensLt_of_not_lt_of_ne hab.1 ?_
        rw [alnum_key_subcolName w h1 (le_of_lt (hg.1 w hw)) (le_of_lt (hg.1 h1 hh1)),
          alnum_key_subcolName w h2 (le_of_lt (hg.1 w hw)) (le_of_lt (hg.1 h2 hh2))]
        intro hkeys
        apply hab.2
        have hh12 : h1 = h2 := by
          injection hkeys with hhd htl
          injection htl with hsnd _
          injection hsnd with h4
        rw [hh12]
      · obtain ⟨h', hh', rfl⟩ := List.mem_map.mp hc3
        have hfd : pyIsDigit (genSubcol w h').name = false :=
          pyIsDigit_false_of_contains_x (subcolName_contains_x w h'
            (le_of_lt (hg.1 w hw)) (le_of_lt (hg.1 h' hh')))
        rw [hfd] at hdig
        exact absurd hdig (by simp)

theorem mem_objsFor {cfg : Config} {pairs : List (ℤ × ℤ)} {o : PObject}
    (ho : o ∈ objsFor cfg pairs) :
    ∃ p ∈ pairs,
      o = createdPlane cfg ((p.1 : ℚ) / 100) ((p.2 : ℚ) / 100) (subcolName p.1 p.2)
      ∨ o = create_simple_plane ((p.1 : ℚ) / 100) ((p.2 : ℚ) / 100)
          ("UCX_" ++ subcolName p.1 p.2) := by
  unfold objsFor at ho
  obtain ⟨p, hp, ho2⟩ := List.mem_flatMap.mp ho
  rcases List.mem_cons.mp ho2 with rfl | ho3
  · exact ⟨p, hp, Or.inl rfl⟩
  · rcases List.mem_cons.mp ho3 with rfl | ho4
    · exact ⟨p, hp, Or.inr rfl⟩
    · exact absurd ho4 (List.not_mem_nil _)

theorem objsFor_mesh {cfg : Config} {pairs : List (ℤ × ℤ)} {o : PObject}
    (ho : o ∈ objsFor cfg pairs) : o.objType = "MESH" := by
  obtain ⟨p, _, hcase⟩ := mem_objsFor ho
  rcases hcase with rfl | rfl
  · rfl
  · rfl

theorem objsFor_name_gen {cfg : Config} (hpos : ∀ s ∈ cfg.sizesCm, 0 < s)
    {o : PObject} (ho : o ∈ objsFor cfg (cmPairs cfg)) :
    isGeneratedName o.name = true := by
  obtain ⟨p, hp, hcase⟩ := mem_objsFor ho
  obtain ⟨hp1, hp2⟩ := mem_cmPairs.mp (by simpa using hp)
  rcases hcase with rfl | rfl
  · exact isGeneratedName_subcolName p.1 p.2 (le_of_lt (hpos p.1 hp1))
      (le_of_lt (hpos p.2 hp2))
  · exact isGeneratedName_ucx _

theorem genCols_name_gen {cfg : Config} (hpos : ∀ s ∈ cfg.sizesCm, 0 < s)
    {g : Collection} (hgmem : g ∈ genCols cfg) : isGeneratedName g.name = true := by
  unfold genCols at hgmem
  obtain ⟨w, hw, h2⟩ := List.mem_flatMap.mp hgmem
  rcases List.mem_cons.mp h2 with rfl | h3
  · exact isGeneratedName_toString w (le_of_lt (hpos w hw))
  · obtain ⟨h, hh, rfl⟩ := List.mem_map.mp h3
    exact isGeneratedName_subcolName w h (le_of_lt (hpos w hw)) (le_of_lt (hpos h hh))

theorem removeNamesOf_gen {d : Doc} {n : String} (hn : n ∈ removeNamesOf d) :
    isGeneratedName n = true := by
  obtain ⟨c, _, hgen, rfl⟩ := mem_removeNamesOf.mp hn
  exact hgen

/-- Cleaning the final document of a run gives back the cleaned base: the
run adds only mesh objects and generated-named collections, all of which
the next cleanup removes again. -/
theorem cleanup_finalDoc (cfg : Config) (b : Doc) (hb : BaseOK b)
    (hob : ∀ o ∈ b.objects, isGeneratedName o.name = false)
    (hg : goodSizes cfg) :
    cleanup (finalDoc cfg b) = b := by
  have hFobj : (finalDoc cfg b).objects = b.objects ++ objsFor cfg (cmPairs cfg) := rfl
  have hFcols : (finalDoc cfg b).collections = b.collections ++ genCols cfg := rfl
  have hFsc : (finalDoc cfg b).sceneChildren
      = b.sceneChildren
        ++ (cfg.sizesCm.map (fun w => toString w)).insertionSort nameIntLe := rfl
  have hFso : (finalDoc cfg b).sceneObjects = b.sceneObjects := rfl
  have hmesh_gen : ∀ n ∈ meshNamesOf (finalDoc cfg b), isGeneratedName n = true := by
    intro n hn
    obtain ⟨o, ho, homesh, rfl⟩ := mem_meshNamesOf.mp hn
    rw [hFobj] at ho
    rcases List.mem_append.mp ho with hob2 | hog
    · exact absurd homesh (hb.objsNonMesh o hob2)
    · exact objsFor_name_gen hg.1 hog
  have hobjs : (finalDoc cfg b).objects.filter (fun o => o.objType != "MESH")
      = b.objects := by
    rw [hFobj, List.filter_append]
    have h1 : b.objects.filter (fun o => o.objType != "MESH") = b.objects := by
      rw [List.filter_eq_self]
      intro o ho
      simpa using hb.objsNonMesh o ho
    have h2 : (objsFor cfg (cmPairs cfg)).filter (fun o => o.objType != "MESH")
        = [] := by
      rw [List.filter_eq_nil_iff]
      intro o ho
      simp [objsFor_mesh ho]
    rw [h1, h2, List.append_nil]
  have hsobj : (finalDoc cfg b).sceneObjects.filter
      (fun n => !(meshNamesOf (finalDoc cfg b)).contains n) = b.sceneObjects := by
    rw [hFso, List.filter_eq_self]
    intro n hn
    cases hcc : (meshNamesOf (finalDoc cfg b)).contains n with
    | false => rfl
    | true =>
      have hgen := hmesh_gen n (contains_iff_mem.mp hcc)
      have hng := hb.scObjs n hn
      rw [hgen] at hng
      exact absurd hng (by simp)
  have hscene : (finalDoc cfg b).sceneChildren.filter
      (fun n => !(removeNamesOf (finalDoc cfg b)).contains n) = b.sceneChildren := by
    rw [hFsc, List.filter_append]
    have h1 : b.sceneChildren.filter
        (fun n => !(removeNamesOf (finalDoc cfg b)).contains n) = b.sceneChildren := by
      rw [List.filter_eq_self]
      intro n hn
      cases hcc : (removeNamesOf (finalDoc cfg b)).contains n with
      | false => rfl
      | true =>
        have hgen := removeNamesOf_gen (contains_iff_mem.mp hcc)
        have hng := hb.scChildren n hn
        rw [hgen] at hng
        exact absurd hng (by simp)
    have h2 : ((cfg.sizesCm.map (fun w => toString w)).insertionSort
        nameIntLe).filter
        (fun n => !(removeNamesOf (finalDoc cfg b)).contains n) = [] := by
      rw [List.filter_eq_nil_iff]
      intro n hn
      obtain ⟨w, hw, rfl⟩ := List.mem_map.mp
        ((List.perm_insertionSort nameIntLe _).mem_iff.mp hn)
      have hmem : toString w ∈ removeNamesOf (finalDoc cfg b) := by
        apply mem_removeNamesOf.mpr
        refine ⟨genWidthCol cfg w, ?_,
          isGeneratedName_toString w (le_of_lt (hg.1 w hw)), rfl⟩
        rw [hFcols]
        exact List.mem_append.mpr (Or.inr (List.mem_flatMap.mpr
          ⟨w, hw, List.mem_cons_self _ _⟩))
      intro hx
      rw [contains_iff_mem.mpr hmem] at hx
      simp at hx
    rw [h1, h2, List.append_nil]
  have hcols : (((finalDoc cfg b).collections.map
        (fun c => { c with
                    objects := c.objects.filter
                      (fun n => !(meshNamesOf (finalDoc cfg b)).contains n) })).filter
        (fun c => !(removeNamesOf (finalDoc cfg b)).contains c.name)).map
        (fun c => { c with
                    children := c.children.filter
                      (fun n => !(removeNamesOf (finalDoc cfg b)).contains n) })
      = b.collections := by
    rw [hFcols, List.map_append]
    have h1 : b.collections.map
        (fun c => { c with
                    objects := c.objects.filter
                      (fun n => !(meshNamesOf (finalDoc cfg b)).contains n) })
        = b.collections := by
      have hpt : ∀ c ∈ b.collections, ({ c with
          objects := c.objects.filter
            (fun n => !(meshNamesOf (finalDoc cfg b)).contains n) } : Collection)
          = c := by
        intro c hc
        have hf : c.objects.filter
            (fun n => !(meshNamesOf (finalDoc cfg b)).contains n) = c.objects := by
          rw [List.filter_eq_self]
          intro n hn
          cases hcc : (meshNamesOf (finalDoc cfg b)).contains n with
          | false => rfl
          | true =>
            have hgen := hmesh_gen n (contains_iff_mem.mp hcc)
            have hng := hb.colObjs c hc n hn
            rw [hgen] at hng
            exact absurd hng (by simp)
        rw [hf]
      rw [List.map_congr_left hpt, List.map_id']
    rw [h1, List.filter_append]
    have h2 : ((genCols cfg).map
        (fun c => { c with
                    objects := c.objects.filter
                      (fun n => !(meshNamesOf (finalDoc cfg b)).contains n) })).filter
        (fun c => !(removeNamesOf (finalDoc cfg b)).contains c.name) = [] := by
      rw [List.filter_eq_nil_iff]
      intro c' hc'
      obtain ⟨g, hgmem, rfl⟩ := List.mem_map.mp hc'
      have hmem : g.name ∈ removeNamesOf (finalDoc cfg b) := by
        apply mem_removeNamesOf.mpr
        refine ⟨g, ?_, genCols_name_gen hg.1 hgmem, rfl⟩
        rw [hFcols]
        exact List.mem_append.mpr (Or.inr hgmem)
      intro hx
      rw [contains_iff_mem.mpr hmem] at hx
      simp at hx
    have h3 : b.collections.filter
        (fun c => !(removeNamesOf (finalDoc cfg b)).contains c.name)
        = b.collections := by
      rw [List.filter_eq_self]
      intro c hc
      cases hcc : (removeNamesOf (finalDoc cfg b)).contains c.name with
      | false => rfl
      | true =>
        have hgen := removeNamesOf_gen (contains_iff_mem.mp hcc)
        have hng := hb.cols c hc
        rw [hgen] at hng
        exact absurd hng (by simp)
    rw [h2, h3, List.append_nil]
    have hpt2 : ∀ c ∈ b.collections, ({ c with
        children := c.children.filter
          (fun n => !(removeNamesOf (finalDoc cfg b)).contains n) } : Collection)
        = c := by
      intro c hc
      have hf : c.children.filter
          (fun n => !(removeNamesOf (finalDoc cfg b)).contains n) = c.children := by
        rw [List.filter_eq_self]
        intro n hn
        cases hcc : (removeNamesOf (finalDoc cfg b)).contains n with
        | false => rfl
        | true =>
          have hgen := removeNamesOf_gen (contains_iff_mem.mp hcc)
          have hng := hb.children c hc n hn
          rw [hgen] at hng
          exact absurd hng (by simp)
      rw [hf]
    rw [List.map_congr_left hpt2, List.map_id']
  rw [cleanup_fields, hcols, hobjs, hscene, hsobj]

/-- C3: running the generator twice in succession yields the same final
document as running it once, because cleanup removes every mesh object and
every generated-named collection, clearing all previously generated
content before regeneration. -/
theorem C3_idempotent (cfg : Config) (d r : Doc) (hg : goodSizes cfg)
    (hwf : WFDoc d) (hm : MeshOnlyGen d) (hr : runO cfg d = some r) :
    runO cfg r = some r := by
  have hb := cleanup_BaseOK d hwf hm
  have hob := cleanup_objs_not_gen d hm
  have hre := runO_some_eq hg hb hr
  have hcr : cleanup r = cleanup d := by
    rw [hre]
    exact cleanup_finalDoc cfg (cleanup d) hb hob hg
  have hbr : BaseOK (cleanup r) := hcr ▸ hb
  rw [runO_eq_finalDoc' cfg r hg hbr, hcr, ← hre]

theorem C3_idempotent_witness :
    goodSizes tinyConfig ∧ WFDoc emptyDoc ∧ MeshOnlyGen emptyDoc ∧
    runO tinyConfig emptyDoc = some (finalDoc tinyConfig (cleanup emptyDoc)) ∧
    runO tinyConfig (finalDoc tinyConfig (cleanup emptyDoc))
      = some (finalDoc tinyConfig (cleanup emptyDoc)) := by
  have hgt : goodSizes tinyConfig := ⟨by decide, by decide⟩
  have hwfe : WFDoc emptyDoc := ⟨by decide, by decide, by decide, by decide⟩
  have hme : MeshOnlyGen emptyDoc := fun o ho => absurd ho (List.not_mem_nil _)
  have hrun := runO_eq_finalDoc tinyConfig emptyDoc hgt hwfe hme
  exact ⟨hgt, hwfe, hme, hrun,
    C3_idempotent tinyConfig emptyDoc (finalDoc tinyConfig (cleanup emptyDoc))
      hgt hwfe hme hrun⟩

theorem C2_sorted_iteration_witness :
    goodSizes tinyConfig ∧ WFDoc emptyDoc ∧ MeshOnlyGen emptyDoc ∧
    runO tinyConfig emptyDoc = some (finalDoc tinyConfig (cleanup emptyDoc)) ∧
    (((finalDoc tinyConfig (cleanup emptyDoc)).sceneChildren.filter
        (fun n => pyIsDigit n)).Pairwise (fun a b => strToInt a < strToInt b)
      ∧ ∀ c ∈ (finalDoc tinyConfig (cleanup emptyDoc)).collections,
          pyIsDigit c.name = true →
          c.children.Pairwise
            (fun a b => tokensLt (alnum_key a) (alnum_key b) = true)) := by
  have hgt : goodSizes tinyConfig := ⟨by decide, by decide⟩
  have hwfe : WFDoc emptyDoc := ⟨by decide, by decide, by decide, by decide⟩
  have hme : MeshOnlyGen emptyDoc := fun o ho => absurd ho (List.not_mem_nil _)
  have hrun := runO_eq_finalDoc tinyConfig emptyDoc hgt hwfe hme
  exact ⟨hgt, hwfe, hme, hrun,
    C2_sorted_iteration tinyConfig emptyDoc (finalDoc tinyConfig (cleanup emptyDoc))
      hgt hwfe hme hrun⟩

theorem C4_exactly_one_per_pair_witness :
    goodSizes tinyConfig ∧ WFDoc emptyDoc ∧ MeshOnlyGen emptyDoc ∧
    runO tinyConfig emptyDoc = some (finalDoc tinyConfig (cleanup emptyDoc)) ∧
    (20 : ℤ) ∈ tinyConfig.sizesCm ∧
    ((∃ o, (finalDoc tinyConfig (cleanup emptyDoc)).objects.filter
          (fun o2 => o2.name == subcolName 20 20) = [o] ∧ o.objType = "MESH")
      ∧ (∃ o, (finalDoc tinyConfig (cleanup emptyDoc)).objects.filter
          (fun o2 => o2.name == "UCX_" ++ subcolName 20 20) = [o]
            ∧ o.objType = "MESH")
      ∧ (∃ sub, (finalDoc tinyConfig (cleanup emptyDoc)).collections.filter
          (fun c => c.name == subcolName 20 20) = [sub]
            ∧ sub.objects = [subcolName 20 20, "UCX_" ++ subcolName 20 20])
      ∧ (∃ wc, (finalDoc tinyConfig (cleanup emptyDoc)).collections.filter
          (fun c => c.name == toString (20 : ℤ)) = [wc]
            ∧ subcolName 20 20 ∈ wc.children)) := by
  have hgt : goodSizes tinyConfig := ⟨by decide, by decide⟩
  have hwfe : WFDoc emptyDoc := ⟨by decide, by decide, by decide, by decide⟩
  have hme : MeshOnlyGen emptyDoc := fun o ho => absurd ho (List.not_mem_nil _)
  have hrun := runO_eq_finalDoc tinyConfig emptyDoc hgt hwfe hme
  exact ⟨hgt, hwfe, hme, hrun, by decide,
    C4_exactly_one_per_pair tinyConfig emptyDoc
      (finalDoc tinyConfig (cleanup emptyDoc)) hgt hwfe hme hrun
      20 (by decide) 20 (by decide)⟩

theorem C8_primary_before_ucx_witness :
    goodSizes tinyConfig ∧ WFDoc emptyDoc ∧ MeshOnlyGen emptyDoc ∧
    runO tinyConfig emptyDoc = some (finalDoc tinyConfig (cleanup emptyDoc)) ∧
    genSubcol 20 20 ∈ (finalDoc tinyConfig (cleanup emptyDoc)).collections ∧
    ((genSubcol 20 20).objects = [subcolName 20 20, "UCX_" ++ subcolName 20 20]
      ∧ (genSubcol 20 20).objects.head? = some (subcolName 20 20)
      ∧ charsLt (subcolName 20 20).data ("UCX_" ++ subcolName 20 20).data = true) := by
  have hgt : goodSizes tinyConfig := ⟨by decide, by decide⟩
  have hwfe : WFDoc emptyDoc := ⟨by decide, by decide, by decide, by decide⟩
  have hme : MeshOnlyGen emptyDoc := fun o ho => absurd ho (List.not_mem_nil _)
  have hrun := runO_eq_finalDoc tinyConfig emptyDoc hgt hwfe hme
  have hmemc : genSubcol 20 20 ∈ (finalDoc tinyConfig (cleanup emptyDoc)).collections := by
    show genSubcol 20 20 ∈ (cleanup emptyDoc).collections ++ genCols tinyConfig
    refine List.mem_append.mpr (Or.inr ?_)
    unfold genCols
    exact List.mem_flatMap.mpr ⟨20, by decide,
      List.mem_cons_of_mem _ (List.mem_map.mpr ⟨20, by decide, rfl⟩)⟩
  exact ⟨hgt, hwfe, hme, hrun, hmemc,
    C8_primary_before_ucx tinyConfig emptyDoc
      (finalDoc tinyConfig (cleanup emptyDoc)) hgt hwfe hme hrun
      20 (by decide) 20 (by decide) (genSubcol 20 20) hmemc rfl⟩
